import Mathlib

/-!
Expansion of GPDB legacy partition syntax (parse_partition_gp.c)

A shallow embedding of `src/backend/parser/parse_partition_gp.c`:

* `qsort_stmt_cmp`, the comparator used to sort the generated CreateStmts;
* `deduceImplicitRangeBounds`, the sort followed by the pass that fills in
  implicit START/END bounds;
* `initPartEveryIterator` / `nextPartBound`, the START/END/EVERY iterator;
* `makePartitionCreateStmt`, `generateRangePartitions`, `generateListPartition`,
  `generateDefaultPartition` and `generatePartitions`, the generators.

Datums of the partition column are values of an arbitrary type `D`.  The
comparison support function of the key and the `+` expression built by
`initPlusExprState` are functions handed in from outside.  `ereport(ERROR)`
and `elog(ERROR)` are modelled by `Except.error`; reading a list cell that
does not exist, or the `constvalue` of a node that is not a Const, has no
defined result in C and is modelled by `none`.
-/

namespace PartitionGp

/-! ## Data model -/

/-- Errors raised by the functions of parse_partition_gp.c, one constructor per
message. -/
inductive PartError where
  /-- collation of partition bound value does not match partition key collation -/
  | collationMismatch
  /-- specified value cannot be cast to the type of the column -/
  | cannotCastValue
  /-- cannot use NULL with range partition specification -/
  | cannotUseNull
  /-- plus-operator returned NULL -/
  | plusReturnedNull
  /-- EVERY clause requires START and END -/
  | everyRequiresStartEnd
  /-- EVERY parameter too small -/
  | everyTooSmall
  /-- END parameter not reached before type overflows -/
  | endNotReached
  /-- missing boundary specification in partition of type RANGE -/
  | missingRangeBoundary
  /-- invalid boundary specification for RANGE partition -/
  | invalidRangeBoundary
  /-- too many columns for RANGE partition -- only one column is allowed -/
  | tooManyRangeColumns
  /-- invalid number of start values -/
  | invalidNumberOfStartValues
  /-- invalid number of end values -/
  | invalidNumberOfEndValues
  /-- invalid number of every values -/
  | invalidNumberOfEveryValues
  /-- missing boundary specification in partition of type LIST -/
  | missingListBoundary
  /-- invalid boundary specification for LIST partition -/
  | invalidListBoundary
  /-- VALUES specification with more than one column not allowed -/
  | valuesMoreThanOneColumn
  /-- invalid tablename specification -/
  | invalidTablename
  /-- no partitions specified at depth N -/
  | noPartitionsAtDepth (depth : Nat)
  /-- Not supported partition strategy -/
  | notSupportedStrategy
  /-- column storage directives not implemented yet -/
  | columnStorageDirectives
  /-- an error raised inside a collaborator that lives outside this file
  (operator lookup, evaluation of the operator, transformation of a bound) -/
  | collaborator (msg : String)
  deriving DecidableEq, Repr

/-- The partition strategy character of a key or a bound (`unset` is the zero
byte left by makeNode). -/
inductive PartitionStrategy where
  | unset
  | hash
  | list
  | range
  deriving DecidableEq, Repr

/-- The nodes stored in the datum lists of a PartitionBoundSpec: a Const
carrying a datum, or a ColumnRef (used for the minvalue and maxvalue markers). -/
inductive Node (D : Type) where
  | Const (constvalue : D)
  | ColumnRef (fields : List String)
  deriving DecidableEq, Repr

/-- PartitionBoundSpec, restricted to the fields that parse_partition_gp.c
reads or writes.  A `List *` that is NULL is the empty list NIL. -/
structure PartitionBoundSpec (D : Type) where
  strategy : PartitionStrategy := PartitionStrategy.unset
  is_default : Bool := false
  listdatums : List (Node D) := []
  lowerdatums : List (Node D) := []
  upperdatums : List (Node D) := []
  deriving DecidableEq, Repr

/-- An argument of a DefElem: a String node with its value, or a node of
another kind. -/
inductive DefArg where
  | str (sval : String)
  | other
  deriving DecidableEq, Repr

/-- DefElem: one `name = value` option of a WITH clause. -/
structure DefElem where
  defname : String
  arg : DefArg
  deriving DecidableEq, Repr

/-- A GpPartitionDefinition of the next partitioning level, as far as this file
uses one: generatePartitions reads its istemplate flag and otherwise only hands
the node on.  The elements it holds are not read here; `partDefElems` is a
number that stands for them. -/
structure SubPartitionDefinition where
  istemplate : Bool
  partDefElems : Nat
  deriving DecidableEq, Repr

/-- PartitionSpec of the sub-partitioning level: its strategy name, which this
file never touches, and the GpPartitionDefinition it carries (if any). -/
structure PartitionSpec where
  strategy : String := ""
  gpPartDef : Option SubPartitionDefinition := none
  deriving DecidableEq, Repr

/-- CreateStmt, restricted to the name of the child relation (of its RangeVar),
its bound, and the fields that makePartitionCreateStmt fills from the partition
element and the parent relation. -/
structure CreateStmt (D : Type) where
  relname : String := ""
  partbound : PartitionBoundSpec D := {}
  partspec : Option PartitionSpec := none
  options : List DefElem := []
  tablespacename : Option String := none
  accessMethod : Option String := none
  relpersistence : Char := 'p'
  ownerid : Nat := 0
  deriving DecidableEq, Repr

/-- PartitionKeyData: the number of key columns, the strategy, and for each
column the comparison support function (with its collation applied), whose
int32 result is negative, zero or positive. -/
structure PartitionKeyData (D : Type) where
  partnatts : Nat
  strategy : PartitionStrategy
  partsupfunc : Nat → D → D → Int

/-! ## qsort_stmt_cmp -/

/-- The value `((Const *) lfirst(list_nth_cell(datums, i)))->constvalue`.  It is
defined only when the list has a cell number `i` and that cell holds a Const. -/
def nthConstvalue {D : Type} (datums : List (Node D)) (i : Nat) : Option D :=
  match datums.get? i with
  | some (Node.Const v) => some v
  | _ => none

/-- The loop `for (i = 0; i < partnatts; i++)` of qsort_stmt_cmp over two datum
lists, entered at column `i` with `n` iterations left: it stops at the first
column whose comparison is not zero, and ends with `cmpval = 0` when there is
none. -/
def cmpDatumLoop {D : Type} (key : PartitionKeyData D) (b1datums b2datums : List (Node D)) :
    Nat → Nat → Option Int
  | _, 0 => some 0
  | i, n + 1 =>
    match nthConstvalue b1datums i, nthConstvalue b2datums i with
    | some b1datum, some b2datum =>
      let cmpval := key.partsupfunc i b1datum b2datum
      if cmpval ≠ 0 then some cmpval else cmpDatumLoop key b1datums b2datums (i + 1) n
    | _, _ => none

/-- The comparator qsort_stmt_cmp, used when sorting CreateStmts across all
partitions. -/
def qsort_stmt_cmp {D : Type} (key : PartitionKeyData D) (b1cstmt b2cstmt : CreateStmt D) :
    Option Int :=
  let b1 := b1cstmt.partbound
  let b2 := b2cstmt.partbound
  if b1.is_default != b2.is_default then
    if b2.is_default then some 1 else some (-1)
  else if !b1.lowerdatums.isEmpty && !b2.lowerdatums.isEmpty then
    cmpDatumLoop key b1.lowerdatums b2.lowerdatums 0 key.partnatts
  else if !b1.upperdatums.isEmpty && !b2.upperdatums.isEmpty then
    cmpDatumLoop key b1.upperdatums b2.upperdatums 0 key.partnatts
  else if !b1.lowerdatums.isEmpty && !b2.upperdatums.isEmpty then
    match cmpDatumLoop key b1.lowerdatums b2.upperdatums 0 key.partnatts with
    | some cmpval => if cmpval = 0 then some 1 else some cmpval
    | none => none
  else if !b1.upperdatums.isEmpty && !b2.lowerdatums.isEmpty then
    cmpDatumLoop key b1.upperdatums b2.lowerdatums 0 key.partnatts
  else
    some 0

/-! ## deduceImplicitRangeBounds -/

/-- One insertion step of the sort: `x` goes in front of the first element it
does not compare greater than. -/
def list_qsort_insert {α : Type} (cmp : α → α → Option Int) (x : α) :
    List α → Option (List α)
  | [] => some [x]
  | y :: ys =>
    match cmp x y with
    | none => none
    | some c =>
      if c ≤ 0 then some (x :: y :: ys)
      else
        match list_qsort_insert cmp x ys with
        | none => none
        | some zs => some (y :: zs)

/-- Modelled from the spec: list_qsort (src/backend/nodes/list.c) is not among
the sources.  Following section 4.2 ("the implementation must use a stable sort
so that source order is preserved as the tie-break") it is an ascending, stable
insertion sort by the comparator; it has no result when a comparison has none. -/
def list_qsort {α : Type} (cmp : α → α → Option Int) : List α → Option (List α)
  | [] => some []
  | x :: xs =>
    match list_qsort cmp xs with
    | none => none
    | some sorted => list_qsort_insert cmp x sorted

/-- The list `list_make1(minvalue)` holding the ColumnRef named minvalue. -/
def minvalueDatums {D : Type} : List (Node D) := [Node.ColumnRef ["minvalue"]]

/-- The list `list_make1(maxvalue)` holding the ColumnRef named maxvalue. -/
def maxvalueDatums {D : Type} : List (Node D) := [Node.ColumnRef ["maxvalue"]]

/-- The `foreach(lc, stmts)` loop of deduceImplicitRangeBounds, entered with the
current value of `prevstmt` and the cells that are still to be visited. -/
def deduceLoop {D : Type} : Option (CreateStmt D) → List (CreateStmt D) → List (CreateStmt D)
  | _, [] => []
  | prevstmt, stmt :: rest =>
    let stmt1 : CreateStmt D :=
      if stmt.partbound.lowerdatums.isEmpty then
        match prevstmt with
        | some prev =>
          { stmt with partbound := { stmt.partbound with lowerdatums := prev.partbound.upperdatums } }
        | none =>
          { stmt with partbound := { stmt.partbound with lowerdatums := minvalueDatums } }
      else stmt
    let stmt2 : CreateStmt D :=
      if stmt1.partbound.upperdatums.isEmpty then
        match rest with
        | nextstmt :: _ =>
          { stmt1 with partbound := { stmt1.partbound with upperdatums := nextstmt.partbound.lowerdatums } }
        | [] =>
          { stmt1 with partbound := { stmt1.partbound with upperdatums := maxvalueDatums } }
      else stmt1
    stmt2 :: deduceLoop (some stmt2) rest

/-- The function deduceImplicitRangeBounds: sort the statements with
qsort_stmt_cmp, then deduce every implicit START or END. -/
def deduceImplicitRangeBounds {D : Type} (origstmts : List (CreateStmt D))
    (key : PartitionKeyData D) : Option (List (CreateStmt D)) :=
  match list_qsort (qsort_stmt_cmp key) origstmts with
  | none => none
  | some stmts => some (deduceLoop none stmts)

/-! ## The START/END/EVERY iterator -/

/-- A Const as returned by transformPartitionBoundValue: its datum and its
null flag. -/
structure Const (D : Type) where
  constvalue : D
  constisnull : Bool
  deriving DecidableEq, Repr

/-- The state of a compiled expression `$1 + interval`: evaluating it with the
parameter set to a datum either raises an error inside the operator, or
returns NULL (`none`), or returns a datum. -/
abbrev ExprState (D : Type) := D → Except PartError (Option D)

/-- The `interval` argument of initPlusExprState: the integer constant 1 built
for an inclusive END, or the expression of the EVERY clause. -/
inductive Interval (E : Type) where
  | one
  | every (expr : E)
  deriving DecidableEq, Repr

/-- The collaborators of the iterator that live outside this file, for raw
bound expressions of type `E` and datums of type `D`:
transformPartitionBoundValue; the expression state that initPlusExprState
obtains through make_op, coerce_to_target_type and ExecInitExprWithParams (or
the error it raises); and the datum `(Datum) 0`. -/
structure BoundEnv (E D : Type) where
  transformPartitionBoundValue : E → Except PartError (Const D)
  initPlusExprState : Interval E → Except PartError (ExprState D)
  datumZero : D

/-- PartEveryIterator without the executor state, the parameter list and the
error locations.  `plusexprstate` is `none` when the pointer is NULL. -/
structure PartEveryIterator (D : Type) where
  partkey : PartitionKeyData D
  endVal : D
  plusexprstate : Option (ExprState D)
  currStart : D
  currEnd : D
  called : Bool
  endReached : Bool

/-- The function initPartEveryIterator: parse the START, END and EVERY clauses
and set up the iterator. -/
def initPartEveryIterator {E D : Type} (env : BoundEnv E D) (partkey : PartitionKeyData D)
    (start endNode : Option E) (endIncl : Bool) (every : Option E) :
    Except PartError (PartEveryIterator D) := do
  let startVal ←
    match start with
    | some s => do
      let startConst ← env.transformPartitionBoundValue s
      if startConst.constisnull then throw PartError.cannotUseNull
      pure startConst.constvalue
    | none => pure env.datumZero
  let endVal ←
    match endNode with
    | some e => do
      let endConst ← env.transformPartitionBoundValue e
      if endConst.constisnull then throw PartError.cannotUseNull
      if endIncl then
        let plusexprstate ← env.initPlusExprState Interval.one
        match ← plusexprstate endConst.constvalue with
        | none => throw PartError.plusReturnedNull
        | some endplusone => pure endplusone
      else
        pure endConst.constvalue
    | none => pure env.datumZero
  let plusexprstate ←
    match every with
    | some ev => do
      if start.isNone || endNode.isNone then throw PartError.everyRequiresStartEnd
      let st ← env.initPlusExprState (Interval.every ev)
      pure (some st)
    | none => pure none
  pure
    { partkey := partkey
      endVal := endVal
      plusexprstate := plusexprstate
      currStart := env.datumZero
      currEnd := startVal
      called := false
      endReached := false }

/-- The function nextPartBound: advance to the next partition bound of the
START/END/EVERY specification.  The result is the returned flag together with
the iterator as the call leaves it. -/
def nextPartBound {D : Type} (iter0 : PartEveryIterator D) :
    Except PartError (Bool × PartEveryIterator D) :=
  let firstcall := !iter0.called
  let iter : PartEveryIterator D := { iter0 with called := true }
  match iter.plusexprstate with
  | some plusexprstate =>
    if iter.endReached then
      Except.ok (false, iter)
    else
      match plusexprstate iter.currEnd with
      | Except.error e => Except.error e
      | Except.ok none => Except.error PartError.plusReturnedNull
      | Except.ok (some next) =>
        let iter1 : PartEveryIterator D := { iter with currStart := iter.currEnd }
        if iter1.partkey.partsupfunc 0 next iter1.endVal ≥ 0 then
          Except.ok (true, { iter1 with endReached := true, currEnd := iter1.endVal })
        else if iter1.partkey.partsupfunc 0 iter1.currEnd next ≥ 0 then
          if firstcall then Except.error PartError.everyTooSmall
          else Except.error PartError.endNotReached
        else
          Except.ok (true, { iter1 with currEnd := next })
  | none =>
    if !firstcall then
      Except.ok (false, iter)
    else
      Except.ok (true, { iter with called := true, currStart := iter.currEnd, currEnd := iter.endVal })

/-- The loop `while (nextPartBound(boundIter))` of generateRangePartitions,
recording for every successful advance the pair (currStart, currEnd) from which
the bound of the new partition is built.  At most `fuel` calls are made; the
result is `none` when they do not suffice. -/
def partBoundLoop {D : Type} : Nat → PartEveryIterator D → Option (Except PartError (List (D × D)))
  | 0, _ => none
  | fuel + 1, iter =>
    match nextPartBound iter with
    | Except.error e => some (Except.error e)
    | Except.ok (false, _) => some (Except.ok [])
    | Except.ok (true, iter1) =>
      match partBoundLoop fuel iter1 with
      | none => none
      | some (Except.error e) => some (Except.error e)
      | some (Except.ok bounds) => some (Except.ok ((iter1.currStart, iter1.currEnd) :: bounds))

/-! ## A concrete key: one int4 column -/

/-- A sample comparison support function, for an int4 column: the three-way
comparison with results 1, 0 and -1, as btint4cmp returns them. -/
def btint4cmp (a b : Int) : Int :=
  if a > b then 1 else if a = b then 0 else -1

/-- A range partition key with one int4 column. -/
def int4Key : PartitionKeyData Int :=
  { partnatts := 1, strategy := PartitionStrategy.range, partsupfunc := fun _ => btint4cmp }

/-- Collaborators for an integer column whose bound expressions are integer
literals: a literal is its own datum, and `+` is addition of unbounded
integers. -/
def intEnv : BoundEnv Int Int :=
  { transformPartitionBoundValue := fun e => Except.ok { constvalue := e, constisnull := false }
    initPlusExprState := fun interval =>
      match interval with
      | Interval.one => Except.ok (fun x => Except.ok (some (x + 1)))
      | Interval.every k => Except.ok (fun x => Except.ok (some (x + k)))
    datumZero := 0 }

/-! ## Properties assumed of the collaborators, and sample statements -/

/-- The comparison function `f` behaves as the three-way comparison of a total
order: reversing the arguments reverses the sign, and "not greater" is
transitive. -/
structure TotalOrderCmp {D : Type} (f : D → D → Int) : Prop where
  antisymm : ∀ a b, f a b < 0 ↔ 0 < f b a
  trans : ∀ a b c, f a b ≤ 0 → f b c ≤ 0 → f a c ≤ 0

/-- Every column of the key is compared by a total order. -/
def KeyTotalOrder {D : Type} (key : PartitionKeyData D) : Prop :=
  ∀ i, i < key.partnatts → TotalOrderCmp (key.partsupfunc i)

/-- A statement for a range partition of an int4 column with the given lower
and upper datum lists (empty for an implicit bound). -/
def rangeStmt (lower upper : List Int) : CreateStmt Int :=
  { partbound :=
      { strategy := PartitionStrategy.range
        lowerdatums := lower.map Node.Const
        upperdatums := upper.map Node.Const } }

/-- The statement of a DEFAULT partition, as generateDefaultPartition builds its
bound: only is_default is set. -/
def defaultStmt : CreateStmt Int :=
  { partbound := { is_default := true } }

/-! ## Partition elements, names and the generators -/

/-- The edge of an END bound (partEndEdge). -/
inductive PartEdge where
  | unspecified
  | inclusive
  | exclusive
  deriving DecidableEq, Repr

/-- GpPartitionRangeSpec: the value lists of START, END and EVERY (NIL when the
clause is absent) and the edge of END. -/
structure GpPartitionRangeSpec (E : Type) where
  partStart : List E := []
  partEnd : List E := []
  partEndEdge : PartEdge := PartEdge.unspecified
  partEvery : List E := []
  deriving DecidableEq, Repr

/-- GpPartitionListSpec: the value groups of a VALUES clause. -/
structure GpPartitionListSpec (E : Type) where
  partValues : List (List E) := []
  deriving DecidableEq, Repr

/-- The node found in `elem->boundSpec`. -/
inductive BoundSpecNode (E : Type) where
  | rangeSpec (spec : GpPartitionRangeSpec E)
  | listSpec (spec : GpPartitionListSpec E)
  deriving DecidableEq, Repr

/-- GpPartDefElem: one partition element of the legacy syntax. -/
structure GpPartDefElem (E : Type) where
  partName : Option String := none
  boundSpec : Option (BoundSpecNode E) := none
  subSpec : Option SubPartitionDefinition := none
  isDefault : Bool := false
  options : List DefElem := []
  accessMethod : Option String := none
  tablespacename : Option String := none
  deriving DecidableEq, Repr

/-- A member of `gpPartSpec->partDefElems`: a partition element, a column
storage directive, or a node of another kind. -/
inductive PartDefNode (E : Type) where
  | elem (e : GpPartDefElem E)
  | columnReferenceStorageDirective
  | other
  deriving DecidableEq, Repr

/-- GpPartitionDefinition as handed to generatePartitions. -/
structure GpPartitionDefinition (E : Type) where
  partDefElems : List (PartDefNode E) := []
  istemplate : Bool := false
  deriving DecidableEq, Repr

/-- The struct partname_comp: the naming context of one generatePartitions
call. -/
structure partname_comp where
  tablename : Option String := none
  level : Nat := 0
  partnum : Nat := 0
  deriving DecidableEq, Repr

/-- The parent relation, restricted to what the generators read: its name,
namespace, persistence, owner, oid and partition key. -/
structure Relation (D : Type) where
  relid : Nat
  relname : String
  relnamespace : Nat
  relpersistence : Char
  relowner : Nat
  partkey : PartitionKeyData D

/-- The collaborators of the generators that live outside this file: the
constant NAMEDATALEN, makeObjectName, ChooseRelationName (for a fixed state of
the catalog), get_partition_ancestors, and transformPartitionBound applied to a
LIST bound with the given raw values (which returns the transformed bound or
raises an error with some message). -/
structure CatalogEnv (E D : Type) where
  NAMEDATALEN : Nat
  makeObjectName : String → String → String → String
  ChooseRelationName : String → String → String → Nat → Bool → String
  get_partition_ancestors : Nat → List Nat
  transformPartitionBound : List E → Except String (PartitionBoundSpec D)

/-- The text that `snprintf(buf, size, ...)` leaves in `buf` when the complete
formatted text is `formatted`: its first `size - 1` characters.  A character
stands for one byte of the server encoding. -/
def snprintf (size : Nat) (formatted : String) : String :=
  String.mk (formatted.data.take (size - 1))

/-- The function ChoosePartitionName. -/
def ChoosePartitionName {E D : Type} (cenv : CatalogEnv E D) (parentrel : Relation D)
    (levelstr : String) (partname : Option String) (partnum : Nat) : String :=
  match partname with
  | some name =>
    let partsubstring := snprintf cenv.NAMEDATALEN ("prt_" ++ name)
    cenv.makeObjectName parentrel.relname levelstr partsubstring
  | none =>
    let partsubstring := snprintf cenv.NAMEDATALEN ("prt_" ++ Nat.repr partnum)
    cenv.ChooseRelationName parentrel.relname levelstr partsubstring parentrel.relnamespace false

/-- The function makePartitionCreateStmt.  The result is the child statement
together with the naming context as the call leaves it. -/
def makePartitionCreateStmt {E D : Type} (cenv : CatalogEnv E D) (parentrel : Relation D)
    (partname : Option String) (boundspec : PartitionBoundSpec D)
    (subPart : Option PartitionSpec) (elem : GpPartDefElem E) (partnamecomp : partname_comp) :
    CreateStmt D × partname_comp :=
  let levelStr := snprintf cenv.NAMEDATALEN (Nat.repr partnamecomp.level)
  let named : String × partname_comp :=
    match partnamecomp.tablename with
    | some tablename => (tablename, partnamecomp)
    | none =>
      let partnamecomp1 := { partnamecomp with partnum := partnamecomp.partnum + 1 }
      (ChoosePartitionName cenv parentrel levelStr partname partnamecomp1.partnum, partnamecomp1)
  ({ relname := named.1
     partbound := boundspec
     partspec := subPart
     options := elem.options
     tablespacename := elem.tablespacename
     accessMethod := elem.accessMethod
     relpersistence := parentrel.relpersistence
     ownerid := parentrel.relowner }, named.2)

/-- The partition name chosen in the body of the loop of generateRangePartitions,
with the new value of the running number `i`: `partName_<++i>` (through
snprintf) for a named element with EVERY, the name of the element otherwise. -/
def everyPartName {E D : Type} (cenv : CatalogEnv E D) (elem : GpPartDefElem E)
    (every : Option E) (i : Nat) : Option String × Nat :=
  match every, elem.partName with
  | some _, some name =>
    (some (snprintf cenv.NAMEDATALEN (name ++ "_" ++ Nat.repr (i + 1))), i + 1)
  | _, _ => (elem.partName, i)

/-- The loop `while (nextPartBound(boundIter))` of generateRangePartitions with
its body; `i` is the running number of the EVERY partitions.  At most `fuel`
calls of nextPartBound are made; the result is `none` when they do not
suffice. -/
def rangePartLoop {E D : Type} (cenv : CatalogEnv E D) (parentrel : Relation D)
    (elem : GpPartDefElem E) (subPart : Option PartitionSpec) (start endNode every : Option E) :
    Nat → PartEveryIterator D → Nat → partname_comp →
      Option (Except PartError (List (CreateStmt D) × partname_comp))
  | 0, _, _, _ => none
  | fuel + 1, boundIter, i, partnamecomp =>
    match nextPartBound boundIter with
    | Except.error e => some (Except.error e)
    | Except.ok (false, _) => some (Except.ok ([], partnamecomp))
    | Except.ok (true, iter1) =>
      let boundspec : PartitionBoundSpec D :=
        { strategy := PartitionStrategy.range
          is_default := false
          lowerdatums := if start.isSome then [Node.Const iter1.currStart] else []
          upperdatums := if endNode.isSome then [Node.Const iter1.currEnd] else [] }
      let numbered := everyPartName cenv elem every i
      let made := makePartitionCreateStmt cenv parentrel numbered.1 boundspec subPart elem
        partnamecomp
      match rangePartLoop cenv parentrel elem subPart start endNode every fuel iter1 numbered.2
          made.2 with
      | none => none
      | some (Except.error e) => some (Except.error e)
      | some (Except.ok (result, partnamecomp2)) =>
        some (Except.ok (made.1 :: result, partnamecomp2))

/-- The function generateRangePartitions: generate partitions for
START (..) END (..) EVERY (..). -/
def generateRangePartitions {E D : Type} (env : BoundEnv E D) (cenv : CatalogEnv E D)
    (fuel : Nat) (parentrel : Relation D) (elem : GpPartDefElem E)
    (subPart : Option PartitionSpec) (partnamecomp : partname_comp) :
    Option (Except PartError (List (CreateStmt D) × partname_comp)) :=
  match elem.boundSpec with
  | none => some (Except.error PartError.missingRangeBoundary)
  | some (BoundSpecNode.listSpec _) => some (Except.error PartError.invalidRangeBoundary)
  | some (BoundSpecNode.rangeSpec boundspec) =>
    let partkey := parentrel.partkey
    if partkey.partnatts ≠ 1 then
      some (Except.error PartError.tooManyRangeColumns)
    else if !boundspec.partStart.isEmpty && boundspec.partStart.length ≠ partkey.partnatts then
      some (Except.error PartError.invalidNumberOfStartValues)
    else
      let start := boundspec.partStart.head?
      if !boundspec.partEnd.isEmpty && boundspec.partEnd.length ≠ partkey.partnatts then
        some (Except.error PartError.invalidNumberOfEndValues)
      else
        let endNode := boundspec.partEnd.head?
        let endIncl := !boundspec.partEnd.isEmpty && boundspec.partEndEdge == PartEdge.inclusive
        let useEvery := partnamecomp.tablename.isNone && !boundspec.partEvery.isEmpty
        if useEvery && boundspec.partEvery.length ≠ partkey.partnatts then
          some (Except.error PartError.invalidNumberOfEveryValues)
        else
          let every := if useEvery then boundspec.partEvery.head? else none
          match initPartEveryIterator env partkey start endNode endIncl every with
          | Except.error e => some (Except.error e)
          | Except.ok boundIter =>
            rangePartLoop cenv parentrel elem subPart start endNode every fuel boundIter 0
              partnamecomp

/-- The `foreach (lc, gpvaluesspec->partValues)` loop of generateListPartition:
every value group must hold exactly one value, which is appended to the list. -/
def collectListDatums {E : Type} : List (List E) → Except PartError (List E)
  | [] => Except.ok []
  | thisvalue :: rest =>
    match thisvalue with
    | [v] =>
      match collectListDatums rest with
      | Except.error e => Except.error e
      | Except.ok listdatums => Except.ok (v :: listdatums)
    | _ => Except.error PartError.valuesMoreThanOneColumn

/-- The function generateListPartition. -/
def generateListPartition {E D : Type} (cenv : CatalogEnv E D) (parentrel : Relation D)
    (elem : GpPartDefElem E) (subPart : Option PartitionSpec) (partnamecomp : partname_comp) :
    Except PartError (List (CreateStmt D) × partname_comp) :=
  match elem.boundSpec with
  | none => Except.error PartError.missingListBoundary
  | some (BoundSpecNode.rangeSpec _) => Except.error PartError.invalidListBoundary
  | some (BoundSpecNode.listSpec gpvaluesspec) =>
    match collectListDatums gpvaluesspec.partValues with
    | Except.error e => Except.error e
    | Except.ok listdatums =>
      match cenv.transformPartitionBound listdatums with
      | Except.error msg => Except.error (PartError.collaborator msg)
      | Except.ok boundspec =>
        let made := makePartitionCreateStmt cenv parentrel elem.partName boundspec subPart elem
          partnamecomp
        Except.ok ([made.1], made.2)

/-- The function generateDefaultPartition. -/
def generateDefaultPartition {E D : Type} (cenv : CatalogEnv E D) (parentrel : Relation D)
    (elem : GpPartDefElem E) (subPart : Option PartitionSpec) (partnamecomp : partname_comp) :
    List (CreateStmt D) × partname_comp :=
  let boundspec : PartitionBoundSpec D := { is_default := true }
  let made := makePartitionCreateStmt cenv parentrel elem.partName boundspec subPart elem
    partnamecomp
  ([made.1], made.2)

/-- The function extract_tablename_from_options: the value of the first option
named tablename, and the option list without that option. -/
def extract_tablename_from_options : List DefElem → Except PartError (Option String × List DefElem)
  | [] => Except.ok (none, [])
  | pDef :: rest =>
    if pDef.defname = "tablename" then
      match pDef.arg with
      | DefArg.str relname_str => Except.ok (some relname_str, rest)
      | DefArg.other => Except.error PartError.invalidTablename
    else
      match extract_tablename_from_options rest with
      | Except.error e => Except.error e
      | Except.ok (tablename, rest1) => Except.ok (tablename, pDef :: rest1)

/-- The value of tmpSubPartSpec in the loop of generatePartitions: a copy of the
sub-partition specification, carrying the definition of the element itself
unless the specification is a template. -/
def elemSubPartSpec {E : Type} (subPartSpec : Option PartitionSpec) (isSubTemplate : Bool)
    (elem : GpPartDefElem E) : Option PartitionSpec :=
  match subPartSpec with
  | some sp => some (if !isSubTemplate then { sp with gpPartDef := elem.subSpec } else sp)
  | none => none

/-- The element as the loop of generatePartitions overwrites it: the options
left by extract_tablename_from_options, or the options of the parent when none
are left, and the access method of the parent when the element names none. -/
def elemWithInherited {E : Type} (elem : GpPartDefElem E) (options1 : List DefElem)
    (parentoptions : List DefElem) (parentaccessmethod : Option String) : GpPartDefElem E :=
  { elem with
    options := if options1.isEmpty then parentoptions else options1
    accessMethod :=
      match elem.accessMethod with
      | some am => some am
      | none => parentaccessmethod }

/-- The choice of the generator in the loop of generatePartitions: the default
generator for a DEFAULT element, otherwise the generator of the key strategy. -/
def generateForStrategy {E D : Type} (env : BoundEnv E D) (cenv : CatalogEnv E D) (fuel : Nat)
    (parentrel : Relation D) (elem : GpPartDefElem E) (tmpSubPartSpec : Option PartitionSpec)
    (partcomp : partname_comp) : Option (Except PartError (List (CreateStmt D) × partname_comp)) :=
  if elem.isDefault then
    some (Except.ok (generateDefaultPartition cenv parentrel elem tmpSubPartSpec partcomp))
  else
    match parentrel.partkey.strategy with
    | PartitionStrategy.range =>
      generateRangePartitions env cenv fuel parentrel elem tmpSubPartSpec partcomp
    | PartitionStrategy.list =>
      some (generateListPartition cenv parentrel elem tmpSubPartSpec partcomp)
    | _ => some (Except.error PartError.notSupportedStrategy)

/-- The body of the `foreach(lc, gpPartSpec->partDefElems)` loop of
generatePartitions for a GpPartDefElem.  The result holds the new partitions,
the naming context, and the element as the body leaves it (its options and
access method are overwritten in place). -/
def generatePartitionsElem {E D : Type} (env : BoundEnv E D) (cenv : CatalogEnv E D)
    (fuel : Nat) (parentrel : Relation D) (subPartSpec : Option PartitionSpec)
    (isSubTemplate : Bool) (parentoptions : List DefElem) (parentaccessmethod : Option String)
    (elem : GpPartDefElem E) (partcomp : partname_comp) :
    Option (Except PartError (List (CreateStmt D) × partname_comp × GpPartDefElem E)) :=
  match elemSubPartSpec subPartSpec isSubTemplate elem with
  | some { strategy := _, gpPartDef := none } =>
    some (Except.error (PartError.noPartitionsAtDepth (partcomp.level + 1)))
  | tmpSubPartSpec =>
    match extract_tablename_from_options elem.options with
    | Except.error e => some (Except.error e)
    | Except.ok (tablename, options1) =>
      let partcomp1 : partname_comp := { partcomp with tablename := tablename }
      let elem1 := elemWithInherited elem options1 parentoptions parentaccessmethod
      match generateForStrategy env cenv fuel parentrel elem1 tmpSubPartSpec partcomp1 with
      | none => none
      | some (Except.error e) => some (Except.error e)
      | some (Except.ok (new_parts, partcomp2)) => some (Except.ok (new_parts, partcomp2, elem1))

/-- The loop `foreach(lc, gpPartSpec->partDefElems)` of generatePartitions.  The
result holds the concatenated partitions, the naming context after the last
element, and the nodes of the list as the loop leaves them. -/
def generatePartitionsLoop {E D : Type} (env : BoundEnv E D) (cenv : CatalogEnv E D)
    (fuel : Nat) (parentrel : Relation D) (subPartSpec : Option PartitionSpec)
    (isSubTemplate : Bool) (parentoptions : List DefElem) (parentaccessmethod : Option String) :
    List (PartDefNode E) → partname_comp →
      Option (Except PartError (List (CreateStmt D) × partname_comp × List (PartDefNode E)))
  | [], partcomp => some (Except.ok ([], partcomp, []))
  | PartDefNode.elem elem :: rest, partcomp =>
    match generatePartitionsElem env cenv fuel parentrel subPartSpec isSubTemplate parentoptions
        parentaccessmethod elem partcomp with
    | none => none
    | some (Except.error e) => some (Except.error e)
    | some (Except.ok (new_parts, partcomp1, elem1)) =>
      match generatePartitionsLoop env cenv fuel parentrel subPartSpec isSubTemplate
          parentoptions parentaccessmethod rest partcomp1 with
      | none => none
      | some (Except.error e) => some (Except.error e)
      | some (Except.ok (result, partcomp2, rest1)) =>
        some (Except.ok (new_parts ++ result, partcomp2, PartDefNode.elem elem1 :: rest1))
  | PartDefNode.columnReferenceStorageDirective :: _, _ =>
    some (Except.error PartError.columnStorageDirectives)
  | PartDefNode.other :: rest, partcomp =>
    match generatePartitionsLoop env cenv fuel parentrel subPartSpec isSubTemplate
        parentoptions parentaccessmethod rest partcomp with
    | none => none
    | some (Except.error e) => some (Except.error e)
    | some (Except.ok (result, partcomp2, rest1)) =>
      some (Except.ok (result, partcomp2, PartDefNode.other :: rest1))

/-- The function generatePartitions: create the list of CreateStmts for the
partitions of `parentrel` described by `gpPartSpec`.  The result is `none` when
a loop over nextPartBound needs more than `fuel` calls or the sort reads a
datum that is not there. -/
def generatePartitions {E D : Type} (env : BoundEnv E D) (cenv : CatalogEnv E D) (fuel : Nat)
    (parentrel : Relation D) (gpPartSpec : GpPartitionDefinition E)
    (subPartSpec : Option PartitionSpec) (parentoptions : List DefElem)
    (parentaccessmethod : Option String) : Option (Except PartError (List (CreateStmt D))) :=
  let ancestors := cenv.get_partition_ancestors parentrel.relid
  let partcomp : partname_comp := { tablename := none, level := ancestors.length + 1, partnum := 0 }
  match extract_tablename_from_options parentoptions with
  | Except.error e => some (Except.error e)
  | Except.ok (_, parentoptions1) =>
    let isSubTemplate : Bool :=
      match subPartSpec with
      | some sp =>
        match sp.gpPartDef with
        | some gpPartDef => gpPartDef.istemplate
        | none => false
      | none => false
    match generatePartitionsLoop env cenv fuel parentrel subPartSpec isSubTemplate parentoptions1
        parentaccessmethod gpPartSpec.partDefElems partcomp with
    | none => none
    | some (Except.error e) => some (Except.error e)
    | some (Except.ok (result, _, _)) =>
      if parentrel.partkey.strategy = PartitionStrategy.range then
        match deduceImplicitRangeBounds result parentrel.partkey with
        | none => none
        | some stmts => some (Except.ok stmts)
      else
        some (Except.ok result)

/-! ## Sample collaborators for an int4 column -/

/-- Sample catalog collaborators: NAMEDATALEN is 64, an object name is the three
parts joined by underscores, and a LIST bound takes each literal as its datum. -/
def intCatalogEnv : CatalogEnv Int Int :=
  { NAMEDATALEN := 64
    makeObjectName := fun name1 name2 label => name1 ++ "_" ++ name2 ++ "_" ++ label
    ChooseRelationName := fun name1 name2 label _ _ => name1 ++ "_" ++ name2 ++ "_" ++ label
    get_partition_ancestors := fun _ => []
    transformPartitionBound := fun values =>
      Except.ok { strategy := PartitionStrategy.list, listdatums := values.map Node.Const } }

/-- A sample parent relation `t`, range partitioned on one int4 column. -/
def rangeParent : Relation Int :=
  { relid := 16384, relname := "t", relnamespace := 2200, relpersistence := 'p', relowner := 10,
    partkey := int4Key }

/-- A sample parent relation `t`, list partitioned on one int4 column. -/
def listParent : Relation Int :=
  { relid := 16384, relname := "t", relnamespace := 2200, relpersistence := 'p', relowner := 10,
    partkey := { int4Key with strategy := PartitionStrategy.list } }

/-! ## Sample collaborators for literals that need a coercion -/

/-- A raw bound literal: an integer literal or a quoted text. -/
inductive Literal where
  | int (ival : Int)
  | text (sval : String)
  deriving DecidableEq, Repr

/-- The coercion of a list of literals to int4 datums: it fails at the first
quoted text. -/
def coerceLiterals : List Literal → Except String (List Int)
  | [] => Except.ok []
  | Literal.int n :: rest =>
    match coerceLiterals rest with
    | Except.error msg => Except.error msg
    | Except.ok ds => Except.ok (n :: ds)
  | Literal.text _ :: _ => Except.error "invalid input syntax for type integer"

/-- Sample catalog collaborators for an int4 column whose bound values are
written as literals: as intCatalogEnv, but a LIST bound is accepted only when
every literal is an integer literal. -/
def literalCatalogEnv : CatalogEnv Literal Int :=
  { NAMEDATALEN := 64
    makeObjectName := fun name1 name2 label => name1 ++ "_" ++ name2 ++ "_" ++ label
    ChooseRelationName := fun name1 name2 label _ _ => name1 ++ "_" ++ name2 ++ "_" ++ label
    get_partition_ancestors := fun _ => []
    transformPartitionBound := fun values =>
      match coerceLiterals values with
      | Except.error msg => Except.error msg
      | Except.ok ds =>
        Except.ok { strategy := PartitionStrategy.list, listdatums := ds.map Node.Const } }

/-- The node is a partition element whose options hold one named tablename. -/
def carriesTablename {E : Type} (node : PartDefNode E) : Bool :=
  match node with
  | PartDefNode.elem e => e.options.any (fun pDef => pDef.defname == "tablename")
  | _ => false

/-! ## Statements about the descriptors of an element -/

/-- The statement carries the fields that makePartitionCreateStmt copies from
the partition element `elem` and the sub-partition specification `subPart`. -/
def BuiltFor {E D : Type} (elem : GpPartDefElem E) (subPart : Option PartitionSpec)
    (stmt : CreateStmt D) : Prop :=
  stmt.options = elem.options ∧ stmt.accessMethod = elem.accessMethod ∧
  stmt.tablespacename = elem.tablespacename ∧ stmt.partspec = subPart

/-- The option is named tablename. -/
def isTablenameOption (pDef : DefElem) : Bool :=
  pDef.defname == "tablename"

/-- The value of isSubTemplate in generatePartitions. -/
def isSubTemplateOf (subPartSpec : Option PartitionSpec) : Bool :=
  match subPartSpec with
  | some sp =>
    match sp.gpPartDef with
    | some gpPartDef => gpPartDef.istemplate
    | none => false
  | none => false

/-- The descriptors generated for each element of the list, one list per
GpPartDefElem in the order of the elements, with the naming context handed from
each element to the next as the loop of generatePartitions does. -/
def generatedPerElement {E D : Type} (env : BoundEnv E D) (cenv : CatalogEnv E D)
    (fuel : Nat) (parentrel : Relation D) (subPartSpec : Option PartitionSpec)
    (isSubTemplate : Bool) (parentoptions : List DefElem) (parentaccessmethod : Option String) :
    List (PartDefNode E) → partname_comp → Option (Except PartError (List (List (CreateStmt D))))
  | [], _ => some (Except.ok [])
  | PartDefNode.elem elem :: rest, partcomp =>
    match generatePartitionsElem env cenv fuel parentrel subPartSpec isSubTemplate parentoptions
        parentaccessmethod elem partcomp with
    | none => none
    | some (Except.error e) => some (Except.error e)
    | some (Except.ok (new_parts, partcomp1, _)) =>
      match generatedPerElement env cenv fuel parentrel subPartSpec isSubTemplate parentoptions
          parentaccessmethod rest partcomp1 with
      | none => none
      | some (Except.error e) => some (Except.error e)
      | some (Except.ok parts) => some (Except.ok (new_parts :: parts))
  | PartDefNode.columnReferenceStorageDirective :: _, _ =>
    some (Except.error PartError.columnStorageDirectives)
  | PartDefNode.other :: rest, partcomp =>
    generatedPerElement env cenv fuel parentrel subPartSpec isSubTemplate parentoptions
      parentaccessmethod rest partcomp

/-- The specification as a successful call of generatePartitions leaves it: the
elements with their options and access method overwritten in place. -/
def specAfterGeneratePartitions {E D : Type} (env : BoundEnv E D) (cenv : CatalogEnv E D)
    (fuel : Nat) (parentrel : Relation D) (gpPartSpec : GpPartitionDefinition E)
    (subPartSpec : Option PartitionSpec) (parentoptions : List DefElem)
    (parentaccessmethod : Option String) : Option (GpPartitionDefinition E) :=
  match extract_tablename_from_options parentoptions with
  | Except.error _ => none
  | Except.ok (_, parentoptions1) =>
    match generatePartitionsLoop env cenv fuel parentrel subPartSpec
        (isSubTemplateOf subPartSpec) parentoptions1 parentaccessmethod gpPartSpec.partDefElems
        { tablename := none
          level := (cenv.get_partition_ancestors parentrel.relid).length + 1
          partnum := 0 } with
    | some (Except.ok (_, _, nodes1)) => some { gpPartSpec with partDefElems := nodes1 }
    | _ => none

/-- The collaborators of the iterator never raise the error "no partitions
specified at depth": neither transformPartitionBoundValue, nor
initPlusExprState, nor the evaluation of an expression state it returned. -/
def RaisesNoDepthError {E D : Type} (env : BoundEnv E D) : Prop :=
  (∀ s n, env.transformPartitionBoundValue s ≠
    Except.error (PartError.noPartitionsAtDepth n)) ∧
  (∀ interval n, env.initPlusExprState interval ≠
    Except.error (PartError.noPartitionsAtDepth n)) ∧
  (∀ interval st x n, env.initPlusExprState interval = Except.ok st →
    st x ≠ Except.error (PartError.noPartitionsAtDepth n))

/-- The GpPartDefElem nodes of a list of partition definition elements, in the
order of the list: the nodes for which the loop of generatePartitions generates
partitions. -/
def specElems {E : Type} : List (PartDefNode E) → List (GpPartDefElem E)
  | [] => []
  | PartDefNode.elem elem :: rest => elem :: specElems rest
  | PartDefNode.columnReferenceStorageDirective :: rest => specElems rest
  | PartDefNode.other :: rest => specElems rest

/-! ## A domain with an unreachable END -/

end PartitionGp

/-! ## The parameter array of xslt_process

The function parse_params of `contrib/xml2/xslt_proc.c`.  The array `params` is
a list of cells of the allocated length, and a store into it is checked against
that length, so that a store outside the array shows as a fault.  palloc and
repalloc are taken to succeed, and the counters are natural numbers: the
theorems bound max_params by the larger of 20 and twice the length of the
string, which is below 2^31 for every text value. -/

namespace XsltProc

/-- A cell of the array `params`: not yet written, a pointer into the buffer
`pstr` (as an offset), or NULL. -/
inductive Cell where
  | uninit
  | ptr (offset : Nat)
  | null
  deriving DecidableEq, Repr

/-- What can go wrong in the model: a store at an index that is not below the
allocated number of cells, or a loop that needs more iterations than the model
was given. -/
inductive Fault where
  | outOfBounds (index size : Nat)
  | outOfFuel
  deriving DecidableEq, Repr

/-- The call `palloc(size * sizeof(char *))`: `size` cells, none written. -/
def palloc (size : Nat) : List Cell :=
  List.replicate size Cell.uninit

/-- The call `repalloc(params, size * sizeof(char *))`: the old cells, as many as
fit, followed by cells not yet written. -/
def repalloc (params : List Cell) (size : Nat) : List Cell :=
  (params ++ List.replicate (size - params.length) Cell.uninit).take size

/-- The store `params[index] = cell`, a fault when `index` is outside the
array. -/
def store (params : List Cell) (index : Nat) (cell : Cell) : Except Fault (List Cell) :=
  if index < params.length then Except.ok (params.set index cell)
  else Except.error (Fault.outOfBounds index params.length)

/-- The offset of the first character `sep` in a C string, which ends at its
first NUL character or at the end of the list. -/
def findSep (sep : Char) : List Char → Option Nat
  | [] => none
  | c :: cs =>
    if c = '\x00' then none
    else if c = sep then some 0
    else
      match findSep sep cs with
      | some offset => some (offset + 1)
      | none => none

/-- The call `strstr(pos, sep)` for a separator of one character, as `nvsep` and
`itsep` are: the position in the buffer of the first `sep` at or after `pos`, or
`none` for NULL. -/
def strstr (buf : List Char) (pos : Nat) (sep : Char) : Option Nat :=
  match findSep sep (buf.drop pos) with
  | some offset => some (pos + offset)
  | none => none

/-- The array `params` with the variables max_params and nparams. -/
structure ParamsArray where
  params : List Cell
  max_params : Nat
  nparams : Nat
  deriving DecidableEq, Repr

/-- The growth check at the top of the loop body: when nparams has reached
max_params, max_params is doubled and the array reallocated. -/
def growIfFull (arr : ParamsArray) : ParamsArray :=
  if arr.nparams ≥ arr.max_params then
    { arr with
      max_params := arr.max_params * 2
      params := repalloc arr.params (arr.max_params * 2 + 1) }
  else arr

/-- The loop `while (*pos != '\0')` of parse_params over the buffer `buf`, which
the loop writes NUL characters into.  At most `fuel` iterations are made. -/
def parseLoop : Nat → List Char → Nat → ParamsArray → Except Fault (List Char × ParamsArray)
  | 0, _, _, _ => Except.error Fault.outOfFuel
  | fuel + 1, buf, pos, arr =>
    if buf.getD pos '\x00' = '\x00' then
      Except.ok (buf, arr)
    else
      let arr1 := growIfFull arr
      match store arr1.params arr1.nparams (Cell.ptr pos) with
      | Except.error fault => Except.error fault
      | Except.ok params1 =>
        match strstr buf pos '=' with
        | none =>
          Except.ok (buf, { arr1 with params := params1, nparams := arr1.nparams + 1 - 1 })
        | some eq =>
          let buf1 := buf.set eq '\x00'
          match store params1 (arr1.nparams + 1) (Cell.ptr (eq + 1)) with
          | Except.error fault => Except.error fault
          | Except.ok params2 =>
            let arr2 : ParamsArray :=
              { arr1 with params := params2, nparams := arr1.nparams + 1 + 1 }
            match strstr buf1 (eq + 1) ',' with
            | none => Except.ok (buf1, arr2)
            | some comma => parseLoop fuel (buf1.set comma '\x00') (comma + 1) arr2

/-- The function parse_params on the C string `pstr`: the buffer as the function
leaves it, and the array with its terminator stored. -/
def parse_params (pstr : List Char) : Except Fault (List Char × ParamsArray) :=
  match parseLoop (pstr.length + 1) pstr 0
      { params := palloc (20 + 1), max_params := 20, nparams := 0 } with
  | Except.error fault => Except.error fault
  | Except.ok (buf, arr) =>
    match store arr.params arr.nparams Cell.null with
    | Except.error fault => Except.error fault
    | Except.ok params => Except.ok (buf, { arr with params := params })

/-- The state of the array at the top of the loop of parse_params and when the
loop is left, for a buffer of `len` characters: nparams and max_params are
even, nparams does not exceed max_params, the array has max_params + 1 cells,
and the first nparams cells hold pointers. -/
def ArrayInv (len : Nat) (arr : ParamsArray) : Prop :=
  arr.nparams % 2 = 0 ∧ arr.max_params % 2 = 0 ∧ 0 < arr.max_params ∧
  arr.nparams ≤ arr.max_params ∧ arr.params.length = arr.max_params + 1 ∧
  (∀ i, i < arr.nparams → ∃ offset, arr.params[i]? = some (Cell.ptr offset)) ∧
  arr.max_params ≤ max 20 (2 * len)

end XsltProc

namespace PartitionGp

/-! ## Theorems -/

theorem btint4cmp_totalOrder : TotalOrderCmp btint4cmp := by
  constructor
  · intro a b
    unfold btint4cmp
    split_ifs <;> omega
  · intro a b c
    unfold btint4cmp
    split_ifs <;> omega

theorem int4Key_totalOrder : KeyTotalOrder int4Key := by
  intro i _
  exact btint4cmp_totalOrder

theorem TotalOrderCmp.lt_of_lt_of_le {D : Type} {f : D → D → Int} (hf : TotalOrderCmp f)
    {a b c : D} (hab : f a b < 0) (hbc : f b c ≤ 0) : f a c < 0 := by
  by_contra hac
  have hca : f c a ≤ 0 := by
    by_contra h
    exact hac ((hf.antisymm a c).mpr (by omega))
  have hba : f b a ≤ 0 := hf.trans b c a hbc hca
  have := (hf.antisymm a b).mp hab
  omega

theorem TotalOrderCmp.lt_of_le_of_lt {D : Type} {f : D → D → Int} (hf : TotalOrderCmp f)
    {a b c : D} (hab : f a b ≤ 0) (hbc : f b c < 0) : f a c < 0 := by
  by_contra hac
  have hca : f c a ≤ 0 := by
    by_contra h
    exact hac ((hf.antisymm a c).mpr (by omega))
  have hcb : f c b ≤ 0 := hf.trans c a b hca hab
  have := (hf.antisymm b c).mp hbc
  omega

theorem TotalOrderCmp.eq_zero_symm {D : Type} {f : D → D → Int} (hf : TotalOrderCmp f)
    {a b : D} (hab : f a b = 0) : f b a = 0 := by
  have h1 := hf.antisymm a b
  have h2 := hf.antisymm b a
  omega

theorem TotalOrderCmp.eq_zero_trans {D : Type} {f : D → D → Int} (hf : TotalOrderCmp f)
    {a b c : D} (hab : f a b = 0) (hbc : f b c = 0) : f a c = 0 := by
  have hle : f a c ≤ 0 := hf.trans a b c (by omega) (by omega)
  have hcb := hf.eq_zero_symm hbc
  by_contra hne
  have hlt : f a c < 0 := by omega
  have := hf.lt_of_lt_of_le hlt (show f c b ≤ 0 by omega)
  omega

/-- The column loop of qsort_stmt_cmp is transitive: when the loop over (b1, b2)
and the loop over (b2, b3) both end with a result that is not positive, so does
the loop over (b1, b3). -/
theorem cmpDatumLoop_trans {D : Type} (key : PartitionKeyData D) (b1 b2 b3 : List (Node D)) :
    ∀ (n i : Nat) (x y : Int),
      (∀ j, i ≤ j → j < i + n → TotalOrderCmp (key.partsupfunc j)) →
      cmpDatumLoop key b1 b2 i n = some x → cmpDatumLoop key b2 b3 i n = some y →
      x ≤ 0 → y ≤ 0 → ∃ z, cmpDatumLoop key b1 b3 i n = some z ∧ z ≤ 0 := by
  intro n
  induction n with
  | zero =>
    intro i x y _ _ _ _ _
    exact ⟨0, rfl, le_refl _⟩
  | succ n ih =>
    intro i x y hord h12 h23 hx hy
    have hf : TotalOrderCmp (key.partsupfunc i) := hord i (le_refl _) (by omega)
    have hord1 : ∀ j, i + 1 ≤ j → j < i + 1 + n → TotalOrderCmp (key.partsupfunc j) :=
      fun j h1 h2 => hord j (by omega) (by omega)
    unfold cmpDatumLoop at h12 h23 ⊢
    cases h1 : nthConstvalue b1 i with
    | none => simp [h1] at h12
    | some d1 =>
      cases h2 : nthConstvalue b2 i with
      | none => simp [h1, h2] at h12
      | some d2 =>
        cases h3 : nthConstvalue b3 i with
        | none => simp [h2, h3] at h23
        | some d3 =>
          simp only [h1, h2, h3] at h12 h23 ⊢
          by_cases c12 : key.partsupfunc i d1 d2 = 0
          · by_cases c23 : key.partsupfunc i d2 d3 = 0
            · have c13 := hf.eq_zero_trans c12 c23
              simp only [c12, c23, c13, ne_eq, not_true_eq_false, if_false] at h12 h23 ⊢
              exact ih (i + 1) x y hord1 h12 h23 hx hy
            · simp only [c23, ne_eq, not_false_eq_true, if_true, Option.some.injEq] at h23
              have c12le : key.partsupfunc i d1 d2 ≤ 0 := by omega
              have c23lt : key.partsupfunc i d2 d3 < 0 := by omega
              have c13 : key.partsupfunc i d1 d3 < 0 := hf.lt_of_le_of_lt c12le c23lt
              refine ⟨key.partsupfunc i d1 d3, ?_, by omega⟩
              simp [show key.partsupfunc i d1 d3 ≠ 0 by omega]
          · simp only [c12, ne_eq, not_false_eq_true, if_true, Option.some.injEq] at h12
            have c23 : key.partsupfunc i d2 d3 ≤ 0 := by
              by_cases c : key.partsupfunc i d2 d3 = 0
              · omega
              · simp only [c, ne_eq, not_false_eq_true, if_true, Option.some.injEq] at h23
                omega
            have c12lt : key.partsupfunc i d1 d2 < 0 := by omega
            have c13 : key.partsupfunc i d1 d3 < 0 := hf.lt_of_lt_of_le c12lt c23
            refine ⟨key.partsupfunc i d1 d3, ?_, by omega⟩
            simp [show key.partsupfunc i d1 d3 ≠ 0 by omega]

theorem isEmpty_eq_false_of_ne_nil {α : Type} {l : List α} (h : l ≠ []) : l.isEmpty = false := by
  cases l with
  | nil => exact absurd rfl h
  | cons _ _ => rfl

theorem isEmpty_eq_true_of_eq_nil {α : Type} {l : List α} (h : l = []) : l.isEmpty = true := by
  subst h
  rfl

/-- C2 (the code departs from the claim): for the non-default range partition
[1, 10) and a DEFAULT partition, qsort_stmt_cmp(range, default) is 1 and
qsort_stmt_cmp(default, range) is -1, the opposite of the signs the claim
states, and the ascending sort puts the DEFAULT partition first. -/
theorem qsort_stmt_cmp_default_compares_smaller :
    qsort_stmt_cmp int4Key (rangeStmt [1] [10]) defaultStmt = some 1 ∧
    qsort_stmt_cmp int4Key defaultStmt (rangeStmt [1] [10]) = some (-1) ∧
    list_qsort (qsort_stmt_cmp int4Key) [rangeStmt [1] [10], defaultStmt]
      = some [defaultStmt, rangeStmt [1] [10]] := by
  refine ⟨?_, ?_, ?_⟩ <;> decide

/-- C3 (counterexample): with a = [5, 6), b = (implicit, 7) and c = [1, 8) over
an int4 key, qsort_stmt_cmp(a, b) = -1 and qsort_stmt_cmp(b, c) = -1, yet
qsort_stmt_cmp(a, c) = 1: the comparator is not transitive. -/
theorem qsort_stmt_cmp_not_transitive :
    ¬ (∀ (a b c : CreateStmt Int) (x y z : Int),
        qsort_stmt_cmp int4Key a b = some x → qsort_stmt_cmp int4Key b c = some y →
        qsort_stmt_cmp int4Key a c = some z → x ≤ 0 → y ≤ 0 → z ≤ 0) := by
  intro h
  have := h (rangeStmt [5] [6]) (rangeStmt [] [7]) (rangeStmt [1] [8]) (-1) (-1) 1
    (by decide) (by decide) (by decide) (by decide) (by decide)
  omega

/-- C3 (amended): qsort_stmt_cmp is transitive on statements that are compared
through the same bound: when a, b and c all have a lower bound, or none of them
has a lower bound and all have an upper bound, and every key column is compared
by a total order, then qsort_stmt_cmp(a, b) <= 0 and qsort_stmt_cmp(b, c) <= 0
give a result qsort_stmt_cmp(a, c) <= 0. -/
theorem qsort_stmt_cmp_trans_same_bound {D : Type} (key : PartitionKeyData D)
    (hkey : KeyTotalOrder key) (a b c : CreateStmt D) (x y : Int)
    (hkind :
      (a.partbound.lowerdatums ≠ [] ∧ b.partbound.lowerdatums ≠ [] ∧
        c.partbound.lowerdatums ≠ []) ∨
      (a.partbound.lowerdatums = [] ∧ b.partbound.lowerdatums = [] ∧
        c.partbound.lowerdatums = [] ∧ a.partbound.upperdatums ≠ [] ∧
        b.partbound.upperdatums ≠ [] ∧ c.partbound.upperdatums ≠ []))
    (hab : qsort_stmt_cmp key a b = some x) (hbc : qsort_stmt_cmp key b c = some y)
    (hx : x ≤ 0) (hy : y ≤ 0) :
    ∃ z, qsort_stmt_cmp key a c = some z ∧ z ≤ 0 := by
  have hord : ∀ j, 0 ≤ j → j < 0 + key.partnatts → TotalOrderCmp (key.partsupfunc j) :=
    fun j _ h => hkey j (by omega)
  rcases hkind with ⟨hla, hlb, hlc⟩ | ⟨hla, hlb, hlc, hua, hub, huc⟩
  · have ea := isEmpty_eq_false_of_ne_nil hla
    have eb := isEmpty_eq_false_of_ne_nil hlb
    have ec := isEmpty_eq_false_of_ne_nil hlc
    cases ha : a.partbound.is_default <;> cases hb : b.partbound.is_default <;>
      cases hc : c.partbound.is_default <;>
      simp [qsort_stmt_cmp, ha, hb, hc, ea, eb, ec] at hab hbc ⊢ <;>
      first
        | omega
        | exact cmpDatumLoop_trans key _ _ _ _ _ x y hord hab hbc hx hy
  · have ea := isEmpty_eq_true_of_eq_nil hla
    have eb := isEmpty_eq_true_of_eq_nil hlb
    have ec := isEmpty_eq_true_of_eq_nil hlc
    have fa := isEmpty_eq_false_of_ne_nil hua
    have fb := isEmpty_eq_false_of_ne_nil hub
    have fc := isEmpty_eq_false_of_ne_nil huc
    cases ha : a.partbound.is_default <;> cases hb : b.partbound.is_default <;>
      cases hc : c.partbound.is_default <;>
      simp [qsort_stmt_cmp, ha, hb, hc, ea, eb, ec, fa, fb, fc] at hab hbc ⊢ <;>
      first
        | omega
        | exact cmpDatumLoop_trans key _ _ _ _ _ x y hord hab hbc hx hy

/-- C3 (amended), applied to the statements with lower bounds 1, 5 and 7. -/
theorem qsort_stmt_cmp_trans_same_bound_witness :
    ∃ z, qsort_stmt_cmp int4Key (rangeStmt [1] []) (rangeStmt [7] [9]) = some z ∧ z ≤ 0 :=
  qsort_stmt_cmp_trans_same_bound int4Key int4Key_totalOrder
    (rangeStmt [1] []) (rangeStmt [5] [6]) (rangeStmt [7] [9]) (-1) (-1)
    (Or.inl ⟨by decide, by decide, by decide⟩) (by decide) (by decide) (by decide) (by decide)

/-- C4 (the code departs from the claim): for a = (lower 5, no upper) and
b = (no lower, upper 5) over an int4 key, qsort_stmt_cmp(a, b) is 1 but
qsort_stmt_cmp(b, a) is 0; the two results do not have opposite signs. -/
theorem qsort_stmt_cmp_tie_not_antisymmetric :
    qsort_stmt_cmp int4Key (rangeStmt [5] []) (rangeStmt [] [5]) = some 1 ∧
    qsort_stmt_cmp int4Key (rangeStmt [] [5]) (rangeStmt [5] []) = some 0 := by
  constructor <;> decide

/-- C5 (the code departs from the claim): with the lower-only side START(10) and
the upper-only side END(10), whose bounds compare equal, the call
qsort_stmt_cmp(upperSide, lowerSide) returns 0; it is not negative. -/
theorem qsort_stmt_cmp_upper_lower_tie_is_zero :
    btint4cmp 10 10 = 0 ∧
    qsort_stmt_cmp int4Key (rangeStmt [] [10]) (rangeStmt [10] []) = some 0 ∧
    ¬ (∃ z, qsort_stmt_cmp int4Key (rangeStmt [] [10]) (rangeStmt [10] []) = some z ∧ z < 0) := by
  refine ⟨by decide, by decide, ?_⟩
  rintro ⟨z, hz, hneg⟩
  have h0 : qsort_stmt_cmp int4Key (rangeStmt [] [10]) (rangeStmt [10] []) = some 0 := by decide
  rw [h0] at hz
  cases hz
  omega

/-- One step of the loop of deduceImplicitRangeBounds: the statement put in
front, its bounds, and the fields the step leaves alone. -/
theorem deduceLoop_cons {D : Type} (prevstmt : Option (CreateStmt D)) (stmt : CreateStmt D)
    (rest : List (CreateStmt D)) :
    ∃ stmt2 : CreateStmt D,
      deduceLoop prevstmt (stmt :: rest) = stmt2 :: deduceLoop (some stmt2) rest ∧
      stmt2.partbound.lowerdatums =
        (if stmt.partbound.lowerdatums.isEmpty then
          (match prevstmt with
            | some prev => prev.partbound.upperdatums
            | none => minvalueDatums)
         else stmt.partbound.lowerdatums) ∧
      stmt2.partbound.upperdatums =
        (if stmt.partbound.upperdatums.isEmpty then
          (match rest with
            | nextstmt :: _ => nextstmt.partbound.lowerdatums
            | [] => maxvalueDatums)
         else stmt.partbound.upperdatums) ∧
      stmt2.relname = stmt.relname ∧
      stmt2.partbound.is_default = stmt.partbound.is_default ∧
      stmt2.partbound.strategy = stmt.partbound.strategy ∧
      stmt2.partbound.listdatums = stmt.partbound.listdatums := by
  refine ⟨_, rfl, ?_, ?_, ?_, ?_, ?_, ?_⟩ <;>
    cases prevstmt <;> cases rest <;>
    cases hl : stmt.partbound.lowerdatums.isEmpty <;>
    cases hu : stmt.partbound.upperdatums.isEmpty <;>
    simp [hl, hu]

theorem deduceLoop_length {D : Type} (stmts : List (CreateStmt D)) :
    ∀ prevstmt : Option (CreateStmt D), (deduceLoop prevstmt stmts).length = stmts.length := by
  induction stmts with
  | nil => intro p; simp [deduceLoop]
  | cons stmt rest ih =>
    intro p
    obtain ⟨stmt2, h, -⟩ := deduceLoop_cons p stmt rest
    rw [h, List.length_cons, List.length_cons, ih]

/-- C6 (the code departs from the claim): for the sibling range elements
START(1) and END(10), in either insertion order, the sort yields
[START(1), END(10)] and the fill pass leaves the upper bound of the first and
the lower bound of the second absent: deduceImplicitRangeBounds returns both
statements as they were. -/
theorem deduceImplicitRangeBounds_leaves_bounds_absent :
    qsort_stmt_cmp int4Key (rangeStmt [1] []) (rangeStmt [] [10]) = some (-1) ∧
    qsort_stmt_cmp int4Key (rangeStmt [] [10]) (rangeStmt [1] []) = some 1 ∧
    deduceImplicitRangeBounds [rangeStmt [1] [], rangeStmt [] [10]] int4Key
      = some [rangeStmt [1] [], rangeStmt [] [10]] ∧
    deduceImplicitRangeBounds [rangeStmt [] [10], rangeStmt [1] []] int4Key
      = some [rangeStmt [1] [], rangeStmt [] [10]] ∧
    (rangeStmt [1] []).partbound.upperdatums = [] ∧
    (rangeStmt [] [10]).partbound.lowerdatums = [] := by
  refine ⟨?_, ?_, ?_, ?_, ?_, ?_⟩ <;> decide

/-- The lower bound given to a statement whose lower bound is implicit, for a
loop entered with any value of prevstmt. -/
theorem deduceLoop_lower_from {D : Type} (stmts : List (CreateStmt D)) :
    ∀ (prevstmt : Option (CreateStmt D)) (i : Nat) (stmt : CreateStmt D),
      stmts[i]? = some stmt → stmt.partbound.lowerdatums = [] →
      ∃ out, (deduceLoop prevstmt stmts)[i]? = some out ∧
        ((i = 0 ∧ out.partbound.lowerdatums =
            (match prevstmt with
              | some prev => prev.partbound.upperdatums
              | none => minvalueDatums)) ∨
         (∃ j prev, i = j + 1 ∧ (deduceLoop prevstmt stmts)[j]? = some prev ∧
            out.partbound.lowerdatums = prev.partbound.upperdatums)) := by
  induction stmts with
  | nil => intro p i stmt h; simp at h
  | cons s rest ih =>
    intro p i stmt h habs
    obtain ⟨s2, hcons, hlow, -⟩ := deduceLoop_cons p s rest
    rw [hcons]
    cases i with
    | zero =>
      simp only [List.getElem?_cons_zero, Option.some.injEq] at h
      subst h
      refine ⟨s2, by simp, Or.inl ⟨rfl, ?_⟩⟩
      rw [hlow, habs]
      rfl
    | succ j =>
      simp only [List.getElem?_cons_succ] at h
      obtain ⟨out, hout, hcase⟩ := ih (some s2) j stmt h habs
      refine ⟨out, by simpa using hout, Or.inr ?_⟩
      rcases hcase with ⟨hj, hl⟩ | ⟨k, prev, hj, hprev, hl⟩
      · subst hj
        exact ⟨0, s2, rfl, by simp, hl⟩
      · subst hj
        exact ⟨k + 1, prev, rfl, by simpa using hprev, hl⟩

/-- The upper bound given to a statement whose upper bound is implicit, for a
loop entered with any value of prevstmt. -/
theorem deduceLoop_upper_from {D : Type} (stmts : List (CreateStmt D)) :
    ∀ (prevstmt : Option (CreateStmt D)) (i : Nat) (stmt : CreateStmt D),
      stmts[i]? = some stmt → stmt.partbound.upperdatums = [] →
      ∃ out, (deduceLoop prevstmt stmts)[i]? = some out ∧
        ((i + 1 = stmts.length ∧ out.partbound.upperdatums = maxvalueDatums) ∨
         (∃ next, stmts[i + 1]? = some next ∧
            out.partbound.upperdatums = next.partbound.lowerdatums)) := by
  induction stmts with
  | nil => intro p i stmt h; simp at h
  | cons s rest ih =>
    intro p i stmt h habs
    obtain ⟨s2, hcons, -, hup, -⟩ := deduceLoop_cons p s rest
    rw [hcons]
    cases i with
    | zero =>
      simp only [List.getElem?_cons_zero, Option.some.injEq] at h
      subst h
      refine ⟨s2, by simp, ?_⟩
      rw [hup, habs]
      cases rest with
      | nil => exact Or.inl ⟨rfl, rfl⟩
      | cons nextstmt tail => exact Or.inr ⟨nextstmt, by simp, rfl⟩
    | succ j =>
      simp only [List.getElem?_cons_succ] at h
      obtain ⟨out, hout, hcase⟩ := ih (some s2) j stmt h habs
      refine ⟨out, by simpa using hout, ?_⟩
      rcases hcase with ⟨hj, hl⟩ | ⟨next, hnext, hl⟩
      · exact Or.inl ⟨by simp [hj], hl⟩
      · exact Or.inr ⟨next, by simpa using hnext, hl⟩

/-- C7: in the fill pass of deduceImplicitRangeBounds (the loop entered with
prevstmt = NULL), a statement at position i whose lower bound is absent before
the pass gets the minvalue marker, the one-element list holding the ColumnRef
with the single field "minvalue", when i is the first position, and otherwise
the upper bound that the statement at position i - 1 holds in the result of the
pass, that is, after that statement was processed. -/
theorem deduceLoop_fills_lower {D : Type} (stmts : List (CreateStmt D)) (i : Nat)
    (stmt : CreateStmt D) (hi : stmts[i]? = some stmt)
    (habs : stmt.partbound.lowerdatums = []) :
    ∃ out, (deduceLoop none stmts)[i]? = some out ∧
      ((i = 0 ∧ out.partbound.lowerdatums = [Node.ColumnRef ["minvalue"]]) ∨
       (∃ prev, 0 < i ∧ (deduceLoop none stmts)[i - 1]? = some prev ∧
          out.partbound.lowerdatums = prev.partbound.upperdatums)) := by
  obtain ⟨out, hout, hcase⟩ := deduceLoop_lower_from stmts none i stmt hi habs
  refine ⟨out, hout, ?_⟩
  rcases hcase with ⟨h0, hl⟩ | ⟨j, prev, hj, hprev, hl⟩
  · exact Or.inl ⟨h0, hl⟩
  · subst hj
    exact Or.inr ⟨prev, Nat.succ_pos j, by simpa using hprev, hl⟩

/-- C7 at the batch [END(5), (implicit, 10), (implicit, implicit)]: position 0
gets the minvalue marker, position 1 the upper bound 5 of position 0 and
position 2 the upper bound 10 of position 1. -/
theorem deduceLoop_fills_lower_witness :
    (deduceLoop none [rangeStmt [] [5], rangeStmt [] [10], rangeStmt [] []]).map
        (fun out => out.partbound.lowerdatums)
      = [[Node.ColumnRef ["minvalue"]], [Node.Const 5], [Node.Const 10]] ∧
    (∃ out, (deduceLoop none [rangeStmt [] [5], rangeStmt [] [10], rangeStmt [] []])[0]? = some out ∧
      ((0 = 0 ∧ out.partbound.lowerdatums = [Node.ColumnRef ["minvalue"]]) ∨
       (∃ prev, 0 < 0 ∧
          (deduceLoop none [rangeStmt [] [5], rangeStmt [] [10], rangeStmt [] []])[0 - 1]? = some prev ∧
          out.partbound.lowerdatums = prev.partbound.upperdatums))) ∧
    (∃ out, (deduceLoop none [rangeStmt [] [5], rangeStmt [] [10], rangeStmt [] []])[1]? = some out ∧
      ((1 = 0 ∧ out.partbound.lowerdatums = [Node.ColumnRef ["minvalue"]]) ∨
       (∃ prev, 0 < 1 ∧
          (deduceLoop none [rangeStmt [] [5], rangeStmt [] [10], rangeStmt [] []])[1 - 1]? = some prev ∧
          out.partbound.lowerdatums = prev.partbound.upperdatums))) :=
  ⟨by decide,
   deduceLoop_fills_lower [rangeStmt [] [5], rangeStmt [] [10], rangeStmt [] []] 0
    (rangeStmt [] [5]) (by decide) (by decide),
   deduceLoop_fills_lower [rangeStmt [] [5], rangeStmt [] [10], rangeStmt [] []] 1
    (rangeStmt [] [10]) (by decide) (by decide)⟩

/-- C8: in the fill pass of deduceImplicitRangeBounds, a statement at position i
whose upper bound is absent before the pass gets the maxvalue marker, the
one-element list holding the ColumnRef with the single field "maxvalue", when i
is the last position, and otherwise the lower bound that the statement at
position i + 1 has before the pass. -/
theorem deduceLoop_fills_upper {D : Type} (stmts : List (CreateStmt D)) (i : Nat)
    (stmt : CreateStmt D) (hi : stmts[i]? = some stmt)
    (habs : stmt.partbound.upperdatums = []) :
    ∃ out, (deduceLoop none stmts)[i]? = some out ∧
      ((i + 1 = stmts.length ∧ out.partbound.upperdatums = [Node.ColumnRef ["maxvalue"]]) ∨
       (∃ next, stmts[i + 1]? = some next ∧
          out.partbound.upperdatums = next.partbound.lowerdatums)) :=
  deduceLoop_upper_from stmts none i stmt hi habs

/-- C8 at the batch [START(1), START(5) END(10), START(10)]: position 0 gets the
lower bound 5 of position 1, and position 2, the last, the maxvalue marker. -/
theorem deduceLoop_fills_upper_witness :
    (deduceLoop none [rangeStmt [1] [], rangeStmt [5] [10], rangeStmt [10] []]).map
        (fun out => out.partbound.upperdatums)
      = [[Node.Const 5], [Node.Const 10], [Node.ColumnRef ["maxvalue"]]] ∧
    (∃ out, (deduceLoop none [rangeStmt [1] [], rangeStmt [5] [10], rangeStmt [10] []])[0]? = some out ∧
      ((0 + 1 = [rangeStmt [1] [], rangeStmt [5] [10], rangeStmt [10] []].length ∧
          out.partbound.upperdatums = [Node.ColumnRef ["maxvalue"]]) ∨
       (∃ next, [rangeStmt [1] [], rangeStmt [5] [10], rangeStmt [10] []][0 + 1]? = some next ∧
          out.partbound.upperdatums = next.partbound.lowerdatums))) ∧
    (∃ out, (deduceLoop none [rangeStmt [1] [], rangeStmt [5] [10], rangeStmt [10] []])[2]? = some out ∧
      ((2 + 1 = [rangeStmt [1] [], rangeStmt [5] [10], rangeStmt [10] []].length ∧
          out.partbound.upperdatums = [Node.ColumnRef ["maxvalue"]]) ∨
       (∃ next, [rangeStmt [1] [], rangeStmt [5] [10], rangeStmt [10] []][2 + 1]? = some next ∧
          out.partbound.upperdatums = next.partbound.lowerdatums))) :=
  ⟨by decide,
   deduceLoop_fills_upper [rangeStmt [1] [], rangeStmt [5] [10], rangeStmt [10] []] 0
    (rangeStmt [1] []) (by decide) (by decide),
   deduceLoop_fills_upper [rangeStmt [1] [], rangeStmt [5] [10], rangeStmt [10] []] 2
    (rangeStmt [10] []) (by decide) (by decide)⟩

/-- The result of nextPartBound on an iterator with an EVERY expression whose
evaluation at currEnd returns the datum `next`. -/
theorem nextPartBound_of_next {D : Type} (iter : PartEveryIterator D) (plus : ExprState D)
    (next : D) (hplus : iter.plusexprstate = some plus)
    (hnext : plus iter.currEnd = Except.ok (some next)) :
    nextPartBound iter =
      if iter.endReached then Except.ok (false, { iter with called := true })
      else if iter.partkey.partsupfunc 0 next iter.endVal ≥ 0 then
        Except.ok (true, { iter with
          called := true, currStart := iter.currEnd, endReached := true, currEnd := iter.endVal })
      else if iter.partkey.partsupfunc 0 iter.currEnd next ≥ 0 then
        (if iter.called then Except.error PartError.endNotReached
         else Except.error PartError.everyTooSmall)
      else Except.ok (true, { iter with called := true, currStart := iter.currEnd, currEnd := next }) := by
  unfold nextPartBound
  simp only [hplus, hnext]
  cases iter.called <;> simp

/-- C10: for an iterator with an EVERY expression whose evaluation at currEnd
returns a datum next, nextPartBound raises an error if and only if the end was
not yet reached, compare(next, endVal) < 0 and compare(currEnd, next) >= 0; the
error raised is then "EVERY parameter too small" when the iterator had not been
called before and "END parameter not reached before type overflows" when it
had. -/
theorem nextPartBound_error_iff {D : Type} (iter : PartEveryIterator D) (plus : ExprState D)
    (next : D) (hplus : iter.plusexprstate = some plus)
    (hnext : plus iter.currEnd = Except.ok (some next)) :
    ((∃ e, nextPartBound iter = Except.error e) ↔
      (iter.endReached = false ∧ iter.partkey.partsupfunc 0 next iter.endVal < 0 ∧
        iter.partkey.partsupfunc 0 iter.currEnd next ≥ 0)) ∧
    (∀ e, nextPartBound iter = Except.error e →
      (iter.called = false → e = PartError.everyTooSmall) ∧
      (iter.called = true → e = PartError.endNotReached)) := by
  rw [nextPartBound_of_next iter plus next hplus hnext]
  cases hr : iter.endReached
  · by_cases h1 : iter.partkey.partsupfunc 0 next iter.endVal ≥ 0
    · simp [h1]
    · by_cases h2 : iter.partkey.partsupfunc 0 iter.currEnd next ≥ 0
      · cases hc : iter.called <;> simp [h1, h2] <;> omega
      · simp [h1, h2]
  · simp

/-- C10 at an iterator that has advanced from 1 to 2147483647 by steps that wrap
around: the next value -2147483648 is below END and below currEnd, and the
error is the overflow error. -/
theorem nextPartBound_error_iff_witness :
    ((∃ e, nextPartBound
        { partkey := int4Key, endVal := 2147483647, currStart := 1, currEnd := 2147483000,
          plusexprstate := some (fun _ => Except.ok (some (-2147483648))),
          called := true, endReached := false } = Except.error e) ↔
      (false = false ∧ btint4cmp (-2147483648) 2147483647 < 0 ∧
        btint4cmp 2147483000 (-2147483648) ≥ 0)) ∧
    (∀ e, nextPartBound
        { partkey := int4Key, endVal := 2147483647, currStart := 1, currEnd := 2147483000,
          plusexprstate := some (fun _ => Except.ok (some (-2147483648))),
          called := true, endReached := false } = Except.error e →
      (true = false → e = PartError.everyTooSmall) ∧
      (true = true → e = PartError.endNotReached)) :=
  nextPartBound_error_iff
    { partkey := int4Key, endVal := 2147483647, currStart := 1, currEnd := 2147483000,
      plusexprstate := some (fun _ => Except.ok (some (-2147483648))),
      called := true, endReached := false }
    (fun _ => Except.ok (some (-2147483648))) (-2147483648) rfl rfl

/-- What a successful initPartEveryIterator returns: the flags are cleared,
currEnd is the START value (or the zero datum), endVal is the effective end (the
END value, or the END value plus one for an inclusive END), and plusexprstate
is the expression of the EVERY clause. -/
theorem initPartEveryIterator_ok {E D : Type} (env : BoundEnv E D) (key : PartitionKeyData D)
    (start endNode : Option E) (endIncl : Bool) (every : Option E) (iter : PartEveryIterator D)
    (hinit : initPartEveryIterator env key start endNode endIncl every = Except.ok iter) :
    iter.partkey = key ∧ iter.called = false ∧ iter.endReached = false ∧
    iter.currStart = env.datumZero ∧
    (start = none → iter.currEnd = env.datumZero) ∧
    (∀ s, start = some s → ∃ c, env.transformPartitionBoundValue s = Except.ok c ∧
      c.constisnull = false ∧ iter.currEnd = c.constvalue) ∧
    (endNode = none → iter.endVal = env.datumZero) ∧
    (∀ e, endNode = some e → ∃ c, env.transformPartitionBoundValue e = Except.ok c ∧
      c.constisnull = false ∧
      (endIncl = false → iter.endVal = c.constvalue) ∧
      (endIncl = true → ∃ st, env.initPlusExprState Interval.one = Except.ok st ∧
        st c.constvalue = Except.ok (some iter.endVal))) ∧
    (every = none → iter.plusexprstate = none) ∧
    (∀ ev, every = some ev → start.isSome = true ∧ endNode.isSome = true ∧
      ∃ st, env.initPlusExprState (Interval.every ev) = Except.ok st ∧
        iter.plusexprstate = some st) := by
  unfold initPartEveryIterator at hinit
  cases start <;> cases endNode <;> cases every <;> cases endIncl <;>
    simp [bind, Except.bind, pure, Except.pure, throw, throwThe, MonadExceptOf.throw] at hinit <;>
    (repeat' (split at hinit)) <;>
    simp_all <;>
    (subst hinit; simp)

/-- C9 (counterexample): START(10) END(5) EVERY(0) over the integers.  The step
is a zero-effect step (10 + 0 compares equal to 10), yet the first call of
nextPartBound succeeds with the pair (10, 5) and the second call returns
"no more bounds": no error is raised. -/
theorem nextPartBound_zero_step_past_end :
    btint4cmp (10 + 0) 10 = 0 ∧
    ∃ iter, initPartEveryIterator intEnv int4Key (some 10) (some 5) false (some 0)
        = Except.ok iter ∧
      (∃ plus, iter.plusexprstate = some plus ∧ plus iter.currEnd = Except.ok (some (10 + 0))) ∧
      (∃ iter1, nextPartBound iter = Except.ok (true, iter1) ∧
        iter1.currStart = 10 ∧ iter1.currEnd = 5) ∧
      nextPartBound iter ≠ Except.error PartError.everyTooSmall ∧
      partBoundLoop 2 iter = some (Except.ok [(10, 5)]) := by
  refine ⟨by decide, _, rfl, ⟨_, rfl, rfl⟩, ⟨_, rfl, rfl, rfl⟩, ?_, rfl⟩
  intro h
  cases h

/-- C9 (amended): when START compares below the effective end, the key
comparison is a total order, and the EVERY expression evaluated at START
returns a value that compares equal to START, the first call of nextPartBound
on the freshly initialised iterator fails with "EVERY parameter too small". -/
theorem nextPartBound_zero_step_too_small {E D : Type} (env : BoundEnv E D)
    (key : PartitionKeyData D) (hkey : TotalOrderCmp (key.partsupfunc 0))
    (start endNode every : E) (endIncl : Bool) (iter : PartEveryIterator D)
    (plus : ExprState D) (next : D)
    (hinit : initPartEveryIterator env key (some start) (some endNode) endIncl (some every)
      = Except.ok iter)
    (hplus : iter.plusexprstate = some plus)
    (hnext : plus iter.currEnd = Except.ok (some next))
    (hzero : key.partsupfunc 0 next iter.currEnd = 0)
    (hlt : key.partsupfunc 0 iter.currEnd iter.endVal < 0) :
    nextPartBound iter = Except.error PartError.everyTooSmall := by
  obtain ⟨hk, hcalled, hreached, -⟩ :=
    initPartEveryIterator_ok env key _ _ endIncl _ iter hinit
  rw [nextPartBound_of_next iter plus next hplus hnext, hk, hcalled, hreached]
  have h1 : key.partsupfunc 0 next iter.endVal < 0 :=
    hkey.lt_of_le_of_lt (le_of_eq hzero) hlt
  have h2 : key.partsupfunc 0 iter.currEnd next = 0 := hkey.eq_zero_symm hzero
  simp [h1, h2]

/-- C9 (amended) at START(1) END(10) EVERY(0) over the integers. -/
theorem nextPartBound_zero_step_too_small_witness :
    ∃ iter, initPartEveryIterator intEnv int4Key (some 1) (some 10) false (some 0)
        = Except.ok iter ∧
      nextPartBound iter = Except.error PartError.everyTooSmall :=
  ⟨_, rfl, nextPartBound_zero_step_too_small intEnv int4Key btint4cmp_totalOrder 1 10 0 false _
    (fun x => Except.ok (some (x + 0))) (1 + 0) rfl rfl rfl (by decide) (by decide)⟩

/-- The iterator has produced its last bound: with EVERY the end was reached,
without EVERY it has been called. -/
theorem nextPartBound_done {D : Type} (iter : PartEveryIterator D)
    (hdone : (iter.plusexprstate ≠ none ∧ iter.endReached = true) ∨
      (iter.plusexprstate = none ∧ iter.called = true)) :
    ∃ iter1, nextPartBound iter = Except.ok (false, iter1) := by
  unfold nextPartBound
  rcases hdone with ⟨hp, hr⟩ | ⟨hp, hc⟩
  · cases hplus : iter.plusexprstate with
    | none => exact absurd hplus hp
    | some plus => simp [hr]
  · simp [hp, hc]

/-- A successful advance of an iterator that is not done: the fields that stay,
and the two ways the new state can look. -/
theorem nextPartBound_advance {D : Type} (iter iter1 : PartEveryIterator D)
    (hlive : (iter.plusexprstate ≠ none ∧ iter.endReached = false) ∨
      (iter.plusexprstate = none ∧ iter.called = false))
    (hnext : nextPartBound iter = Except.ok (true, iter1)) :
    iter1.partkey = iter.partkey ∧ iter1.endVal = iter.endVal ∧
    iter1.plusexprstate = iter.plusexprstate ∧ iter1.currStart = iter.currEnd ∧
    ((iter1.currEnd = iter.endVal ∧
        ((iter1.plusexprstate ≠ none ∧ iter1.endReached = true) ∨
          (iter1.plusexprstate = none ∧ iter1.called = true))) ∨
     (iter1.plusexprstate ≠ none ∧ iter1.endReached = false ∧
        iter.partkey.partsupfunc 0 iter1.currEnd iter.endVal < 0 ∧
        iter.partkey.partsupfunc 0 iter.currEnd iter1.currEnd < 0)) := by
  unfold nextPartBound at hnext
  rcases hlive with ⟨hp, hr⟩ | ⟨hp, hc⟩
  · cases hplus : iter.plusexprstate with
    | none => exact absurd hplus hp
    | some plus =>
      simp only [hplus, hr] at hnext
      cases hev : plus iter.currEnd with
      | error e => simp [hev] at hnext
      | ok v =>
        cases v with
        | none => simp [hev] at hnext
        | some next =>
          simp only [hev] at hnext
          by_cases h1 : iter.partkey.partsupfunc 0 next iter.endVal ≥ 0
          · simp [h1] at hnext
            subst hnext
            simp [hplus]
          · by_cases h2 : iter.partkey.partsupfunc 0 iter.currEnd next ≥ 0
            · cases hc : iter.called <;> simp [h1, h2, hc] at hnext
            · simp [h1, h2] at hnext
              subst hnext
              simp [hplus, hr]
              omega
  · simp [hp, hc] at hnext
    subst hnext
    simp [hp]

/-- An iterator that is not done does not answer "no more bounds". -/
theorem nextPartBound_live_ne_false {D : Type} (iter iter1 : PartEveryIterator D)
    (hlive : (iter.plusexprstate ≠ none ∧ iter.endReached = false) ∨
      (iter.plusexprstate = none ∧ iter.called = false)) :
    nextPartBound iter ≠ Except.ok (false, iter1) := by
  intro hnext
  unfold nextPartBound at hnext
  rcases hlive with ⟨hp, hr⟩ | ⟨hp, hc⟩
  · cases hplus : iter.plusexprstate with
    | none => exact absurd hplus hp
    | some plus =>
      simp only [hplus, hr] at hnext
      cases hev : plus iter.currEnd with
      | error e => simp [hev] at hnext
      | ok v =>
        cases v with
        | none => simp [hev] at hnext
        | some next =>
          simp only [hev] at hnext
          by_cases h1 : iter.partkey.partsupfunc 0 next iter.endVal ≥ 0
          · simp [h1] at hnext
          · by_cases h2 : iter.partkey.partsupfunc 0 iter.currEnd next ≥ 0
            · cases hc : iter.called <;> simp [h1, h2, hc] at hnext
            · simp [h1, h2] at hnext
  · simp [hp, hc] at hnext

/-- Once the iterator is done the loop of generateRangePartitions adds no
further bound. -/
theorem partBoundLoop_done {D : Type} (fuel : Nat) (iter : PartEveryIterator D)
    (bounds : List (D × D))
    (hdone : (iter.plusexprstate ≠ none ∧ iter.endReached = true) ∨
      (iter.plusexprstate = none ∧ iter.called = true))
    (hrun : partBoundLoop fuel iter = some (Except.ok bounds)) : bounds = [] := by
  cases fuel with
  | zero => simp [partBoundLoop] at hrun
  | succ fuel =>
    obtain ⟨iter1, h⟩ := nextPartBound_done iter hdone
    simp [partBoundLoop, h] at hrun
    exact hrun

/-- The invariant of the loop `while (nextPartBound(boundIter))`: started from an
iterator that is not done and whose currEnd compares below endVal, a run that
ends without an error yields bounds that start at currEnd, are chained, each
have a lower bound below the upper bound, and end at endVal. -/
theorem partBoundLoop_chain {D : Type} :
    ∀ (fuel : Nat) (iter : PartEveryIterator D) (bounds : List (D × D)),
      ((iter.plusexprstate ≠ none ∧ iter.endReached = false) ∨
        (iter.plusexprstate = none ∧ iter.called = false)) →
      iter.partkey.partsupfunc 0 iter.currEnd iter.endVal < 0 →
      partBoundLoop fuel iter = some (Except.ok bounds) →
      bounds.head?.map Prod.fst = some iter.currEnd ∧
      (∀ i p q, bounds[i]? = some p → bounds[i + 1]? = some q → p.2 = q.1) ∧
      (∀ p ∈ bounds, iter.partkey.partsupfunc 0 p.1 p.2 < 0) ∧
      bounds.getLast?.map Prod.snd = some iter.endVal := by
  intro fuel
  induction fuel with
  | zero => intro iter bounds _ _ hrun; simp [partBoundLoop] at hrun
  | succ fuel ih =>
    intro iter bounds hlive hlt hrun
    unfold partBoundLoop at hrun
    cases hn : nextPartBound iter with
    | error e => simp [hn] at hrun
    | ok r =>
      obtain ⟨flag, iter1⟩ := r
      cases flag with
      | false => exact absurd hn (nextPartBound_live_ne_false iter iter1 hlive)
      | true =>
        obtain ⟨hkey, hend, hplus, hstart, hcase⟩ := nextPartBound_advance iter iter1 hlive hn
        simp only [hn] at hrun
        cases hl : partBoundLoop fuel iter1 with
        | none => simp [hl] at hrun
        | some res =>
          cases res with
          | error e => simp [hl] at hrun
          | ok bs =>
            simp only [hl, Option.some.injEq, Except.ok.injEq] at hrun
            subst hrun
            rcases hcase with ⟨hce, hdone⟩ | ⟨hp1, hr1, hlt1, hadv⟩
            · have hbs := partBoundLoop_done fuel iter1 bs hdone hl
              subst hbs
              refine ⟨by simp [hstart], ?_, ?_, by simp [hce]⟩
              · intro i p q hp hq
                simp at hq
              · intro p hp
                simp only [List.mem_singleton] at hp
                subst hp
                simpa [hstart, hce] using hlt
            · have hlt1b : iter1.partkey.partsupfunc 0 iter1.currEnd iter1.endVal < 0 := by
                rw [hkey, hend]; exact hlt1
              obtain ⟨hhead, hchain, hall, hlast⟩ := ih iter1 bs (Or.inl ⟨hp1, hr1⟩) hlt1b hl
              have hne : bs ≠ [] := by
                intro h
                subst h
                simp at hhead
              refine ⟨by simp [hstart], ?_, ?_, ?_⟩
              · intro i p q hp hq
                cases i with
                | zero =>
                  simp only [List.getElem?_cons_zero, Option.some.injEq] at hp
                  simp only [List.getElem?_cons_succ] at hq
                  subst hp
                  cases bs with
                  | nil => exact absurd rfl hne
                  | cons b bs =>
                    simp at hq hhead
                    subst hq
                    exact hhead.symm
                | succ j =>
                  simp only [List.getElem?_cons_succ] at hp hq
                  exact hchain j p q hp hq
              · intro p hp
                rcases List.mem_cons.mp hp with h | h
                · subst h
                  simpa [hstart] using hadv
                · have := hall p h
                  rwa [hkey] at this
              · cases bs with
                | nil => exact absurd rfl hne
                | cons b bs =>
                  rw [List.getLast?_cons_cons, hlast, hend]

/-- C1: for START, END (exclusive or inclusive) and any EVERY step (or none),
when the START value compares below the effective end and the repeated calls of
nextPartBound run to "no more bounds" without an error, the emitted pairs are
at least one, the first lower bound is the START value, each upper bound is the
lower bound of the next pair, each lower bound compares below its upper bound,
and the last upper bound is the effective end: the END value, or the END value
plus one for an inclusive END. -/
theorem partBoundLoop_tiles_range {E D : Type} (env : BoundEnv E D) (key : PartitionKeyData D)
    (start endNode : E) (endIncl : Bool) (every : Option E) (iter : PartEveryIterator D)
    (fuel : Nat) (bounds : List (D × D))
    (hinit : initPartEveryIterator env key (some start) (some endNode) endIncl every
      = Except.ok iter)
    (hlt : key.partsupfunc 0 iter.currEnd iter.endVal < 0)
    (hrun : partBoundLoop fuel iter = some (Except.ok bounds)) :
    1 ≤ bounds.length ∧
    (∃ startConst, env.transformPartitionBoundValue start = Except.ok startConst ∧
      iter.currEnd = startConst.constvalue ∧
      bounds.head?.map Prod.fst = some startConst.constvalue) ∧
    (∀ i p q, bounds[i]? = some p → bounds[i + 1]? = some q → p.2 = q.1) ∧
    (∀ p ∈ bounds, key.partsupfunc 0 p.1 p.2 < 0) ∧
    bounds.getLast?.map Prod.snd = some iter.endVal ∧
    (∃ endConst, env.transformPartitionBoundValue endNode = Except.ok endConst ∧
      (endIncl = false → iter.endVal = endConst.constvalue) ∧
      (endIncl = true → ∃ st, env.initPlusExprState Interval.one = Except.ok st ∧
        st endConst.constvalue = Except.ok (some iter.endVal))) := by
  obtain ⟨hk, hcalled, hreached, -, -, hstart, -, hend, hnone, hsome⟩ :=
    initPartEveryIterator_ok env key _ _ endIncl every iter hinit
  have hlive : (iter.plusexprstate ≠ none ∧ iter.endReached = false) ∨
      (iter.plusexprstate = none ∧ iter.called = false) := by
    cases every with
    | none => exact Or.inr ⟨hnone rfl, hcalled⟩
    | some ev =>
      obtain ⟨-, -, st, -, hst⟩ := hsome ev rfl
      exact Or.inl ⟨by simp [hst], hreached⟩
  obtain ⟨hhead, hchain, hall, hlast⟩ :=
    partBoundLoop_chain fuel iter bounds hlive (by rw [hk]; exact hlt) hrun
  obtain ⟨sc, hsc, -, hscv⟩ := hstart start rfl
  obtain ⟨ec, hec, -, hex, hin⟩ := hend endNode rfl
  refine ⟨?_, ⟨sc, hsc, hscv, by rw [hhead, hscv]⟩, hchain, ?_, hlast, ⟨ec, hec, hex, hin⟩⟩
  · cases bounds with
    | nil => simp at hhead
    | cons b bs => simp
  · intro p hp
    have := hall p hp
    rwa [hk] at this

/-- C1 at START(1) END(10) INCLUSIVE EVERY(3) over the integers: the loop emits
(1,4), (4,7), (7,10), (10,11). -/
theorem partBoundLoop_tiles_range_witness :
    ∃ iter, initPartEveryIterator intEnv int4Key (some 1) (some 10) true (some 3)
        = Except.ok iter ∧
      partBoundLoop 5 iter = some (Except.ok [(1, 4), (4, 7), (7, 10), (10, 11)]) ∧
      iter.endVal = 11 ∧
      (∀ p ∈ [((1 : Int), (4 : Int)), (4, 7), (7, 10), (10, 11)], btint4cmp p.1 p.2 < 0) :=
  ⟨_, rfl, rfl, rfl,
    (partBoundLoop_tiles_range intEnv int4Key 1 10 true (some 3) _ 5
      [(1, 4), (4, 7), (7, 10), (10, 11)] rfl (by decide) rfl).2.2.2.1⟩

/-! ### Termination of the loop over nextPartBound -/

/-- C13: an iterator initialised without EVERY answers its first call of
nextPartBound with success, currStart being the value set from START (the START
value when START is given) and currEnd the effective end; the state then
reached answers every further call with "no more bounds" and is left
unchanged by it, so the loop of generateRangePartitions yields exactly that one
pair and no error. -/
theorem nextPartBound_without_every {E D : Type} (env : BoundEnv E D)
    (key : PartitionKeyData D) (start endNode : Option E) (endIncl : Bool)
    (iter : PartEveryIterator D)
    (hinit : initPartEveryIterator env key start endNode endIncl none = Except.ok iter) :
    ∃ iter1, nextPartBound iter = Except.ok (true, iter1) ∧
      iter1.currStart = iter.currEnd ∧ iter1.currEnd = iter.endVal ∧
      (∀ s, start = some s → ∃ c, env.transformPartitionBoundValue s = Except.ok c ∧
        iter1.currStart = c.constvalue) ∧
      nextPartBound iter1 = Except.ok (false, iter1) ∧
      (∀ fuel, partBoundLoop (fuel + 2) iter = some (Except.ok [(iter.currEnd, iter.endVal)])) := by
  obtain ⟨-, hcalled, -, -, -, hstart, -, -, hnone, -⟩ :=
    initPartEveryIterator_ok env key start endNode endIncl none iter hinit
  have hp := hnone rfl
  have h1 : nextPartBound iter = Except.ok (true,
      { iter with called := true, currStart := iter.currEnd, currEnd := iter.endVal }) := by
    simp [nextPartBound, hp, hcalled]
  have h2 : nextPartBound
      { iter with called := true, currStart := iter.currEnd, currEnd := iter.endVal }
      = Except.ok (false,
        { iter with called := true, currStart := iter.currEnd, currEnd := iter.endVal }) := by
    simp [nextPartBound, hp]
  refine ⟨_, h1, rfl, rfl, ?_, h2, ?_⟩
  · intro s hs
    obtain ⟨c, hc, -, hv⟩ := hstart s hs
    exact ⟨c, hc, hv⟩
  · intro fuel
    simp [partBoundLoop, h1, h2]

/-- C13 at START(1) END(10) without EVERY over the integers: the single pair
is (1, 10). -/
theorem nextPartBound_without_every_witness :
    ∃ iter, initPartEveryIterator intEnv int4Key (some 1) (some 10) false none = Except.ok iter ∧
      ∃ iter1, nextPartBound iter = Except.ok (true, iter1) ∧
        iter1.currStart = iter.currEnd ∧ iter1.currEnd = iter.endVal ∧
        (∀ s, some (1 : Int) = some s →
          ∃ c, intEnv.transformPartitionBoundValue s = Except.ok c ∧
            iter1.currStart = c.constvalue) ∧
        nextPartBound iter1 = Except.ok (false, iter1) ∧
        (∀ fuel, partBoundLoop (fuel + 2) iter = some (Except.ok [(iter.currEnd, iter.endVal)])) :=
  ⟨_, rfl, nextPartBound_without_every intEnv int4Key (some 1) (some 10) false _ rfl⟩

/-- C14: on an iterator with EVERY whose end is not yet reached and whose next
value compares at or above the effective end, nextPartBound succeeds with the
pair (previous currEnd, endVal); the state then reached answers every further
call with "no more bounds" and is left unchanged by it. -/
theorem nextPartBound_clamps_to_end {D : Type} (iter : PartEveryIterator D)
    (plus : ExprState D) (next : D) (hplus : iter.plusexprstate = some plus)
    (hreached : iter.endReached = false)
    (hnext : plus iter.currEnd = Except.ok (some next))
    (hcmp : iter.partkey.partsupfunc 0 next iter.endVal ≥ 0) :
    ∃ iter1, nextPartBound iter = Except.ok (true, iter1) ∧
      iter1.currStart = iter.currEnd ∧ iter1.currEnd = iter.endVal ∧
      nextPartBound iter1 = Except.ok (false, iter1) := by
  have h1 : nextPartBound iter = Except.ok (true,
      { iter with called := true, currStart := iter.currEnd, endReached := true,
                  currEnd := iter.endVal }) := by
    rw [nextPartBound_of_next iter plus next hplus hnext]
    simp [hreached, hcmp]
  refine ⟨_, h1, rfl, rfl, ?_⟩
  simp [nextPartBound, hplus]

/-- C14 at the cursor 10 of START(1) END(11) EVERY(3) over the integers: the
next value 13 is clamped to 11. -/
theorem nextPartBound_clamps_to_end_witness :
    ∃ iter1, nextPartBound
        { partkey := int4Key, endVal := 11,
          plusexprstate := some (fun x => Except.ok (some (x + 3))),
          currStart := 7, currEnd := 10, called := true, endReached := false }
        = Except.ok (true, iter1) ∧
      iter1.currStart = 10 ∧ iter1.currEnd = 11 ∧
      nextPartBound iter1 = Except.ok (false, iter1) :=
  nextPartBound_clamps_to_end
    { partkey := int4Key, endVal := 11,
      plusexprstate := some (fun x => Except.ok (some (x + 3))),
      currStart := 7, currEnd := 10, called := true, endReached := false }
    (fun x => Except.ok (some (x + 3))) 13 rfl rfl rfl (by decide)

/-- C15: over the integers with x + k as the successor, START(1) END(10)
INCLUSIVE EVERY(3) initialises endVal to 11 and the loop over nextPartBound
produces the pairs (1,4), (4,7), (7,10), (10,11), in that order, and then ends
with "no more bounds": four calls do not suffice, five and more do. -/
theorem partBoundLoop_start1_end10_every3 :
    ∃ iter, initPartEveryIterator intEnv int4Key (some 1) (some 10) true (some 3)
        = Except.ok iter ∧
      iter.endVal = 11 ∧ iter.currEnd = 1 ∧
      partBoundLoop 4 iter = none ∧
      ∀ fuel, partBoundLoop (fuel + 5) iter
        = some (Except.ok [(1, 4), (4, 7), (7, 10), (10, 11)]) :=
  ⟨_, rfl, rfl, rfl, rfl, fun _ => rfl⟩

/-- C16: for A = (implicit, 5) and B = (5, 10), in either insertion order,
deduceImplicitRangeBounds returns [A', B'] with A' = (minvalue, 5), its lower
bound being the one-element list holding the ColumnRef with the single field
"minvalue", and B' = (5, 10); the comparator orders A strictly before B in both
argument orders. -/
theorem deduceImplicitRangeBounds_end5_start5 :
    qsort_stmt_cmp int4Key (rangeStmt [] [5]) (rangeStmt [5] [10]) = some (-1) ∧
    qsort_stmt_cmp int4Key (rangeStmt [5] [10]) (rangeStmt [] [5]) = some 1 ∧
    deduceImplicitRangeBounds [rangeStmt [] [5], rangeStmt [5] [10]] int4Key
      = some [{ partbound :=
                  { strategy := PartitionStrategy.range
                    lowerdatums := [Node.ColumnRef ["minvalue"]]
                    upperdatums := [Node.Const 5] } },
              { partbound :=
                  { strategy := PartitionStrategy.range
                    lowerdatums := [Node.Const 5]
                    upperdatums := [Node.Const 10] } }] ∧
    deduceImplicitRangeBounds [rangeStmt [5] [10], rangeStmt [] [5]] int4Key
      = some [{ partbound :=
                  { strategy := PartitionStrategy.range
                    lowerdatums := [Node.ColumnRef ["minvalue"]]
                    upperdatums := [Node.Const 5] } },
              { partbound :=
                  { strategy := PartitionStrategy.range
                    lowerdatums := [Node.Const 5]
                    upperdatums := [Node.Const 10] } }] := by
  refine ⟨?_, ?_, ?_, ?_⟩ <;> decide

/-! ### The generators -/

/-- With an EVERY clause and START or END missing, initPartEveryIterator raises
"EVERY clause requires START and END" once the clauses that are given have been
parsed without an error. -/
theorem initPartEveryIterator_every_requires {E D : Type} (env : BoundEnv E D)
    (key : PartitionKeyData D) (start endNode : Option E) (endIncl : Bool) (ev : E)
    (hlack : start = none ∨ endNode = none)
    (hS : ∀ s, start = some s → ∃ c, env.transformPartitionBoundValue s = Except.ok c ∧
      c.constisnull = false)
    (hE : ∀ e, endNode = some e → ∃ c, env.transformPartitionBoundValue e = Except.ok c ∧
      c.constisnull = false ∧
      (endIncl = true → ∃ st v, env.initPlusExprState Interval.one = Except.ok st ∧
        st c.constvalue = Except.ok (some v))) :
    initPartEveryIterator env key start endNode endIncl (some ev)
      = Except.error PartError.everyRequiresStartEnd := by
  unfold initPartEveryIterator
  cases start with
  | none =>
    cases endNode with
    | none => simp [bind, Except.bind, pure, Except.pure, throw, throwThe, MonadExceptOf.throw]
    | some e =>
      obtain ⟨c, hc, hnull, hincl⟩ := hE e rfl
      cases endIncl with
      | false =>
        simp [bind, Except.bind, pure, Except.pure, throw, throwThe, MonadExceptOf.throw, hc, hnull]
      | true =>
        obtain ⟨st, v, hst, hv⟩ := hincl rfl
        simp [bind, Except.bind, pure, Except.pure, throw, throwThe, MonadExceptOf.throw, hc,
          hnull, hst, hv]
  | some s =>
    obtain ⟨c, hc, hnull⟩ := hS s rfl
    cases endNode with
    | none =>
      simp [bind, Except.bind, pure, Except.pure, throw, throwThe, MonadExceptOf.throw, hc, hnull]
    | some e => simp at hlack

/-- With an EVERY clause and START or END missing, initPartEveryIterator never
returns an iterator. -/
theorem initPartEveryIterator_every_fails {E D : Type} (env : BoundEnv E D)
    (key : PartitionKeyData D) (start endNode : Option E) (endIncl : Bool) (ev : E)
    (hlack : start = none ∨ endNode = none) :
    ∃ e, initPartEveryIterator env key start endNode endIncl (some ev) = Except.error e := by
  cases h : initPartEveryIterator env key start endNode endIncl (some ev) with
  | error e => exact ⟨e, rfl⟩
  | ok iter =>
    obtain ⟨-, -, -, -, -, -, -, -, -, hsome⟩ :=
      initPartEveryIterator_ok env key start endNode endIncl (some ev) iter h
    obtain ⟨hs, he, -⟩ := hsome ev rfl
    rcases hlack with h1 | h1 <;> subst h1 <;> simp at hs he

/-- C12 (counterexample): the range element START(1) EVERY(3), which lacks END,
expanded with the tablename override "legacy" in the naming context, raises no
error: the EVERY clause is dropped and one partition with lower bound 1 and no
upper bound is produced. -/
theorem generateRangePartitions_every_dropped :
    ∃ stmt partnamecomp,
      generateRangePartitions intEnv intCatalogEnv 10 rangeParent
        { boundSpec := some (BoundSpecNode.rangeSpec { partStart := [1], partEvery := [3] }) }
        none { tablename := some "legacy", level := 1 }
        = some (Except.ok ([stmt], partnamecomp)) ∧
      stmt.relname = "legacy" ∧
      stmt.partbound.lowerdatums = [Node.Const 1] ∧ stmt.partbound.upperdatums = [] :=
  ⟨_, _, rfl, rfl, rfl, rfl⟩

/-- C12 (amended): a range element with an EVERY clause that lacks START or
lacks END, expanded without a tablename override, always fails and produces no
partition; the error is "EVERY clause requires START and END" whenever the
checks made before it pass (the key has one column, START, END and EVERY hold
at most one value each, and the bound that is given is transformed to a
non-null constant, with its successor computed for an inclusive END). -/
theorem generateRangePartitions_every_requires_start_end {E D : Type} (env : BoundEnv E D)
    (cenv : CatalogEnv E D) (fuel : Nat) (parentrel : Relation D) (elem : GpPartDefElem E)
    (subPart : Option PartitionSpec) (partnamecomp : partname_comp)
    (boundspec : GpPartitionRangeSpec E)
    (hspec : elem.boundSpec = some (BoundSpecNode.rangeSpec boundspec))
    (hevery : boundspec.partEvery ≠ [])
    (hlack : boundspec.partStart = [] ∨ boundspec.partEnd = [])
    (htab : partnamecomp.tablename = none) :
    (∃ e, generateRangePartitions env cenv fuel parentrel elem subPart partnamecomp
      = some (Except.error e)) ∧
    (parentrel.partkey.partnatts = 1 → boundspec.partStart.length ≤ 1 →
      boundspec.partEnd.length ≤ 1 → boundspec.partEvery.length = 1 →
      (∀ s ∈ boundspec.partStart, ∃ c, env.transformPartitionBoundValue s = Except.ok c ∧
        c.constisnull = false) →
      (∀ e ∈ boundspec.partEnd, ∃ c, env.transformPartitionBoundValue e = Except.ok c ∧
        c.constisnull = false ∧
        (boundspec.partEndEdge = PartEdge.inclusive →
          ∃ st v, env.initPlusExprState Interval.one = Except.ok st ∧
            st c.constvalue = Except.ok (some v))) →
      generateRangePartitions env cenv fuel parentrel elem subPart partnamecomp
        = some (Except.error PartError.everyRequiresStartEnd)) := by
  obtain ⟨ev, evs, hev⟩ : ∃ ev evs, boundspec.partEvery = ev :: evs := by
    cases h : boundspec.partEvery with
    | nil => exact absurd h hevery
    | cons ev evs => exact ⟨ev, evs, rfl⟩
  have hlack1 : boundspec.partStart.head? = none ∨ boundspec.partEnd.head? = none := by
    rcases hlack with h | h
    · exact Or.inl (by rw [h]; rfl)
    · exact Or.inr (by rw [h]; rfl)
  constructor
  · obtain ⟨e, he⟩ := initPartEveryIterator_every_fails env parentrel.partkey
      boundspec.partStart.head? boundspec.partEnd.head?
      (!boundspec.partEnd.isEmpty && boundspec.partEndEdge == PartEdge.inclusive) ev hlack1
    simp only [generateRangePartitions, hspec, htab, hev, Option.isNone_none, List.isEmpty_cons,
      Bool.not_false, Bool.and_self, Bool.true_and, if_true, List.head?_cons, he]
    split_ifs <;> exact ⟨_, rfl⟩
  · intro hkey hlenS hlenE hlenV hS hE
    have hinit := initPartEveryIterator_every_requires env parentrel.partkey
      boundspec.partStart.head? boundspec.partEnd.head?
      (!boundspec.partEnd.isEmpty && boundspec.partEndEdge == PartEdge.inclusive) ev hlack1
      (by
        intro s hs
        exact hS s (List.mem_of_mem_head? hs))
      (by
        intro e he
        obtain ⟨c, hc, hnull, hincl⟩ := hE e (List.mem_of_mem_head? he)
        refine ⟨c, hc, hnull, ?_⟩
        intro hedge
        apply hincl
        simp at hedge
        exact hedge.2)
    have h1 : ¬ (boundspec.partStart.length ≠ 1 ∧ boundspec.partStart ≠ []) := by
      rintro ⟨hne, hnil⟩
      cases hl : boundspec.partStart with
      | nil => exact hnil hl
      | cons a l =>
        rw [hl] at hlenS hne
        simp at hlenS hne
        exact hne hlenS
    have h2 : ¬ (boundspec.partEnd.length ≠ 1 ∧ boundspec.partEnd ≠ []) := by
      rintro ⟨hne, hnil⟩
      cases hl : boundspec.partEnd with
      | nil => exact hnil hl
      | cons a l =>
        rw [hl] at hlenE hne
        simp at hlenE hne
        exact hne hlenE
    have h3 : evs = [] := by
      rw [hev] at hlenV
      simpa using hlenV
    simp only [generateRangePartitions, hspec, htab, hev, Option.isNone_none, List.isEmpty_cons,
      Bool.not_false, Bool.and_self, Bool.true_and, if_true, List.head?_cons, hinit, hkey]
    split_ifs with c1 c2 c3 c4
    · exact absurd rfl c1
    · exfalso
      apply h1
      simp at c2
      exact ⟨c2.2, by intro h; rw [h] at c2; simp at c2⟩
    · exfalso
      apply h2
      simp at c3
      exact ⟨c3.2, by intro h; rw [h] at c3; simp at c3⟩
    · subst h3
      simp at c4
    · rfl

/-- C12 (amended) at the element START(1) EVERY(3) of an int4 range key,
expanded without a tablename override. -/
theorem generateRangePartitions_every_requires_start_end_witness :
    generateRangePartitions intEnv intCatalogEnv 10 rangeParent
      { boundSpec := some (BoundSpecNode.rangeSpec { partStart := [1], partEvery := [3] }) }
      none { level := 1 }
      = some (Except.error PartError.everyRequiresStartEnd) :=
  (generateRangePartitions_every_requires_start_end intEnv intCatalogEnv 10 rangeParent
    { boundSpec := some (BoundSpecNode.rangeSpec { partStart := [1], partEvery := [3] }) }
    none { level := 1 } { partStart := [1], partEvery := [3] } rfl (by decide)
    (Or.inr rfl) rfl).2 rfl (by decide) (by decide) rfl
    (by
      intro s _
      exact ⟨_, rfl, rfl⟩)
    (by
      intro e he
      simp at he)

/-- C17 (the code departs from the claim): for a range key, the specification
[DEFAULT other, START(1) END(10)], and equally [START(1) END(10), DEFAULT other],
makes generatePartitions return the DEFAULT statement first with lower bound
minvalue and upper bound 1: the fill pass of deduceImplicitRangeBounds has
given bounds to the default partition. -/
theorem generatePartitions_default_gets_bounds :
    (∃ dflt rng,
      generatePartitions intEnv intCatalogEnv 10 rangeParent
        { partDefElems :=
            [PartDefNode.elem { partName := some "other", isDefault := true },
             PartDefNode.elem
               { boundSpec := some (BoundSpecNode.rangeSpec { partStart := [1], partEnd := [10] }) }] }
        none [] none = some (Except.ok [dflt, rng]) ∧
      dflt.partbound.is_default = true ∧ rng.partbound.is_default = false ∧
      dflt.partbound.lowerdatums = [Node.ColumnRef ["minvalue"]] ∧
      dflt.partbound.upperdatums = [Node.Const 1]) ∧
    (∃ dflt rng,
      generatePartitions intEnv intCatalogEnv 10 rangeParent
        { partDefElems :=
            [PartDefNode.elem
               { boundSpec := some (BoundSpecNode.rangeSpec { partStart := [1], partEnd := [10] }) },
             PartDefNode.elem { partName := some "other", isDefault := true }] }
        none [] none = some (Except.ok [dflt, rng]) ∧
      dflt.partbound.is_default = true ∧ rng.partbound.is_default = false ∧
      dflt.partbound.lowerdatums = [Node.ColumnRef ["minvalue"]] ∧
      dflt.partbound.upperdatums = [Node.Const 1]) :=
  ⟨⟨_, _, rfl, rfl, rfl, rfl, rfl⟩, ⟨_, _, rfl, rfl, rfl, rfl, rfl⟩⟩

theorem collectListDatums_singletons {E : Type} (entries : List E) :
    collectListDatums (entries.map (fun v => [v])) = Except.ok entries := by
  induction entries with
  | nil => rfl
  | cons v rest ih => simp [collectListDatums, ih]

theorem collectListDatums_error {E : Type} (groups : List (List E)) (e : PartError)
    (h : collectListDatums groups = Except.error e) :
    e = PartError.valuesMoreThanOneColumn ∧ ∃ g ∈ groups, g.length ≠ 1 := by
  induction groups with
  | nil => simp [collectListDatums] at h
  | cons g rest ih =>
    unfold collectListDatums at h
    split at h
    · rename_i v
      cases hr : collectListDatums rest with
      | error e1 =>
        rw [hr] at h
        simp at h
        subst h
        obtain ⟨he, g1, hg1, hlen⟩ := ih hr
        exact ⟨he, g1, List.mem_cons_of_mem _ hg1, hlen⟩
      | ok l =>
        rw [hr] at h
        simp at h
    · rename_i hne
      simp at h
      refine ⟨h.symm, g, List.mem_cons_self _ _, ?_⟩
      intro hlen
      match g, hlen, hne with
      | [v], _, hne => exact hne v rfl

theorem collectListDatums_of_bad {E : Type} (groups : List (List E))
    (h : ∃ g ∈ groups, g.length ≠ 1) :
    collectListDatums groups = Except.error PartError.valuesMoreThanOneColumn := by
  induction groups with
  | nil => simp at h
  | cons g rest ih =>
    unfold collectListDatums
    split
    · rename_i v
      have hrest : ∃ g ∈ rest, g.length ≠ 1 := by
        obtain ⟨g1, hg1, hlen⟩ := h
        rcases List.mem_cons.mp hg1 with h1 | h1
        · subst h1
          simp at hlen
        · exact ⟨g1, h1, hlen⟩
      rw [ih hrest]
    · rfl

/-- C18 (counterexample): the LIST element VALUES ('abc') of an int4 key has one
value group with exactly one entry, yet generateListPartition builds no
descriptor: transformPartitionBound rejects the entry and its error is
raised. -/
theorem generateListPartition_transform_rejects :
    (∀ g ∈ [[Literal.text "abc"]], g.length = 1) ∧
    generateListPartition literalCatalogEnv listParent
      { partName := some "a"
        boundSpec := some (BoundSpecNode.listSpec { partValues := [[Literal.text "abc"]] }) }
      none { level := 1 }
      = Except.error (PartError.collaborator "invalid input syntax for type integer") :=
  ⟨by decide, rfl⟩

/-- C18 (amended): generateListPartition on a LIST specification fails with
"VALUES specification with more than one column not allowed" if and only if
some value group does not have exactly one entry.  Otherwise it hands the single
entries of the groups, in the groups' order, to transformPartitionBound: when
that returns a bound, exactly one descriptor is built and carries that bound;
when that raises an error, the error is passed on. -/
theorem generateListPartition_values {E D : Type} (cenv : CatalogEnv E D)
    (parentrel : Relation D) (elem : GpPartDefElem E) (subPart : Option PartitionSpec)
    (partnamecomp : partname_comp) (gpvaluesspec : GpPartitionListSpec E)
    (hspec : elem.boundSpec = some (BoundSpecNode.listSpec gpvaluesspec)) :
    (generateListPartition cenv parentrel elem subPart partnamecomp
        = Except.error PartError.valuesMoreThanOneColumn ↔
      ∃ g ∈ gpvaluesspec.partValues, g.length ≠ 1) ∧
    (∀ entries : List E, gpvaluesspec.partValues = entries.map (fun v => [v]) →
      (∀ boundspec, cenv.transformPartitionBound entries = Except.ok boundspec →
        ∃ stmt partnamecomp1,
          generateListPartition cenv parentrel elem subPart partnamecomp
            = Except.ok ([stmt], partnamecomp1) ∧
          stmt.partbound = boundspec) ∧
      (∀ msg, cenv.transformPartitionBound entries = Except.error msg →
        generateListPartition cenv parentrel elem subPart partnamecomp
          = Except.error (PartError.collaborator msg))) := by
  constructor
  · constructor
    · intro h
      unfold generateListPartition at h
      simp only [hspec] at h
      cases hc : collectListDatums gpvaluesspec.partValues with
      | error e => exact (collectListDatums_error _ e hc).2
      | ok listdatums =>
        rw [hc] at h
        cases ht : cenv.transformPartitionBound listdatums with
        | error msg => simp [ht] at h
        | ok b => simp [ht] at h
    · intro h
      unfold generateListPartition
      simp only [hspec, collectListDatums_of_bad _ h]
  · intro entries hentries
    have hc : collectListDatums gpvaluesspec.partValues = Except.ok entries := by
      rw [hentries]
      exact collectListDatums_singletons entries
    constructor
    · intro boundspec ht
      refine ⟨(makePartitionCreateStmt cenv parentrel elem.partName boundspec subPart elem
          partnamecomp).1,
        (makePartitionCreateStmt cenv parentrel elem.partName boundspec subPart elem
          partnamecomp).2, ?_, rfl⟩
      unfold generateListPartition
      simp only [hspec, hc, ht]
    · intro msg ht
      unfold generateListPartition
      simp only [hspec, hc, ht]

/-- C18 (amended) at the LIST element VALUES (1), (2), (3) of an int4 key: one
descriptor with the list bound [1, 2, 3]. -/
theorem generateListPartition_values_witness :
    ∃ stmt partnamecomp1,
      generateListPartition intCatalogEnv listParent
        { partName := some "a"
          boundSpec := some (BoundSpecNode.listSpec { partValues := [[1], [2], [3]] }) }
        none { level := 1 }
        = Except.ok ([stmt], partnamecomp1) ∧
      stmt.partbound =
        { strategy := PartitionStrategy.list
          listdatums := [Node.Const 1, Node.Const 2, Node.Const 3] } :=
  ((generateListPartition_values intCatalogEnv listParent
    { partName := some "a"
      boundSpec := some (BoundSpecNode.listSpec { partValues := [[1], [2], [3]] }) }
    none { level := 1 } { partValues := [[1], [2], [3]] } rfl).2 [1, 2, 3] rfl).1 _ rfl

theorem snprintf_of_length_lt (size : Nat) (formatted : String) (h : formatted.length < size) :
    snprintf size formatted = formatted := by
  unfold snprintf
  have hlen : formatted.data.length ≤ size - 1 := by
    have : formatted.data.length = formatted.length := rfl
    omega
  rw [List.take_of_length_le hlen]

theorem snprintf_length_le (size : Nat) (formatted : String) :
    (snprintf size formatted).length ≤ size - 1 := by
  unfold snprintf
  show (List.take (size - 1) formatted.data).length ≤ size - 1
  rw [List.length_take]
  omega

/-- C19 (counterexample): with NAMEDATALEN = 64 and a partition name of 60
letters, the partition part of the child name is "prt_" followed by only the
first 59 letters of the name. -/
theorem makePartitionCreateStmt_truncates_name :
    (makePartitionCreateStmt intCatalogEnv rangeParent
        (some "aaaaaaaaaaaaaaaaaaaaaaaaaaaaaaaaaaaaaaaaaaaaaaaaaaaaaaaaaaaa") ({} : PartitionBoundSpec Int) none ({} : GpPartDefElem Int)
        { level := 1 }).1.relname
      = intCatalogEnv.makeObjectName "t" "1" ("prt_" ++ "aaaaaaaaaaaaaaaaaaaaaaaaaaaaaaaaaaaaaaaaaaaaaaaaaaaaaaaaaaa") ∧
    intCatalogEnv.makeObjectName "t" "1" ("prt_" ++ "aaaaaaaaaaaaaaaaaaaaaaaaaaaaaaaaaaaaaaaaaaaaaaaaaaaaaaaaaaa")
      ≠ intCatalogEnv.makeObjectName "t" "1" ("prt_" ++ "aaaaaaaaaaaaaaaaaaaaaaaaaaaaaaaaaaaaaaaaaaaaaaaaaaaaaaaaaaaa") := by
  constructor <;> decide

/-- C19 (amended): the child relation name set by makePartitionCreateStmt is the
tablename override, verbatim, when the naming context carries one.  Otherwise
it is makeObjectName applied to the text "prt_" followed by the partition name,
when a name is supplied, and ChooseRelationName applied to the text "prt_"
followed by the decimal value of the counter after its increment, when none is;
in both cases the text is cut to NAMEDATALEN - 1 characters by snprintf, and is
passed whole when it is shorter than NAMEDATALEN. -/
theorem makePartitionCreateStmt_relname {E D : Type} (cenv : CatalogEnv E D)
    (parentrel : Relation D) (partname : Option String) (boundspec : PartitionBoundSpec D)
    (subPart : Option PartitionSpec) (elem : GpPartDefElem E) (partnamecomp : partname_comp) :
    (∀ tablename, partnamecomp.tablename = some tablename →
      (makePartitionCreateStmt cenv parentrel partname boundspec subPart elem
        partnamecomp).1.relname = tablename) ∧
    (partnamecomp.tablename = none → ∀ name, partname = some name →
      ∃ label,
        (makePartitionCreateStmt cenv parentrel partname boundspec subPart elem
          partnamecomp).1.relname
          = cenv.makeObjectName parentrel.relname
              (snprintf cenv.NAMEDATALEN (Nat.repr partnamecomp.level)) label ∧
        label = snprintf cenv.NAMEDATALEN ("prt_" ++ name) ∧
        label.length ≤ cenv.NAMEDATALEN - 1 ∧
        (("prt_" ++ name).length < cenv.NAMEDATALEN → label = "prt_" ++ name)) ∧
    (partnamecomp.tablename = none → partname = none →
      ∃ label,
        (makePartitionCreateStmt cenv parentrel partname boundspec subPart elem
          partnamecomp).1.relname
          = cenv.ChooseRelationName parentrel.relname
              (snprintf cenv.NAMEDATALEN (Nat.repr partnamecomp.level)) label
              parentrel.relnamespace false ∧
        label = snprintf cenv.NAMEDATALEN ("prt_" ++ Nat.repr (partnamecomp.partnum + 1)) ∧
        label.length ≤ cenv.NAMEDATALEN - 1 ∧
        (("prt_" ++ Nat.repr (partnamecomp.partnum + 1)).length < cenv.NAMEDATALEN →
          label = "prt_" ++ Nat.repr (partnamecomp.partnum + 1))) := by
  refine ⟨?_, ?_, ?_⟩
  · intro tablename htab
    simp [makePartitionCreateStmt, htab]
  · intro htab name hname
    subst hname
    refine ⟨snprintf cenv.NAMEDATALEN ("prt_" ++ name), ?_, rfl, snprintf_length_le _ _,
      snprintf_of_length_lt _ _⟩
    simp [makePartitionCreateStmt, htab, ChoosePartitionName]
  · intro htab hname
    subst hname
    refine ⟨snprintf cenv.NAMEDATALEN ("prt_" ++ Nat.repr (partnamecomp.partnum + 1)), ?_, rfl,
      snprintf_length_le _ _, snprintf_of_length_lt _ _⟩
    simp [makePartitionCreateStmt, htab, ChoosePartitionName]

/-- C20 (counterexample): a call of makePartitionCreateStmt whose naming context
carries the tablename override "legacy" leaves the counter partnum at 0. -/
theorem makePartitionCreateStmt_override_keeps_partnum :
    (makePartitionCreateStmt intCatalogEnv rangeParent none
        ({} : PartitionBoundSpec Int) none ({} : GpPartDefElem Int)
        { tablename := some "legacy", level := 1, partnum := 0 }).2.partnum = 0 := by
  decide

/-- The naming context that makePartitionCreateStmt leaves behind. -/
theorem makePartitionCreateStmt_partname_comp {E D : Type} (cenv : CatalogEnv E D)
    (parentrel : Relation D) (partname : Option String) (boundspec : PartitionBoundSpec D)
    (subPart : Option PartitionSpec) (elem : GpPartDefElem E) (partnamecomp : partname_comp) :
    (makePartitionCreateStmt cenv parentrel partname boundspec subPart elem partnamecomp).2.level
      = partnamecomp.level ∧
    (makePartitionCreateStmt cenv parentrel partname boundspec subPart elem
      partnamecomp).2.tablename = partnamecomp.tablename ∧
    (makePartitionCreateStmt cenv parentrel partname boundspec subPart elem partnamecomp).2.partnum
      = if partnamecomp.tablename.isSome then partnamecomp.partnum
        else partnamecomp.partnum + 1 := by
  cases h : partnamecomp.tablename <;> simp [makePartitionCreateStmt, h]

/-- The naming context after the loop of generateRangePartitions: the counter
has grown by the number of partitions built, unless a tablename override is
set. -/
theorem rangePartLoop_partnum {E D : Type} (cenv : CatalogEnv E D) (parentrel : Relation D)
    (elem : GpPartDefElem E) (subPart : Option PartitionSpec) (start endNode every : Option E) :
    ∀ (fuel : Nat) (iter : PartEveryIterator D) (i : Nat) (partnamecomp : partname_comp)
      (result : List (CreateStmt D)) (partnamecomp2 : partname_comp),
      rangePartLoop cenv parentrel elem subPart start endNode every fuel iter i partnamecomp
        = some (Except.ok (result, partnamecomp2)) →
      partnamecomp2.level = partnamecomp.level ∧
      partnamecomp2.tablename = partnamecomp.tablename ∧
      partnamecomp2.partnum
        = partnamecomp.partnum + (if partnamecomp.tablename.isSome then 0 else result.length) := by
  intro fuel
  induction fuel with
  | zero => intro iter i pc result pc2 h; simp [rangePartLoop] at h
  | succ fuel ih =>
    intro iter i pc result pc2 h
    unfold rangePartLoop at h
    cases hn : nextPartBound iter with
    | error e => simp [hn] at h
    | ok r =>
      obtain ⟨flag, iter1⟩ := r
      cases flag with
      | false =>
        simp [hn] at h
        obtain ⟨h1, h2⟩ := h
        subst h1 h2
        simp
      | true =>
        simp only [hn] at h
        split at h
        · simp at h
        · simp at h
        · rename_i res pc3 hrec
          simp only [Option.some.injEq, Except.ok.injEq, Prod.mk.injEq] at h
          obtain ⟨h1, h2⟩ := h
          subst h1 h2
          obtain ⟨hl, ht, hp⟩ := ih _ _ _ _ _ hrec
          obtain ⟨ml, mt, mp⟩ := makePartitionCreateStmt_partname_comp cenv parentrel
            (everyPartName cenv elem every i).1
            { strategy := PartitionStrategy.range
              is_default := false
              lowerdatums := if start.isSome then [Node.Const iter1.currStart] else []
              upperdatums := if endNode.isSome then [Node.Const iter1.currEnd] else [] }
            subPart elem pc
          rw [ml] at hl
          rw [mt] at ht hp
          rw [mp] at hp
          refine ⟨hl, ht, ?_⟩
          rw [hp]
          cases pc.tablename <;> simp [Nat.add_comm, Nat.add_assoc]

/-- Without EVERY the loop of generateRangePartitions builds exactly one
partition. -/
theorem rangePartLoop_single {E D : Type} (cenv : CatalogEnv E D) (parentrel : Relation D)
    (elem : GpPartDefElem E) (subPart : Option PartitionSpec) (start endNode every : Option E)
    (fuel : Nat) (iter : PartEveryIterator D) (i : Nat) (partnamecomp : partname_comp)
    (result : List (CreateStmt D)) (partnamecomp2 : partname_comp)
    (hplus : iter.plusexprstate = none) (hcalled : iter.called = false)
    (h : rangePartLoop cenv parentrel elem subPart start endNode every fuel iter i partnamecomp
      = some (Except.ok (result, partnamecomp2))) :
    result.length = 1 := by
  have h1 : nextPartBound iter = Except.ok (true,
      { iter with called := true, currStart := iter.currEnd, currEnd := iter.endVal }) := by
    simp [nextPartBound, hplus, hcalled]
  have h2 : nextPartBound
      { iter with called := true, currStart := iter.currEnd, currEnd := iter.endVal }
      = Except.ok (false,
        { iter with called := true, currStart := iter.currEnd, currEnd := iter.endVal }) := by
    simp [nextPartBound, hplus]
  cases fuel with
  | zero => simp [rangePartLoop] at h
  | succ fuel =>
    cases fuel with
    | zero => simp [rangePartLoop, h1] at h
    | succ fuel =>
      simp only [rangePartLoop, h1, h2, Option.some.injEq, Except.ok.injEq, Prod.mk.injEq] at h
      rw [← h.1]
      rfl

/-- The name returned by extract_tablename_from_options is present exactly when
an option is named tablename. -/
theorem extract_tablename_isSome (options : List DefElem) :
    ∀ (tablename : Option String) (rest : List DefElem),
      extract_tablename_from_options options = Except.ok (tablename, rest) →
      tablename.isSome = options.any (fun pDef => pDef.defname == "tablename") := by
  induction options with
  | nil =>
    intro tablename rest h
    simp [extract_tablename_from_options] at h
    simp [h.1]
  | cons pDef tail ih =>
    intro tablename rest h
    unfold extract_tablename_from_options at h
    by_cases hname : pDef.defname = "tablename"
    · simp only [hname, if_true] at h
      cases harg : pDef.arg with
      | str sval =>
        simp [harg] at h
        simp [← h.1, hname]
      | other => simp [harg] at h
    · simp only [hname, if_false] at h
      cases hrec : extract_tablename_from_options tail with
      | error e => simp [hrec] at h
      | ok r =>
        obtain ⟨t1, rest1⟩ := r
        simp [hrec] at h
        have := ih t1 rest1 hrec
        simp [← h.1, this, hname]

/-- The naming context after generateRangePartitions: the level and the override
are unchanged, and the counter has grown by the number of partitions built,
less the one partition that is built under a tablename override. -/
theorem generateRangePartitions_partnum {E D : Type} (env : BoundEnv E D)
    (cenv : CatalogEnv E D) (fuel : Nat) (parentrel : Relation D) (elem : GpPartDefElem E)
    (subPart : Option PartitionSpec) (partnamecomp : partname_comp)
    (result : List (CreateStmt D)) (partnamecomp2 : partname_comp)
    (h : generateRangePartitions env cenv fuel parentrel elem subPart partnamecomp
      = some (Except.ok (result, partnamecomp2))) :
    partnamecomp2.level = partnamecomp.level ∧
    partnamecomp2.partnum + (if partnamecomp.tablename.isSome then 1 else 0)
      = partnamecomp.partnum + result.length := by
  unfold generateRangePartitions at h
  split at h
  · simp at h
  · simp at h
  · rename_i boundspec hspec
    dsimp only at h
    generalize hev : (if (partnamecomp.tablename.isNone && !boundspec.partEvery.isEmpty) = true
      then boundspec.partEvery.head? else none) = every at h
    split_ifs at h with c1 c2 c3 c4 <;> try (exact absurd h (by simp))
    cases hinit : initPartEveryIterator env parentrel.partkey boundspec.partStart.head?
        boundspec.partEnd.head?
        (!boundspec.partEnd.isEmpty && boundspec.partEndEdge == PartEdge.inclusive) every with
    | error e => simp [hinit] at h
    | ok boundIter =>
      simp only [hinit] at h
      obtain ⟨hl, ht, hp⟩ := rangePartLoop_partnum _ _ _ _ _ _ _ _ _ _ _ _ _ h
      refine ⟨hl, ?_⟩
      cases htab : partnamecomp.tablename with
      | none =>
        rw [htab] at hp
        simp at hp ⊢
        exact hp
      | some tablename =>
        have hnoevery : every = none := by
          rw [← hev, htab]
          simp
        subst hnoevery
        rw [htab] at hp
        obtain ⟨-, hcalled, -, -, -, -, -, -, hnone, -⟩ :=
          initPartEveryIterator_ok _ _ _ _ _ _ _ hinit
        have hlen := rangePartLoop_single _ _ _ _ _ _ _ _ _ _ _ _ _ (hnone rfl) hcalled h
        simp at hp ⊢
        omega

/-- The naming context after the generator chosen for one element. -/
theorem generateForStrategy_partnum {E D : Type} (env : BoundEnv E D)
    (cenv : CatalogEnv E D) (fuel : Nat) (parentrel : Relation D) (elem : GpPartDefElem E)
    (tmpSubPartSpec : Option PartitionSpec) (partcomp : partname_comp)
    (new_parts : List (CreateStmt D)) (partcomp2 : partname_comp)
    (hgen : generateForStrategy env cenv fuel parentrel elem tmpSubPartSpec partcomp
      = some (Except.ok (new_parts, partcomp2))) :
    partcomp2.level = partcomp.level ∧
    partcomp2.partnum + (if partcomp.tablename.isSome then 1 else 0)
      = partcomp.partnum + new_parts.length := by
  unfold generateForStrategy at hgen
  split_ifs at hgen with hdef
  · simp only [generateDefaultPartition, Option.some.injEq, Except.ok.injEq,
      Prod.mk.injEq] at hgen
    obtain ⟨h1, h2⟩ := hgen
    subst h1 h2
    obtain ⟨ml, -, mp⟩ := makePartitionCreateStmt_partname_comp cenv parentrel elem.partName
      ({ is_default := true } : PartitionBoundSpec D) tmpSubPartSpec elem partcomp
    refine ⟨ml, ?_⟩
    rw [mp]
    cases partcomp.tablename <;> simp
  · split at hgen
    · exact generateRangePartitions_partnum _ _ _ _ _ _ _ _ _ hgen
    · unfold generateListPartition at hgen
      split at hgen
      · simp at hgen
      · simp at hgen
      · split at hgen
        · simp at hgen
        · split at hgen
          · simp at hgen
          · rename_i boundspec _
            simp only [Option.some.injEq, Except.ok.injEq, Prod.mk.injEq] at hgen
            obtain ⟨h1, h2⟩ := hgen
            subst h1 h2
            obtain ⟨ml, -, mp⟩ := makePartitionCreateStmt_partname_comp cenv parentrel
              elem.partName boundspec tmpSubPartSpec elem partcomp
            refine ⟨ml, ?_⟩
            rw [mp]
            cases partcomp.tablename <;> simp
    · simp at hgen

/-- The naming context after the body of the loop of generatePartitions for one
element. -/
theorem generatePartitionsElem_partnum {E D : Type} (env : BoundEnv E D)
    (cenv : CatalogEnv E D) (fuel : Nat) (parentrel : Relation D)
    (subPartSpec : Option PartitionSpec) (isSubTemplate : Bool) (parentoptions : List DefElem)
    (parentaccessmethod : Option String) (elem : GpPartDefElem E) (partcomp : partname_comp)
    (new_parts : List (CreateStmt D)) (partcomp2 : partname_comp) (elem1 : GpPartDefElem E)
    (h : generatePartitionsElem env cenv fuel parentrel subPartSpec isSubTemplate parentoptions
      parentaccessmethod elem partcomp = some (Except.ok (new_parts, partcomp2, elem1))) :
    partcomp2.level = partcomp.level ∧
    partcomp2.partnum + (if carriesTablename (PartDefNode.elem elem) then 1 else 0)
      = partcomp.partnum + new_parts.length := by
  unfold generatePartitionsElem at h
  split at h
  · simp at h
  · cases hext : extract_tablename_from_options elem.options with
    | error e => simp [hext] at h
    | ok r =>
      obtain ⟨tablename, options1⟩ := r
      have hsome := extract_tablename_isSome _ _ _ hext
      simp only [hext] at h
      split at h
      · simp at h
      · simp at h
      · rename_i parts pc2 hgen
        simp only [Option.some.injEq, Except.ok.injEq, Prod.mk.injEq] at h
        obtain ⟨h1, h2, -⟩ := h
        subst h1 h2
        obtain ⟨hl, hp⟩ := generateForStrategy_partnum _ _ _ _ _ _ _ _ _ hgen
        simp only [carriesTablename, ← hsome]
        exact ⟨hl, hp⟩

/-- The naming context after the loop of generatePartitions. -/
theorem generatePartitionsLoop_partnum {E D : Type} (env : BoundEnv E D)
    (cenv : CatalogEnv E D) (fuel : Nat) (parentrel : Relation D)
    (subPartSpec : Option PartitionSpec) (isSubTemplate : Bool) (parentoptions : List DefElem)
    (parentaccessmethod : Option String) (nodes : List (PartDefNode E)) :
    ∀ (partcomp : partname_comp) (result : List (CreateStmt D)) (partcomp2 : partname_comp)
      (nodes1 : List (PartDefNode E)),
      generatePartitionsLoop env cenv fuel parentrel subPartSpec isSubTemplate parentoptions
        parentaccessmethod nodes partcomp = some (Except.ok (result, partcomp2, nodes1)) →
      partcomp2.level = partcomp.level ∧
      partcomp2.partnum + nodes.countP carriesTablename = partcomp.partnum + result.length := by
  induction nodes with
  | nil =>
    intro pc result pc2 nodes1 h
    simp only [generatePartitionsLoop, Option.some.injEq, Except.ok.injEq, Prod.mk.injEq] at h
    obtain ⟨h1, h2, -⟩ := h
    subst h1 h2
    simp
  | cons node rest ih =>
    intro pc result pc2 nodes1 h
    cases node with
    | elem elem =>
      unfold generatePartitionsLoop at h
      split at h
      · simp at h
      · simp at h
      · rename_i new_parts pc1 elem1 hel
        split at h
        · simp at h
        · simp at h
        · rename_i res pc3 rest1 hrec
          simp only [Option.some.injEq, Except.ok.injEq, Prod.mk.injEq] at h
          obtain ⟨h1, h2, -⟩ := h
          subst h1 h2
          obtain ⟨el, ep⟩ := generatePartitionsElem_partnum _ _ _ _ _ _ _ _ _ _ _ _ _ hel
          obtain ⟨rl, rp⟩ := ih _ _ _ _ hrec
          refine ⟨by rw [rl, el], ?_⟩
          rw [List.countP_cons, List.length_append]
          split_ifs at ep ⊢ <;> omega
    | columnReferenceStorageDirective =>
      simp [generatePartitionsLoop] at h
    | other =>
      unfold generatePartitionsLoop at h
      split at h
      · simp at h
      · simp at h
      · rename_i res pc3 rest1 hrec
        simp only [Option.some.injEq, Except.ok.injEq, Prod.mk.injEq] at h
        obtain ⟨h1, h2, -⟩ := h
        subst h1 h2
        obtain ⟨rl, rp⟩ := ih _ _ _ _ hrec
        refine ⟨rl, ?_⟩
        rw [List.countP_cons]
        simpa [carriesTablename] using rp

/-- C20 (amended): a call of makePartitionCreateStmt leaves level and tablename
of the naming context unchanged and increments partnum by exactly one when the
context carries no tablename override; under an override partnum stays as it
is.  The loop of generatePartitions never resets the counter: when it ends, the
level is unchanged and the counter plus the number of elements that carry a
tablename option (each of them yields one descriptor) equals its initial value
plus the number of descriptors built. -/
theorem generatePartitionsLoop_partnum_counts {E D : Type} (env : BoundEnv E D)
    (cenv : CatalogEnv E D) (fuel : Nat) (parentrel : Relation D)
    (subPartSpec : Option PartitionSpec) (isSubTemplate : Bool) (parentoptions : List DefElem)
    (parentaccessmethod : Option String) (nodes : List (PartDefNode E))
    (partcomp : partname_comp) (result : List (CreateStmt D)) (partcomp2 : partname_comp)
    (nodes1 : List (PartDefNode E))
    (hrun : generatePartitionsLoop env cenv fuel parentrel subPartSpec isSubTemplate
      parentoptions parentaccessmethod nodes partcomp
        = some (Except.ok (result, partcomp2, nodes1))) :
    (∀ (partname : Option String) (boundspec : PartitionBoundSpec D)
        (subPart : Option PartitionSpec) (elem : GpPartDefElem E) (pc : partname_comp),
      (makePartitionCreateStmt cenv parentrel partname boundspec subPart elem pc).2.level
        = pc.level ∧
      (makePartitionCreateStmt cenv parentrel partname boundspec subPart elem pc).2.tablename
        = pc.tablename ∧
      (makePartitionCreateStmt cenv parentrel partname boundspec subPart elem pc).2.partnum
        = if pc.tablename.isSome then pc.partnum else pc.partnum + 1) ∧
    partcomp2.level = partcomp.level ∧
    partcomp2.partnum + nodes.countP carriesTablename = partcomp.partnum + result.length :=
  ⟨fun partname boundspec subPart elem pc =>
      makePartitionCreateStmt_partname_comp cenv parentrel partname boundspec subPart elem pc,
    generatePartitionsLoop_partnum env cenv fuel parentrel subPartSpec isSubTemplate
      parentoptions parentaccessmethod nodes partcomp result partcomp2 nodes1 hrun⟩

/-- C20 (amended) at the specification [DEFAULT other, START(1) END(10) EVERY(3),
START(20) END(30) EVERY(5) WITH (tablename = legacy)] of an int4 range key: five
descriptors are built, one of them under the override, and the counter ends
at 4. -/
theorem generatePartitionsLoop_partnum_counts_witness :
    ∃ result partcomp2 nodes1,
      generatePartitionsLoop intEnv intCatalogEnv 10 rangeParent none false [] none
        [PartDefNode.elem { partName := some "other", isDefault := true },
         PartDefNode.elem
           { boundSpec := some (BoundSpecNode.rangeSpec
               { partStart := [1], partEnd := [10], partEvery := [3] }) },
         PartDefNode.elem
           { boundSpec := some (BoundSpecNode.rangeSpec
               { partStart := [20], partEnd := [30], partEvery := [5] })
             options := [{ defname := "tablename", arg := DefArg.str "legacy" }] }]
        { level := 1 } = some (Except.ok (result, partcomp2, nodes1)) ∧
      result.length = 5 ∧ partcomp2.partnum = 4 ∧
      partcomp2.partnum +
        List.countP carriesTablename
          [PartDefNode.elem { partName := some "other", isDefault := true },
           PartDefNode.elem
             { boundSpec := some (BoundSpecNode.rangeSpec
                 { partStart := [1], partEnd := [10], partEvery := [3] }) },
           PartDefNode.elem
             { boundSpec := some (BoundSpecNode.rangeSpec
                 { partStart := [20], partEnd := [30], partEvery := [5] })
               options := [{ defname := "tablename", arg := DefArg.str "legacy" }] }]
        = ({ level := 1 } : partname_comp).partnum + result.length :=
  ⟨_, _, _, rfl, rfl, rfl,
    (generatePartitionsLoop_partnum_counts intEnv intCatalogEnv 10 rangeParent none false [] none
      [PartDefNode.elem { partName := some "other", isDefault := true },
       PartDefNode.elem
         { boundSpec := some (BoundSpecNode.rangeSpec
             { partStart := [1], partEnd := [10], partEvery := [3] }) },
       PartDefNode.elem
         { boundSpec := some (BoundSpecNode.rangeSpec
             { partStart := [20], partEnd := [30], partEvery := [5] })
           options := [{ defname := "tablename", arg := DefArg.str "legacy" }] }]
      { level := 1 } _ _ _ rfl).2.2⟩

/-! ### Further properties of the comparator and the fill pass -/

/-- C24: when the key has a number of columns other than one, generateRangePartitions
fails with "too many columns for RANGE partition -- only one column is allowed"
for every element that has a range bound specification, whatever the
collaborators do and however few calls of nextPartBound are allowed: no bound
is evaluated and no descriptor is built. -/
theorem generateRangePartitions_too_many_columns {E D : Type} (env : BoundEnv E D)
    (cenv : CatalogEnv E D) (fuel : Nat) (parentrel : Relation D) (elem : GpPartDefElem E)
    (subPart : Option PartitionSpec) (partnamecomp : partname_comp)
    (boundspec : GpPartitionRangeSpec E)
    (hspec : elem.boundSpec = some (BoundSpecNode.rangeSpec boundspec))
    (hkey : parentrel.partkey.partnatts ≠ 1) :
    generateRangePartitions env cenv fuel parentrel elem subPart partnamecomp
      = some (Except.error PartError.tooManyRangeColumns) := by
  unfold generateRangePartitions
  simp only [hspec]
  simp [hkey]

/-- C24 at a key of two int4 columns and the element START(1) END(10), with no
call of nextPartBound allowed. -/
theorem generateRangePartitions_too_many_columns_witness :
    generateRangePartitions intEnv intCatalogEnv 0
      { rangeParent with partkey := { int4Key with partnatts := 2 } }
      { boundSpec := some (BoundSpecNode.rangeSpec { partStart := [1], partEnd := [10] }) }
      none { level := 1 }
      = some (Except.error PartError.tooManyRangeColumns) :=
  generateRangePartitions_too_many_columns intEnv intCatalogEnv 0
    { rangeParent with partkey := { int4Key with partnatts := 2 } }
    { boundSpec := some (BoundSpecNode.rangeSpec { partStart := [1], partEnd := [10] }) }
    none { level := 1 } { partStart := [1], partEnd := [10] } rfl (by decide)

/-- The fill pass changes no statement whose bounds are all present, whatever
the value of prevstmt it is entered with. -/
theorem deduceLoop_all_present {D : Type} (stmts : List (CreateStmt D)) :
    ∀ prevstmt : Option (CreateStmt D),
      (∀ s ∈ stmts, s.partbound.lowerdatums ≠ [] ∧ s.partbound.upperdatums ≠ []) →
      deduceLoop prevstmt stmts = stmts := by
  induction stmts with
  | nil => intro p _; rfl
  | cons s rest ih =>
    intro p hall
    obtain ⟨hl, hu⟩ := hall s (List.mem_cons_self _ _)
    have el := isEmpty_eq_false_of_ne_nil hl
    have eu := isEmpty_eq_false_of_ne_nil hu
    have hstep : deduceLoop p (s :: rest) = s :: deduceLoop (some s) rest := by
      conv_lhs => unfold deduceLoop
      simp only [el, eu, Bool.false_eq_true, if_false]
    rw [hstep, ih (some s) (fun x hx => hall x (List.mem_cons_of_mem _ hx))]

/-- C26: on a batch in which every lower and upper bound is present the fill
pass of deduceImplicitRangeBounds returns the batch unchanged; in particular,
when the batch is the output of a first run of the pass, a second run returns
that output unchanged. -/
theorem deduceLoop_present_unchanged {D : Type} (stmts : List (CreateStmt D))
    (hall : ∀ s ∈ stmts, s.partbound.lowerdatums ≠ [] ∧ s.partbound.upperdatums ≠ []) :
    deduceLoop none stmts = stmts ∧
    ∀ orig, deduceLoop none orig = stmts →
      deduceLoop none (deduceLoop none orig) = deduceLoop none orig := by
  have h := deduceLoop_all_present stmts none hall
  refine ⟨h, ?_⟩
  intro orig horig
  rw [horig, h]

/-- C26 at the batch [(minvalue, 5), (5, 10)], the output of the pass on
[(implicit, 5), (5, 10)]. -/
theorem deduceLoop_present_unchanged_witness :
    deduceLoop none (deduceLoop none [rangeStmt [] [5], rangeStmt [5] [10]])
      = deduceLoop none [rangeStmt [] [5], rangeStmt [5] [10]] :=
  (deduceLoop_present_unchanged (deduceLoop none [rangeStmt [] [5], rangeStmt [5] [10]])
    (by decide)).2 [rangeStmt [] [5], rangeStmt [5] [10]] rfl

/-- The column loop on two single Consts of a one-column key is the support
function of the column applied to the two datums. -/
theorem cmpDatumLoop_single {D : Type} (key : PartitionKeyData D) (x y : D)
    (hkey : key.partnatts = 1) :
    cmpDatumLoop key [Node.Const x] [Node.Const y] 0 key.partnatts
      = some (key.partsupfunc 0 x y) := by
  rw [hkey]
  by_cases h : key.partsupfunc 0 x y = 0
  · simp [cmpDatumLoop, nthConstvalue, h]
  · simp [cmpDatumLoop, nthConstvalue, h]

/-- C28: for two statements with the same default flag, when both have a lower
bound qsort_stmt_cmp is the column loop over the two lower bounds (for a
one-column key and single Consts, the support function applied to the two lower
datums), whatever the upper bounds are and also when the result is zero;
otherwise, when both have an upper bound, it is the column loop over the two
upper bounds. -/
theorem qsort_stmt_cmp_lower_then_upper {D : Type} (key : PartitionKeyData D)
    (a b : CreateStmt D) (hflag : a.partbound.is_default = b.partbound.is_default) :
    (a.partbound.lowerdatums ≠ [] → b.partbound.lowerdatums ≠ [] →
      qsort_stmt_cmp key a b
        = cmpDatumLoop key a.partbound.lowerdatums b.partbound.lowerdatums 0 key.partnatts ∧
      (∀ x y, key.partnatts = 1 → a.partbound.lowerdatums = [Node.Const x] →
        b.partbound.lowerdatums = [Node.Const y] →
        qsort_stmt_cmp key a b = some (key.partsupfunc 0 x y))) ∧
    (¬ (a.partbound.lowerdatums ≠ [] ∧ b.partbound.lowerdatums ≠ []) →
      a.partbound.upperdatums ≠ [] → b.partbound.upperdatums ≠ [] →
      qsort_stmt_cmp key a b
        = cmpDatumLoop key a.partbound.upperdatums b.partbound.upperdatums 0 key.partnatts ∧
      (∀ x y, key.partnatts = 1 → a.partbound.upperdatums = [Node.Const x] →
        b.partbound.upperdatums = [Node.Const y] →
        qsort_stmt_cmp key a b = some (key.partsupfunc 0 x y))) := by
  constructor
  · intro ha hb
    have ea := isEmpty_eq_false_of_ne_nil ha
    have eb := isEmpty_eq_false_of_ne_nil hb
    have h1 : qsort_stmt_cmp key a b
        = cmpDatumLoop key a.partbound.lowerdatums b.partbound.lowerdatums 0 key.partnatts := by
      simp [qsort_stmt_cmp, hflag, ea, eb]
    refine ⟨h1, ?_⟩
    intro x y hkey hx hy
    rw [h1, hx, hy, cmpDatumLoop_single key x y hkey]
  · intro hnot ha hb
    have ea := isEmpty_eq_false_of_ne_nil ha
    have eb := isEmpty_eq_false_of_ne_nil hb
    have hl : (!a.partbound.lowerdatums.isEmpty && !b.partbound.lowerdatums.isEmpty) = false := by
      cases hla : a.partbound.lowerdatums with
      | nil => simp
      | cons x xs =>
        cases hlb : b.partbound.lowerdatums with
        | nil => simp
        | cons y ys =>
          exfalso
          apply hnot
          rw [hla, hlb]
          simp
    have h1 : qsort_stmt_cmp key a b
        = cmpDatumLoop key a.partbound.upperdatums b.partbound.upperdatums 0 key.partnatts := by
      simp only [qsort_stmt_cmp, hflag, bne_self_eq_false, Bool.false_eq_true, if_false, hl, ea,
        eb, Bool.not_false, Bool.and_self, if_true]
    refine ⟨h1, ?_⟩
    intro x y hkey hx hy
    rw [h1, hx, hy, cmpDatumLoop_single key x y hkey]

/-- C28 at a = [5, 6) and b = [5, 9) over an int4 key: the lower bounds tie and
the result is 0, the upper bounds 6 and 9 are not consulted. -/
theorem qsort_stmt_cmp_lower_then_upper_witness :
    qsort_stmt_cmp int4Key (rangeStmt [5] [6]) (rangeStmt [5] [9]) = some (btint4cmp 5 5) ∧
    btint4cmp 5 5 = 0 :=
  ⟨((qsort_stmt_cmp_lower_then_upper int4Key (rangeStmt [5] [6]) (rangeStmt [5] [9]) rfl).1
      (by decide) (by decide)).2 5 5 rfl rfl rfl, by decide⟩

/-- The boundary between two neighbours after the fill pass, for a loop entered
with any value of prevstmt. -/
theorem deduceLoop_boundary_from {D : Type} (stmts : List (CreateStmt D)) :
    ∀ (prevstmt : Option (CreateStmt D)) (i : Nat) (a b : CreateStmt D),
      stmts[i]? = some a → stmts[i + 1]? = some b →
      (a.partbound.upperdatums = [] ∨ b.partbound.lowerdatums = []) →
      ∃ oa ob, (deduceLoop prevstmt stmts)[i]? = some oa ∧
        (deduceLoop prevstmt stmts)[i + 1]? = some ob ∧
        oa.partbound.upperdatums = ob.partbound.lowerdatums := by
  induction stmts with
  | nil => intro p i a b h; simp at h
  | cons s rest ih =>
    intro p i a b ha hb habs
    obtain ⟨s2, hcons, -, hup, -⟩ := deduceLoop_cons p s rest
    rw [hcons]
    cases i with
    | zero =>
      simp only [List.getElem?_cons_zero, Option.some.injEq] at ha
      simp only [List.getElem?_cons_succ] at hb
      subst ha
      cases rest with
      | nil => simp at hb
      | cons t tail =>
        simp only [List.getElem?_cons_zero, Option.some.injEq] at hb
        subst hb
        obtain ⟨t2, hcons2, hlow2, -⟩ := deduceLoop_cons (some s2) t tail
        refine ⟨s2, t2, by simp, by simp [hcons2], ?_⟩
        have hlow2b : t2.partbound.lowerdatums =
            if t.partbound.lowerdatums.isEmpty then s2.partbound.upperdatums
            else t.partbound.lowerdatums := hlow2
        have hupb : s2.partbound.upperdatums =
            if s.partbound.upperdatums.isEmpty then t.partbound.lowerdatums
            else s.partbound.upperdatums := hup
        cases hu : s.partbound.upperdatums.isEmpty <;>
          cases hl : t.partbound.lowerdatums.isEmpty
        · rcases habs with h | h
          · rw [h] at hu; simp at hu
          · rw [h] at hl; simp at hl
        · rw [hlow2b, hl]; simp
        · rw [hlow2b, hupb, hu, hl]; simp
        · rw [hlow2b, hl]; simp
    | succ j =>
      simp only [List.getElem?_cons_succ] at ha hb
      obtain ⟨oa, ob, hoa, hob, heq⟩ := ih (some s2) j a b ha hb habs
      exact ⟨oa, ob, by simpa using hoa, by simpa using hob, heq⟩

/-- C30: after the fill pass of deduceImplicitRangeBounds, at every pair of
adjacent positions i, i + 1 whose boundary was open before the pass (the upper
bound at i or the lower bound at i + 1 was absent), the upper bound at i and the
lower bound at i + 1 are the same list: the same value, or both still
absent. -/
theorem deduceLoop_boundary_closed {D : Type} (stmts : List (CreateStmt D)) (i : Nat)
    (a b : CreateStmt D) (ha : stmts[i]? = some a) (hb : stmts[i + 1]? = some b)
    (habs : a.partbound.upperdatums = [] ∨ b.partbound.lowerdatums = []) :
    ∃ oa ob, (deduceLoop none stmts)[i]? = some oa ∧
      (deduceLoop none stmts)[i + 1]? = some ob ∧
      oa.partbound.upperdatums = ob.partbound.lowerdatums :=
  deduceLoop_boundary_from stmts none i a b ha hb habs

/-- C30 at the batch [START(1), START(5) END(10), END(20)]: the boundary between
positions 1 and 2 is closed at 10. -/
theorem deduceLoop_boundary_closed_witness :
    ∃ oa ob,
      (deduceLoop none [rangeStmt [1] [], rangeStmt [5] [10], rangeStmt [] [20]])[1]? = some oa ∧
      (deduceLoop none [rangeStmt [1] [], rangeStmt [5] [10], rangeStmt [] [20]])[1 + 1]?
        = some ob ∧
      oa.partbound.upperdatums = ob.partbound.lowerdatums :=
  deduceLoop_boundary_closed [rangeStmt [1] [], rangeStmt [5] [10], rangeStmt [] [20]] 1
    (rangeStmt [5] [10]) (rangeStmt [] [20]) (by decide) (by decide) (Or.inr (by decide))

/-! ### The iterator over the integers -/

/-- The loop over nextPartBound on the integers with step `k > 0`, from a cursor
`cur` for which `n + 1` is the least number of steps that reaches `e`. -/
theorem partBoundLoop_int_steps (e k : Int) (hk : 0 < k) :
    ∀ (n extra : Nat) (cur currStart : Int) (called : Bool),
      cur + n * k < e → e ≤ cur + (n + 1) * k →
      partBoundLoop (extra + (n + 1) + 1)
        { partkey := int4Key, endVal := e,
          plusexprstate := some (fun x => Except.ok (some (x + k))),
          currStart := currStart, currEnd := cur, called := called, endReached := false }
        = some (Except.ok ((List.range (n + 1)).map
            (fun i : Nat => (cur + i * k, min (cur + (i + 1) * k) e)))) := by
  intro n
  induction n with
  | zero =>
    intro extra cur cs called h1 h2
    simp only [Nat.cast_zero, zero_mul, add_zero, zero_add, one_mul] at h1 h2
    have hstep := nextPartBound_of_next
      { partkey := int4Key, endVal := e,
        plusexprstate := some (fun x => Except.ok (some (x + k))),
        currStart := cs, currEnd := cur, called := called, endReached := false }
      (fun x => Except.ok (some (x + k))) (cur + k) rfl rfl
    have hc : btint4cmp (cur + k) e ≥ 0 := by
      unfold btint4cmp
      split_ifs <;> omega
    simp only [int4Key, hc, Bool.false_eq_true, if_false, if_true] at hstep
    have hdone : nextPartBound
        { partkey := { partnatts := 1, strategy := PartitionStrategy.range,
                       partsupfunc := fun _ => btint4cmp },
          endVal := e, plusexprstate := some (fun x => Except.ok (some (x + k))),
          currStart := cur, currEnd := e, called := true, endReached := true }
        = Except.ok (false,
          { partkey := { partnatts := 1, strategy := PartitionStrategy.range,
                         partsupfunc := fun _ => btint4cmp },
            endVal := e, plusexprstate := some (fun x => Except.ok (some (x + k))),
            currStart := cur, currEnd := e, called := true, endReached := true }) := by
      simp [nextPartBound]
    have hmin : min (cur + k) e = e := min_eq_right h2
    simp [partBoundLoop, int4Key, hstep, hdone, List.range_succ, hmin]
  | succ n ih =>
    intro extra cur cs called h1 h2
    have e1 : ((n + 1 : Nat) : Int) = (n : Int) + 1 := by push_cast; ring
    rw [e1] at h1 h2
    have hlt : cur + k < e := by nlinarith
    have hstep := nextPartBound_of_next
      { partkey := int4Key, endVal := e,
        plusexprstate := some (fun x => Except.ok (some (x + k))),
        currStart := cs, currEnd := cur, called := called, endReached := false }
      (fun x => Except.ok (some (x + k))) (cur + k) rfl rfl
    have hc1 : ¬ (btint4cmp (cur + k) e ≥ 0) := by
      unfold btint4cmp
      split_ifs <;> omega
    have hc2 : ¬ (btint4cmp cur (cur + k) ≥ 0) := by
      unfold btint4cmp
      split_ifs <;> omega
    simp only [int4Key, hc1, hc2, Bool.false_eq_true, if_false] at hstep
    have hrec := ih extra (cur + k) cur true (by linarith) (by linarith)
    have hfuel : extra + (n + 1 + 1) + 1 = (extra + (n + 1) + 1) + 1 := by omega
    rw [hfuel, partBoundLoop]
    simp only [int4Key] at hrec ⊢
    rw [hstep]
    simp only [hrec]
    rw [List.range_succ_eq_map (n + 1), List.map_cons, List.map_map]
    have hmin : min (cur + k) e = cur + k := min_eq_left (le_of_lt hlt)
    simp only [Nat.cast_zero, zero_mul, add_zero, zero_add, one_mul, hmin]
    congr 3
    apply List.map_congr_left
    intro i _
    simp only [Function.comp, Nat.succ_eq_add_one, Nat.cast_add, Nat.cast_one]
    congr 1
    · ring
    · congr 1
      ring

/-- C29: over the integers with x + k as the successor and an exclusive END, for
s < e and k > 0 the loop over nextPartBound raises no error and produces
exactly n = ceil((e - s) / k) pairs, the i-th of which (counted from 1) is
(s + (i - 1) * k, min(s + i * k, e)); n + 1 calls, or more, are what it takes. -/
theorem partBoundLoop_integer_tiling (s e k : Int) (hse : s < e) (hk : 0 < k) :
    ∃ (iter : PartEveryIterator Int) (n : Nat),
      initPartEveryIterator intEnv int4Key (some s) (some e) false (some k) = Except.ok iter ∧
      (n : Int) = ⌈((e - s : Int) : ℚ) / ((k : Int) : ℚ)⌉ ∧
      ∀ extra : Nat, ∃ bounds,
        partBoundLoop (extra + n + 1) iter = some (Except.ok bounds) ∧
        bounds.length = n ∧
        ∀ i : Nat, 1 ≤ i → i ≤ n →
          bounds[i - 1]? = some (s + ((i : Int) - 1) * k, min (s + (i : Int) * k) e) := by
  have hq1 : 1 ≤ ⌈((e - s : Int) : ℚ) / ((k : Int) : ℚ)⌉ := by
    rw [Int.one_le_ceil_iff]
    apply div_pos
    · exact_mod_cast (by linarith : (0 : Int) < e - s)
    · exact_mod_cast hk
  obtain ⟨m, hm⟩ : ∃ m : Nat, ((m + 1 : Nat) : Int) = ⌈((e - s : Int) : ℚ) / ((k : Int) : ℚ)⌉ := by
    generalize ⌈((e - s : Int) : ℚ) / ((k : Int) : ℚ)⌉ = c at hq1
    exact ⟨(c - 1).toNat, by omega⟩
  have hkq : (0 : ℚ) < (k : ℚ) := by exact_mod_cast hk
  have hceil := (Int.ceil_eq_iff.mp hm.symm)
  have h1 : s + (m : Int) * k < e := by
    have := hceil.1
    rw [lt_div_iff₀ hkq] at this
    push_cast at this
    have h' : ((m : Int) : ℚ) * (k : ℚ) < ((e - s : Int) : ℚ) := by
      push_cast
      linarith
    have h'' : (m : Int) * k < e - s := by exact_mod_cast h'
    linarith
  have h2 : e ≤ s + ((m : Int) + 1) * k := by
    have := hceil.2
    rw [div_le_iff₀ hkq] at this
    push_cast at this
    have h' : ((e - s : Int) : ℚ) ≤ (((m : Int) + 1) : ℚ) * (k : ℚ) := by
      push_cast
      linarith
    have h'' : e - s ≤ ((m : Int) + 1) * k := by exact_mod_cast h'
    linarith
  refine ⟨_, m + 1, rfl, hm, ?_⟩
  intro extra
  refine ⟨_, partBoundLoop_int_steps e k hk m extra s 0 false h1 h2, by simp, ?_⟩
  intro i hi1 hi2
  obtain ⟨j, rfl⟩ : ∃ j, i = j + 1 := ⟨i - 1, by omega⟩
  have hj : j < m + 1 := by omega
  simp only [Nat.add_sub_cancel]
  rw [List.getElem?_map, List.getElem?_range hj]
  simp

/-- C29 at START(1) END(10) EVERY(3), an exclusive END: three pairs. -/
theorem partBoundLoop_integer_tiling_witness :
    ∃ (iter : PartEveryIterator Int) (n : Nat),
      initPartEveryIterator intEnv int4Key (some 1) (some 10) false (some 3) = Except.ok iter ∧
      (n : Int) = ⌈(((10 : Int) - 1 : Int) : ℚ) / ((3 : Int) : ℚ)⌉ ∧
      ∀ extra : Nat, ∃ bounds,
        partBoundLoop (extra + n + 1) iter = some (Except.ok bounds) ∧
        bounds.length = n ∧
        ∀ i : Nat, 1 ≤ i → i ≤ n →
          bounds[i - 1]? = some (1 + ((i : Int) - 1) * 3, min (1 + (i : Int) * 3) 10) :=
  partBoundLoop_integer_tiling 1 10 3 (by decide) (by decide)

/-! ### The fields of the descriptors -/

theorem list_qsort_insert_perm {α : Type} (cmp : α → α → Option Int) (x : α) (l : List α) :
    ∀ l1, list_qsort_insert cmp x l = some l1 → List.Perm l1 (x :: l) := by
  induction l with
  | nil =>
    intro l1 h
    simp [list_qsort_insert] at h
    subst h
    exact List.Perm.refl _
  | cons y ys ih =>
    intro l1 h
    unfold list_qsort_insert at h
    cases hc : cmp x y with
    | none => simp [hc] at h
    | some c =>
      simp only [hc] at h
      by_cases hle : c ≤ 0
      · simp [hle] at h
        subst h
        exact List.Perm.refl _
      · simp only [hle, if_false] at h
        cases hi : list_qsort_insert cmp x ys with
        | none => simp [hi] at h
        | some zs =>
          simp [hi] at h
          subst h
          exact ((ih zs hi).cons y).trans (List.Perm.swap x y ys)

theorem list_qsort_perm {α : Type} (cmp : α → α → Option Int) (l : List α) :
    ∀ l1, list_qsort cmp l = some l1 → List.Perm l1 l := by
  induction l with
  | nil =>
    intro l1 h
    simp [list_qsort] at h
    subst h
    exact List.Perm.refl _
  | cons x xs ih =>
    intro l1 h
    unfold list_qsort at h
    cases hs : list_qsort cmp xs with
    | none => simp [hs] at h
    | some sorted =>
      simp only [hs] at h
      exact (list_qsort_insert_perm cmp x sorted l1 h).trans ((ih sorted hs).cons x)

/-- One step of the fill pass leaves the fields copied from the element alone. -/
theorem deduceLoop_cons_frame {D : Type} (prevstmt : Option (CreateStmt D)) (stmt : CreateStmt D)
    (rest : List (CreateStmt D)) :
    ∃ stmt2 : CreateStmt D,
      deduceLoop prevstmt (stmt :: rest) = stmt2 :: deduceLoop (some stmt2) rest ∧
      stmt2.options = stmt.options ∧ stmt2.accessMethod = stmt.accessMethod ∧
      stmt2.tablespacename = stmt.tablespacename ∧ stmt2.partspec = stmt.partspec ∧
      stmt2.relname = stmt.relname ∧ stmt2.relpersistence = stmt.relpersistence ∧
      stmt2.ownerid = stmt.ownerid := by
  refine ⟨_, rfl, ?_, ?_, ?_, ?_, ?_, ?_, ?_⟩ <;>
    cases prevstmt <;> cases rest <;>
    cases hl : stmt.partbound.lowerdatums.isEmpty <;>
    cases hu : stmt.partbound.upperdatums.isEmpty <;>
    simp [hl, hu]

theorem deduceLoop_mem_frame {D : Type} (stmts : List (CreateStmt D)) :
    ∀ (prevstmt : Option (CreateStmt D)) (out : CreateStmt D),
      out ∈ deduceLoop prevstmt stmts →
      ∃ s ∈ stmts, out.options = s.options ∧ out.accessMethod = s.accessMethod ∧
        out.tablespacename = s.tablespacename ∧ out.partspec = s.partspec := by
  induction stmts with
  | nil => intro p out h; simp [deduceLoop] at h
  | cons s rest ih =>
    intro p out h
    obtain ⟨s2, hcons, ho, ha, ht, hp, -⟩ := deduceLoop_cons_frame p s rest
    rw [hcons] at h
    rcases List.mem_cons.mp h with h1 | h1
    · subst h1
      exact ⟨s, List.mem_cons_self _ _, ho, ha, ht, hp⟩
    · obtain ⟨s1, hs1, hf⟩ := ih (some s2) out h1
      exact ⟨s1, List.mem_cons_of_mem _ hs1, hf⟩

theorem makePartitionCreateStmt_builtFor {E D : Type} (cenv : CatalogEnv E D)
    (parentrel : Relation D) (partname : Option String) (boundspec : PartitionBoundSpec D)
    (subPart : Option PartitionSpec) (elem : GpPartDefElem E) (partnamecomp : partname_comp) :
    BuiltFor elem subPart
      (makePartitionCreateStmt cenv parentrel partname boundspec subPart elem partnamecomp).1 :=
  ⟨rfl, rfl, rfl, rfl⟩

theorem rangePartLoop_builtFor {E D : Type} (cenv : CatalogEnv E D) (parentrel : Relation D)
    (elem : GpPartDefElem E) (subPart : Option PartitionSpec) (start endNode every : Option E) :
    ∀ (fuel : Nat) (iter : PartEveryIterator D) (i : Nat) (partnamecomp : partname_comp)
      (result : List (CreateStmt D)) (partnamecomp2 : partname_comp),
      rangePartLoop cenv parentrel elem subPart start endNode every fuel iter i partnamecomp
        = some (Except.ok (result, partnamecomp2)) →
      ∀ stmt ∈ result, BuiltFor elem subPart stmt := by
  intro fuel
  induction fuel with
  | zero => intro iter i pc result pc2 h; simp [rangePartLoop] at h
  | succ fuel ih =>
    intro iter i pc result pc2 h
    unfold rangePartLoop at h
    cases hn : nextPartBound iter with
    | error e => simp [hn] at h
    | ok r =>
      obtain ⟨flag, iter1⟩ := r
      cases flag with
      | false =>
        simp [hn] at h
        obtain ⟨h1, -⟩ := h
        subst h1
        intro stmt hs
        simp at hs
      | true =>
        simp only [hn] at h
        split at h
        · simp at h
        · simp at h
        · rename_i res pc3 hrec
          simp only [Option.some.injEq, Except.ok.injEq, Prod.mk.injEq] at h
          obtain ⟨h1, -⟩ := h
          subst h1
          intro stmt hs
          rcases List.mem_cons.mp hs with h2 | h2
          · subst h2
            exact makePartitionCreateStmt_builtFor _ _ _ _ _ _ _
          · exact ih _ _ _ _ _ hrec stmt h2

theorem generateForStrategy_builtFor {E D : Type} (env : BoundEnv E D)
    (cenv : CatalogEnv E D) (fuel : Nat) (parentrel : Relation D) (elem : GpPartDefElem E)
    (tmpSubPartSpec : Option PartitionSpec) (partcomp : partname_comp)
    (new_parts : List (CreateStmt D)) (partcomp2 : partname_comp)
    (hgen : generateForStrategy env cenv fuel parentrel elem tmpSubPartSpec partcomp
      = some (Except.ok (new_parts, partcomp2))) :
    ∀ stmt ∈ new_parts, BuiltFor elem tmpSubPartSpec stmt := by
  unfold generateForStrategy at hgen
  split_ifs at hgen with hdef
  · simp only [generateDefaultPartition, Option.some.injEq, Except.ok.injEq,
      Prod.mk.injEq] at hgen
    obtain ⟨h1, -⟩ := hgen
    subst h1
    intro stmt hs
    simp only [List.mem_singleton] at hs
    subst hs
    exact makePartitionCreateStmt_builtFor _ _ _ _ _ _ _
  · split at hgen
    · unfold generateRangePartitions at hgen
      split at hgen
      · simp at hgen
      · simp at hgen
      · dsimp only at hgen
        split_ifs at hgen <;> try (exact absurd hgen (by simp))
        all_goals
          split at hgen
          · simp at hgen
          · exact rangePartLoop_builtFor _ _ _ _ _ _ _ _ _ _ _ _ _ hgen
    · unfold generateListPartition at hgen
      split at hgen
      · simp at hgen
      · simp at hgen
      · split at hgen
        · simp at hgen
        · split at hgen
          · simp at hgen
          · simp only [Option.some.injEq, Except.ok.injEq, Prod.mk.injEq] at hgen
            obtain ⟨h1, -⟩ := hgen
            subst h1
            intro stmt hs
            simp only [List.mem_singleton] at hs
            subst hs
            exact makePartitionCreateStmt_builtFor _ _ _ _ _ _ _
    · simp at hgen

/-- What a successful body of the loop of generatePartitions returns for one
element: the element with inherited options and access method, and statements
built for that element and its sub-partition specification. -/
theorem generatePartitionsElem_builtFor {E D : Type} (env : BoundEnv E D)
    (cenv : CatalogEnv E D) (fuel : Nat) (parentrel : Relation D)
    (subPartSpec : Option PartitionSpec) (isSubTemplate : Bool) (parentoptions : List DefElem)
    (parentaccessmethod : Option String) (elem : GpPartDefElem E) (partcomp : partname_comp)
    (new_parts : List (CreateStmt D)) (partcomp2 : partname_comp) (elem1 : GpPartDefElem E)
    (h : generatePartitionsElem env cenv fuel parentrel subPartSpec isSubTemplate parentoptions
      parentaccessmethod elem partcomp = some (Except.ok (new_parts, partcomp2, elem1))) :
    ∃ tablename options1,
      extract_tablename_from_options elem.options = Except.ok (tablename, options1) ∧
      elem1 = elemWithInherited elem options1 parentoptions parentaccessmethod ∧
      ∀ stmt ∈ new_parts,
        BuiltFor elem1 (elemSubPartSpec subPartSpec isSubTemplate elem) stmt := by
  unfold generatePartitionsElem at h
  split at h
  · simp at h
  · cases hext : extract_tablename_from_options elem.options with
    | error e => simp [hext] at h
    | ok r =>
      obtain ⟨tablename, options1⟩ := r
      simp only [hext] at h
      split at h
      · simp at h
      · simp at h
      · rename_i parts pc2 hgen
        simp only [Option.some.injEq, Except.ok.injEq, Prod.mk.injEq] at h
        obtain ⟨h1, -, h3⟩ := h
        subst h1 h3
        exact ⟨tablename, options1, rfl, rfl,
          generateForStrategy_builtFor _ _ _ _ _ _ _ _ _ hgen⟩

/-- Every statement returned by the loop of generatePartitions was built for
one of the elements of the list. -/
theorem generatePartitionsLoop_builtFor {E D : Type} (env : BoundEnv E D)
    (cenv : CatalogEnv E D) (fuel : Nat) (parentrel : Relation D)
    (subPartSpec : Option PartitionSpec) (isSubTemplate : Bool) (parentoptions : List DefElem)
    (parentaccessmethod : Option String) (nodes : List (PartDefNode E)) :
    ∀ (partcomp : partname_comp) (result : List (CreateStmt D)) (partcomp2 : partname_comp)
      (nodes1 : List (PartDefNode E)),
      generatePartitionsLoop env cenv fuel parentrel subPartSpec isSubTemplate parentoptions
        parentaccessmethod nodes partcomp = some (Except.ok (result, partcomp2, nodes1)) →
      ∀ stmt ∈ result, ∃ elem tablename options1,
        PartDefNode.elem elem ∈ nodes ∧
        extract_tablename_from_options elem.options = Except.ok (tablename, options1) ∧
        BuiltFor (elemWithInherited elem options1 parentoptions parentaccessmethod)
          (elemSubPartSpec subPartSpec isSubTemplate elem) stmt := by
  induction nodes with
  | nil =>
    intro pc result pc2 nodes1 h
    simp only [generatePartitionsLoop, Option.some.injEq, Except.ok.injEq, Prod.mk.injEq] at h
    obtain ⟨h1, -⟩ := h
    subst h1
    intro stmt hs
    simp at hs
  | cons node rest ih =>
    intro pc result pc2 nodes1 h
    cases node with
    | elem elem =>
      unfold generatePartitionsLoop at h
      split at h
      · simp at h
      · simp at h
      · rename_i new_parts pc1 elem1 hel
        split at h
        · simp at h
        · simp at h
        · rename_i res pc3 rest1 hrec
          simp only [Option.some.injEq, Except.ok.injEq, Prod.mk.injEq] at h
          obtain ⟨h1, -⟩ := h
          subst h1
          intro stmt hs
          rcases List.mem_append.mp hs with h2 | h2
          · obtain ⟨t, o1, hext, he1, hall⟩ :=
              generatePartitionsElem_builtFor _ _ _ _ _ _ _ _ _ _ _ _ _ hel
            subst he1
            exact ⟨elem, t, o1, List.mem_cons_self _ _, hext, hall stmt h2⟩
          · obtain ⟨el, t, o1, hmem, hext, hb⟩ := ih _ _ _ _ hrec stmt h2
            exact ⟨el, t, o1, List.mem_cons_of_mem _ hmem, hext, hb⟩
    | columnReferenceStorageDirective =>
      simp [generatePartitionsLoop] at h
    | other =>
      unfold generatePartitionsLoop at h
      split at h
      · simp at h
      · simp at h
      · rename_i res pc3 rest1 hrec
        simp only [Option.some.injEq, Except.ok.injEq, Prod.mk.injEq] at h
        obtain ⟨h1, -⟩ := h
        subst h1
        intro stmt hs
        obtain ⟨el, t, o1, hmem, hext, hb⟩ := ih _ _ _ _ hrec stmt hs
        exact ⟨el, t, o1, List.mem_cons_of_mem _ hmem, hext, hb⟩

/-- Every statement returned by generatePartitions was built for one of the
elements of the specification, with the options of the parent as
extract_tablename_from_options leaves them. -/
theorem generatePartitions_builtFor {E D : Type} (env : BoundEnv E D) (cenv : CatalogEnv E D)
    (fuel : Nat) (parentrel : Relation D) (gpPartSpec : GpPartitionDefinition E)
    (subPartSpec : Option PartitionSpec) (parentoptions : List DefElem)
    (parentaccessmethod : Option String) (stmts : List (CreateStmt D))
    (hrun : generatePartitions env cenv fuel parentrel gpPartSpec subPartSpec parentoptions
      parentaccessmethod = some (Except.ok stmts)) :
    ∃ ptablename parentoptions1,
      extract_tablename_from_options parentoptions = Except.ok (ptablename, parentoptions1) ∧
      ∀ stmt ∈ stmts, ∃ elem tablename options1,
        PartDefNode.elem elem ∈ gpPartSpec.partDefElems ∧
        extract_tablename_from_options elem.options = Except.ok (tablename, options1) ∧
        BuiltFor (elemWithInherited elem options1 parentoptions1 parentaccessmethod)
          (elemSubPartSpec subPartSpec (isSubTemplateOf subPartSpec) elem) stmt := by
  unfold generatePartitions at hrun
  cases hext : extract_tablename_from_options parentoptions with
  | error e => simp [hext] at hrun
  | ok r =>
    obtain ⟨pt, po1⟩ := r
    refine ⟨pt, po1, rfl, ?_⟩
    simp only [hext] at hrun
    split at hrun
    · simp at hrun
    · simp at hrun
    · rename_i result pc2 nodes1 hloop
      have hall := generatePartitionsLoop_builtFor _ _ _ _ _ _ _ _ _ _ _ _ _ hloop
      split_ifs at hrun with hstrat
      · cases hd : deduceImplicitRangeBounds result parentrel.partkey with
        | none => simp [hd] at hrun
        | some sorted =>
          simp only [hd, Option.some.injEq, Except.ok.injEq] at hrun
          subst hrun
          unfold deduceImplicitRangeBounds at hd
          cases hq : list_qsort (qsort_stmt_cmp parentrel.partkey) result with
          | none => simp [hq] at hd
          | some l1 =>
            simp only [hq, Option.some.injEq] at hd
            subst hd
            intro stmt hs
            obtain ⟨s, hsl, ho, ha, ht, hp⟩ := deduceLoop_mem_frame l1 none stmt hs
            have hsr : s ∈ result := (list_qsort_perm _ _ _ hq).subset hsl
            obtain ⟨el, t, o1, hmem, hex, hb⟩ := hall s hsr
            refine ⟨el, t, o1, hmem, hex, ?_⟩
            obtain ⟨b1, b2, b3, b4⟩ := hb
            exact ⟨ho.trans b1, ha.trans b2, ht.trans b3, hp.trans b4⟩
      · simp only [Option.some.injEq, Except.ok.injEq] at hrun
        subst hrun
        exact hall

/-- The list that extract_tablename_from_options leaves is the option list with
its first option named tablename erased. -/
theorem extract_tablename_eraseP (options : List DefElem) :
    ∀ (tablename : Option String) (rest : List DefElem),
      extract_tablename_from_options options = Except.ok (tablename, rest) →
      rest = options.eraseP isTablenameOption := by
  induction options with
  | nil =>
    intro tablename rest h
    simp [extract_tablename_from_options] at h
    simp [h.2]
  | cons pDef tail ih =>
    intro tablename rest h
    unfold extract_tablename_from_options at h
    by_cases hname : pDef.defname = "tablename"
    · simp only [hname, if_true] at h
      cases harg : pDef.arg with
      | str sval =>
        simp [harg] at h
        simp [List.eraseP_cons, isTablenameOption, hname, h.2]
      | other => simp [harg] at h
    · simp only [hname, if_false] at h
      cases hrec : extract_tablename_from_options tail with
      | error e => simp [hrec] at h
      | ok r =>
        obtain ⟨t1, rest1⟩ := r
        simp [hrec] at h
        have := ih t1 rest1 hrec
        simp [List.eraseP_cons, isTablenameOption, hname, ← h.2, this]

/-- C21 (counterexample): the element START(1) END(5) WITH (tablename = a,
tablename = b) yields a descriptor whose storage options still hold the second
option named tablename: extract_tablename_from_options stops at the first. -/
theorem generatePartitions_second_tablename_kept :
    ∃ stmt,
      generatePartitions intEnv intCatalogEnv 10 rangeParent
        { partDefElems :=
            [PartDefNode.elem
               { boundSpec := some (BoundSpecNode.rangeSpec { partStart := [1], partEnd := [5] })
                 options := [{ defname := "tablename", arg := DefArg.str "a" },
                             { defname := "tablename", arg := DefArg.str "b" }] }] }
        none [] none = some (Except.ok [stmt]) ∧
      stmt.relname = "a" ∧
      stmt.options = [{ defname := "tablename", arg := DefArg.str "b" }] ∧
      stmt.options.any isTablenameOption = true :=
  ⟨_, rfl, rfl, rfl, rfl⟩

/-- C22 (counterexample): the element START(1) END(5), which names no
tablespace, yields a descriptor that carries no tablespace. -/
theorem generatePartitions_no_tablespace :
    ∃ stmt,
      generatePartitions intEnv intCatalogEnv 10 rangeParent
        { partDefElems :=
            [PartDefNode.elem
               { boundSpec := some (BoundSpecNode.rangeSpec
                   { partStart := [1], partEnd := [5] }) }] }
        none [] none = some (Except.ok [stmt]) ∧
      stmt.tablespacename = none :=
  ⟨_, rfl, rfl⟩

/-! ### The sub-partition specification of the descriptors -/

theorem initPartEveryIterator_error_not_depth {E D : Type} (env : BoundEnv E D)
    (henv : RaisesNoDepthError env) (key : PartitionKeyData D)
    (start endNode : Option E) (endIncl : Bool) (every : Option E) (n : Nat) :
    initPartEveryIterator env key start endNode endIncl every ≠
      Except.error (PartError.noPartitionsAtDepth n) := by
  obtain ⟨h1, h2, h3⟩ := henv
  intro h
  unfold initPartEveryIterator at h
  cases start <;> cases endNode <;> cases every <;> cases endIncl <;>
    simp [bind, Except.bind, pure, Except.pure, throw, throwThe, MonadExceptOf.throw] at h <;>
    (repeat' (split at h)) <;> (try simp_all) <;>
    (try (exact h3 _ _ _ _ (by assumption) (by assumption)))

theorem nextPartBound_error_not_depth {D : Type} (iter : PartEveryIterator D)
    (hst : ∀ st, iter.plusexprstate = some st →
      ∀ x n, st x ≠ Except.error (PartError.noPartitionsAtDepth n)) (n : Nat) :
    nextPartBound iter ≠ Except.error (PartError.noPartitionsAtDepth n) := by
  intro h
  unfold nextPartBound at h
  dsimp only at h
  (repeat' (split at h)) <;> simp_all

theorem nextPartBound_plusexprstate {D : Type} (iter iter1 : PartEveryIterator D) (flag : Bool)
    (h : nextPartBound iter = Except.ok (flag, iter1)) :
    iter1.plusexprstate = iter.plusexprstate := by
  unfold nextPartBound at h
  dsimp only at h
  (repeat' (split at h)) <;> simp_all <;> rw [← h.2]

theorem rangePartLoop_error_not_depth {E D : Type} (cenv : CatalogEnv E D)
    (parentrel : Relation D) (elem : GpPartDefElem E) (subPart : Option PartitionSpec)
    (start endNode every : Option E) (n : Nat) :
    ∀ (fuel : Nat) (boundIter : PartEveryIterator D) (i : Nat) (partnamecomp : partname_comp),
      (∀ st, boundIter.plusexprstate = some st →
        ∀ x n, st x ≠ Except.error (PartError.noPartitionsAtDepth n)) →
      rangePartLoop cenv parentrel elem subPart start endNode every fuel boundIter i
        partnamecomp ≠ some (Except.error (PartError.noPartitionsAtDepth n)) := by
  intro fuel
  induction fuel with
  | zero =>
    intro boundIter i partnamecomp _ h
    simp [rangePartLoop] at h
  | succ fuel ih =>
    intro boundIter i partnamecomp hst h
    unfold rangePartLoop at h
    cases hn : nextPartBound boundIter with
    | error e =>
      simp only [hn] at h
      have he : e = PartError.noPartitionsAtDepth n := by simpa using h
      exact nextPartBound_error_not_depth boundIter hst n (by rw [hn, he])
    | ok r =>
      obtain ⟨flag, iter1⟩ := r
      cases flag with
      | false => simp [hn] at h
      | true =>
        simp only [hn] at h
        have hst1 : ∀ st, iter1.plusexprstate = some st →
            ∀ x n, st x ≠ Except.error (PartError.noPartitionsAtDepth n) := by
          intro st hs
          exact hst st (by rw [← nextPartBound_plusexprstate boundIter iter1 true hn, hs])
        have hne := fun j pc => ih iter1 j pc hst1
        split at h
        · simp at h
        · rename_i e heq
          have he : e = PartError.noPartitionsAtDepth n := by simpa using h
          rw [he] at heq
          exact hne _ _ heq
        · simp at h

theorem generateRangePartitions_error_not_depth {E D : Type} (env : BoundEnv E D)
    (henv : RaisesNoDepthError env) (cenv : CatalogEnv E D) (fuel : Nat)
    (parentrel : Relation D) (elem : GpPartDefElem E) (subPart : Option PartitionSpec)
    (partnamecomp : partname_comp) (n : Nat) :
    generateRangePartitions env cenv fuel parentrel elem subPart partnamecomp ≠
      some (Except.error (PartError.noPartitionsAtDepth n)) := by
  intro h
  unfold generateRangePartitions at h
  split at h
  · simp at h
  · simp at h
  · rename_i boundspec hb
    dsimp only at h
    generalize hev : (if (partnamecomp.tablename.isNone && !boundspec.partEvery.isEmpty) = true
      then boundspec.partEvery.head? else none) = every at h
    split_ifs at h <;> try (exact absurd h (by simp))
    all_goals
      split at h
      · rename_i e hinit
        have he : e = PartError.noPartitionsAtDepth n := by simpa using h
        exact initPartEveryIterator_error_not_depth env henv _ _ _ _ _ n (by rw [hinit, he])
      · rename_i boundIter hinit
        refine rangePartLoop_error_not_depth cenv parentrel elem subPart _ _ every n fuel
          boundIter 0 partnamecomp ?_ h
        intro st hs
        have hok := initPartEveryIterator_ok env _ _ _ _ _ _ hinit
        cases hevery : every with
        | none =>
          have := hok.2.2.2.2.2.2.2.2.1 hevery
          rw [this] at hs
          exact absurd hs (by simp)
        | some ev =>
          obtain ⟨-, -, st1, hst1, hp⟩ := hok.2.2.2.2.2.2.2.2.2 ev hevery
          rw [hp] at hs
          have : st1 = st := by simpa using hs
          subst this
          exact fun x n => henv.2.2 _ _ x n hst1

theorem generateForStrategy_error_not_depth {E D : Type} (env : BoundEnv E D)
    (henv : RaisesNoDepthError env) (cenv : CatalogEnv E D) (fuel : Nat)
    (parentrel : Relation D) (elem : GpPartDefElem E) (tmpSubPartSpec : Option PartitionSpec)
    (partcomp : partname_comp) (n : Nat) :
    generateForStrategy env cenv fuel parentrel elem tmpSubPartSpec partcomp ≠
      some (Except.error (PartError.noPartitionsAtDepth n)) := by
  intro h
  unfold generateForStrategy at h
  split_ifs at h
  · simp at h
  · split at h
    · exact generateRangePartitions_error_not_depth env henv cenv fuel parentrel elem _ _ n h
    · unfold generateListPartition at h
      (repeat' (split at h)) <;> simp at h
      rename_i e heq
      have := (collectListDatums_error _ _ heq).1
      rw [this] at h
      exact absurd h (by simp)
    · simp at h

theorem extract_tablename_error (options : List DefElem) (e : PartError)
    (h : extract_tablename_from_options options = Except.error e) :
    e = PartError.invalidTablename := by
  induction options with
  | nil => simp [extract_tablename_from_options] at h
  | cons pDef tail ih =>
    unfold extract_tablename_from_options at h
    split_ifs at h
    · split at h
      · simp at h
      · simpa using h.symm
    · split at h
      · rename_i e1 heq
        have : e1 = e := by simpa using h
        exact ih (by rw [heq, this])
      · simp at h

/-- C23: with a sub-partition specification `sp` supplied, the body of the loop
of generatePartitions for one element behaves as follows.  When `sp` is not a
template: an element without a sub-partition definition of its own is rejected
with "no partitions specified at depth N", N being one more than the level held
in the naming context, which generatePartitions sets to the number of ancestors
of the parent plus one; for an element with a definition of its own, every descriptor built
for it carries `sp` with that definition.  When `sp` is a template: every
descriptor built for the element carries `sp` itself, which holds the template
definition, and the error "no partitions specified at depth" is raised for no
depth as long as the collaborators of the iterator do not raise it. -/
theorem generatePartitionsElem_sub_partition_spec {E D : Type} (env : BoundEnv E D)
    (cenv : CatalogEnv E D) (fuel : Nat) (parentrel : Relation D) (sp : PartitionSpec)
    (parentoptions : List DefElem) (parentaccessmethod : Option String)
    (elem : GpPartDefElem E) (partcomp : partname_comp) :
    (isSubTemplateOf (some sp) = false → elem.subSpec = none →
      generatePartitionsElem env cenv fuel parentrel (some sp) (isSubTemplateOf (some sp))
        parentoptions parentaccessmethod elem partcomp
        = some (Except.error (PartError.noPartitionsAtDepth (partcomp.level + 1)))) ∧
    (isSubTemplateOf (some sp) = false → ∀ own, elem.subSpec = some own →
      ∀ (new_parts : List (CreateStmt D)) (partcomp2 : partname_comp) (elem1 : GpPartDefElem E),
        generatePartitionsElem env cenv fuel parentrel (some sp) (isSubTemplateOf (some sp))
          parentoptions parentaccessmethod elem partcomp
          = some (Except.ok (new_parts, partcomp2, elem1)) →
        ∀ stmt ∈ new_parts, stmt.partspec = some { sp with gpPartDef := some own }) ∧
    (isSubTemplateOf (some sp) = true →
      (∃ template, sp.gpPartDef = some template ∧ template.istemplate = true) ∧
      (∀ (new_parts : List (CreateStmt D)) (partcomp2 : partname_comp) (elem1 : GpPartDefElem E),
        generatePartitionsElem env cenv fuel parentrel (some sp) (isSubTemplateOf (some sp))
          parentoptions parentaccessmethod elem partcomp
          = some (Except.ok (new_parts, partcomp2, elem1)) →
        ∀ stmt ∈ new_parts, stmt.partspec = some sp) ∧
      (RaisesNoDepthError env → ∀ n,
        generatePartitionsElem env cenv fuel parentrel (some sp) (isSubTemplateOf (some sp))
          parentoptions parentaccessmethod elem partcomp
          ≠ some (Except.error (PartError.noPartitionsAtDepth n)))) := by
  refine ⟨?_, ?_, ?_⟩
  · intro ht hnone
    rw [ht]
    unfold generatePartitionsElem
    simp [elemSubPartSpec, hnone]
  · intro ht own hown new_parts partcomp2 elem1 h stmt hs
    obtain ⟨t, o1, -, -, hall⟩ := generatePartitionsElem_builtFor _ _ _ _ _ _ _ _ _ _ _ _ _ h
    rw [(hall stmt hs).2.2.2, ht]
    simp [elemSubPartSpec, hown]
  · intro ht
    have htpl : ∃ template, sp.gpPartDef = some template ∧ template.istemplate = true := by
      unfold isSubTemplateOf at ht
      cases hg : sp.gpPartDef with
      | none => simp [hg] at ht
      | some template => exact ⟨template, rfl, by simpa [hg] using ht⟩
    refine ⟨htpl, ?_, ?_⟩
    · intro new_parts partcomp2 elem1 h stmt hs
      obtain ⟨t, o1, -, -, hall⟩ := generatePartitionsElem_builtFor _ _ _ _ _ _ _ _ _ _ _ _ _ h
      rw [(hall stmt hs).2.2.2, ht]
      simp [elemSubPartSpec]
    · intro henv n h
      rw [ht] at h
      obtain ⟨template, hg, -⟩ := htpl
      obtain ⟨strategy, gp⟩ := sp
      simp only at hg
      subst hg
      unfold generatePartitionsElem at h
      simp only [elemSubPartSpec, Bool.not_true, Bool.false_eq_true, if_false] at h
      split at h
      · rename_i e hext
        have := extract_tablename_error _ _ hext
        rw [this] at h
        exact absurd h (by simp)
      · split at h
        · simp at h
        · rename_i e hgen
          have he : e = PartError.noPartitionsAtDepth n := by simpa using h
          rw [he] at hgen
          exact generateForStrategy_error_not_depth env henv cenv fuel parentrel _ _ _ n hgen
        · simp at h

theorem intEnv_raisesNoDepthError : RaisesNoDepthError intEnv := by
  refine ⟨?_, ?_, ?_⟩
  · intro s n
    simp [intEnv]
  · intro interval n
    cases interval <;> simp [intEnv]
  · intro interval st x n h
    cases interval <;> simp [intEnv] at h <;> subst h <;> simp

/-- C23 at a range parent of level 1 and the element START(1) END(5).  With a
specification that is not a template, the element without a definition of its
own is rejected at depth 2, also by generatePartitions at a parent without
ancestors, and the element carrying a definition gets that definition on its
descriptor; with a template, the descriptor carries the template and no depth
error is raised. -/
theorem generatePartitionsElem_sub_partition_spec_witness :
    generatePartitionsElem intEnv intCatalogEnv 10 rangeParent
      (some { strategy := "list", gpPartDef := none })
      (isSubTemplateOf
        (some { strategy := "list", gpPartDef := none }))
      [] none
      { boundSpec := some (BoundSpecNode.rangeSpec { partStart := [1], partEnd := [5] }) }
      { level := 1 }
      = some (Except.error (PartError.noPartitionsAtDepth 2)) ∧
    (∃ new_parts partcomp2 elem1,
      generatePartitionsElem intEnv intCatalogEnv 10 rangeParent
        (some { strategy := "list", gpPartDef := none })
        (isSubTemplateOf
          (some { strategy := "list",
                  gpPartDef := none }))
        [] none
        { boundSpec := some (BoundSpecNode.rangeSpec { partStart := [1], partEnd := [5] })
          subSpec := some { istemplate := false, partDefElems := 3 } }
        { level := 1 }
        = some (Except.ok (new_parts, partcomp2, elem1)) ∧
      new_parts.length = 1 ∧
      ∀ stmt ∈ new_parts, stmt.partspec =
        some { strategy := "list",
               gpPartDef := some { istemplate := false, partDefElems := 3 } }) ∧
    (∃ new_parts partcomp2 elem1,
      generatePartitionsElem intEnv intCatalogEnv 10 rangeParent
        (some { strategy := "list", gpPartDef := some { istemplate := true, partDefElems := 2 } })
        (isSubTemplateOf
          (some { strategy := "list",
                  gpPartDef := some { istemplate := true, partDefElems := 2 } }))
        [] none
        { boundSpec := some (BoundSpecNode.rangeSpec { partStart := [1], partEnd := [5] }) }
        { level := 1 }
        = some (Except.ok (new_parts, partcomp2, elem1)) ∧
      new_parts.length = 1 ∧
      ∀ stmt ∈ new_parts, stmt.partspec =
        some { strategy := "list",
               gpPartDef := some { istemplate := true, partDefElems := 2 } }) ∧
    (∀ n,
      generatePartitionsElem intEnv intCatalogEnv 10 rangeParent
        (some { strategy := "list", gpPartDef := some { istemplate := true, partDefElems := 2 } })
        (isSubTemplateOf
          (some { strategy := "list",
                  gpPartDef := some { istemplate := true, partDefElems := 2 } }))
        [] none
        { boundSpec := some (BoundSpecNode.rangeSpec { partStart := [1], partEnd := [5] }) }
        { level := 1 }
        ≠ some (Except.error (PartError.noPartitionsAtDepth n))) ∧
    generatePartitions intEnv intCatalogEnv 10 rangeParent
      { partDefElems :=
          [PartDefNode.elem
             { boundSpec := some (BoundSpecNode.rangeSpec { partStart := [1], partEnd := [5] }) }] }
      (some { strategy := "list", gpPartDef := none }) [] none
      = some (Except.error (PartError.noPartitionsAtDepth 2)) :=
  ⟨(generatePartitionsElem_sub_partition_spec intEnv intCatalogEnv 10 rangeParent
      { strategy := "list", gpPartDef := none }
      [] none
      { boundSpec := some (BoundSpecNode.rangeSpec { partStart := [1], partEnd := [5] }) }
      { level := 1 }).1 rfl rfl,
   ⟨_, _, _, rfl, rfl,
    (generatePartitionsElem_sub_partition_spec intEnv intCatalogEnv 10 rangeParent
      { strategy := "list", gpPartDef := none }
      [] none
      { boundSpec := some (BoundSpecNode.rangeSpec { partStart := [1], partEnd := [5] })
        subSpec := some { istemplate := false, partDefElems := 3 } }
      { level := 1 }).2.1 rfl { istemplate := false, partDefElems := 3 } rfl _ _ _ rfl⟩,
   ⟨_, _, _, rfl, rfl,
    ((generatePartitionsElem_sub_partition_spec intEnv intCatalogEnv 10 rangeParent
      { strategy := "list", gpPartDef := some { istemplate := true, partDefElems := 2 } }
      [] none
      { boundSpec := some (BoundSpecNode.rangeSpec { partStart := [1], partEnd := [5] }) }
      { level := 1 }).2.2 rfl).2.1 _ _ _ rfl⟩,
   ((generatePartitionsElem_sub_partition_spec intEnv intCatalogEnv 10 rangeParent
      { strategy := "list", gpPartDef := some { istemplate := true, partDefElems := 2 } }
      [] none
      { boundSpec := some (BoundSpecNode.rangeSpec { partStart := [1], partEnd := [5] }) }
      { level := 1 }).2.2 rfl).2.2 intEnv_raisesNoDepthError,
   rfl⟩

/-! ### Keys that are not RANGE keys -/

/-- The statements returned by the loop of generatePartitions are the
statements generated for the elements, one list after the other. -/
theorem generatePartitionsLoop_flatten {E D : Type} (env : BoundEnv E D)
    (cenv : CatalogEnv E D) (fuel : Nat) (parentrel : Relation D)
    (subPartSpec : Option PartitionSpec) (isSubTemplate : Bool) (parentoptions : List DefElem)
    (parentaccessmethod : Option String) (nodes : List (PartDefNode E)) :
    ∀ (partcomp : partname_comp) (result : List (CreateStmt D)) (partcomp2 : partname_comp)
      (nodes1 : List (PartDefNode E)),
      generatePartitionsLoop env cenv fuel parentrel subPartSpec isSubTemplate parentoptions
        parentaccessmethod nodes partcomp = some (Except.ok (result, partcomp2, nodes1)) →
      ∃ parts,
        generatedPerElement env cenv fuel parentrel subPartSpec isSubTemplate parentoptions
          parentaccessmethod nodes partcomp = some (Except.ok parts) ∧
        result = parts.flatten := by
  induction nodes with
  | nil =>
    intro pc result pc2 nodes1 h
    simp only [generatePartitionsLoop, Option.some.injEq, Except.ok.injEq, Prod.mk.injEq] at h
    exact ⟨[], by simp [generatedPerElement], by simp [← h.1]⟩
  | cons node rest ih =>
    intro pc result pc2 nodes1 h
    cases node with
    | elem elem =>
      unfold generatePartitionsLoop at h
      split at h
      · simp at h
      · simp at h
      · rename_i new_parts pc1 elem1 hel
        split at h
        · simp at h
        · simp at h
        · rename_i res pc3 rest1 hrec
          simp only [Option.some.injEq, Except.ok.injEq, Prod.mk.injEq] at h
          obtain ⟨h1, -⟩ := h
          subst h1
          obtain ⟨parts, hp, hres⟩ := ih _ _ _ _ hrec
          refine ⟨new_parts :: parts, ?_, by simp [hres]⟩
          unfold generatedPerElement
          simp only [hel, hp]
    | columnReferenceStorageDirective =>
      simp [generatePartitionsLoop] at h
    | other =>
      unfold generatePartitionsLoop at h
      split at h
      · simp at h
      · simp at h
      · rename_i res pc3 rest1 hrec
        simp only [Option.some.injEq, Except.ok.injEq, Prod.mk.injEq] at h
        obtain ⟨h1, -⟩ := h
        subst h1
        obtain ⟨parts, hp, hres⟩ := ih _ _ _ _ hrec
        refine ⟨parts, ?_, hres⟩
        unfold generatedPerElement
        exact hp

/-- C27: when the strategy of the key is not RANGE, and so for every LIST key,
the list returned by generatePartitions is the concatenation, in the order of
the elements of the specification, of the lists of descriptors generated for
the elements, unchanged: no sort and no filling of bounds is applied. -/
theorem generatePartitions_list_concatenates {E D : Type} (env : BoundEnv E D)
    (cenv : CatalogEnv E D) (fuel : Nat) (parentrel : Relation D)
    (gpPartSpec : GpPartitionDefinition E) (subPartSpec : Option PartitionSpec)
    (parentoptions : List DefElem) (parentaccessmethod : Option String)
    (stmts : List (CreateStmt D))
    (hstrategy : parentrel.partkey.strategy ≠ PartitionStrategy.range)
    (hrun : generatePartitions env cenv fuel parentrel gpPartSpec subPartSpec parentoptions
      parentaccessmethod = some (Except.ok stmts)) :
    ∃ ptablename parentoptions1 parts,
      extract_tablename_from_options parentoptions = Except.ok (ptablename, parentoptions1) ∧
      generatedPerElement env cenv fuel parentrel subPartSpec (isSubTemplateOf subPartSpec)
        parentoptions1 parentaccessmethod gpPartSpec.partDefElems
        { tablename := none
          level := (cenv.get_partition_ancestors parentrel.relid).length + 1
          partnum := 0 } = some (Except.ok parts) ∧
      stmts = parts.flatten := by
  unfold generatePartitions at hrun
  cases hext : extract_tablename_from_options parentoptions with
  | error e => simp [hext] at hrun
  | ok r =>
    obtain ⟨pt, po1⟩ := r
    simp only [hext] at hrun
    split at hrun
    · simp at hrun
    · simp at hrun
    · rename_i result pc2 nodes1 hloop
      obtain ⟨parts, hp, hres⟩ := generatePartitionsLoop_flatten _ _ _ _ _ _ _ _ _ _ _ _ _ hloop
      rw [if_neg hstrategy] at hrun
      simp only [Option.some.injEq, Except.ok.injEq] at hrun
      subst hrun
      exact ⟨pt, po1, parts, rfl, hp, hres⟩

/-- C27 at a LIST parent and the elements VALUES (7), VALUES (3), DEFAULT and
VALUES (5): the four descriptors come back in this order, with the values 7, 3,
none and 5. -/
theorem generatePartitions_list_concatenates_witness :
    ∃ stmts,
      generatePartitions intEnv intCatalogEnv 10 listParent
        { partDefElems :=
            [PartDefNode.elem
               { boundSpec := some (BoundSpecNode.listSpec { partValues := [[7]] }) },
             PartDefNode.elem
               { boundSpec := some (BoundSpecNode.listSpec { partValues := [[3]] }) },
             PartDefNode.elem { isDefault := true },
             PartDefNode.elem
               { boundSpec := some (BoundSpecNode.listSpec { partValues := [[5]] }) }] }
        none [] none = some (Except.ok stmts) ∧
      stmts.map (fun stmt => (stmt.partbound.is_default, stmt.partbound.listdatums))
        = [(false, [Node.Const 7]), (false, [Node.Const 3]), (true, []),
           (false, [Node.Const 5])] ∧
      ∃ ptablename parentoptions1 parts,
        extract_tablename_from_options [] = Except.ok (ptablename, parentoptions1) ∧
        generatedPerElement intEnv intCatalogEnv 10 listParent none (isSubTemplateOf none)
          parentoptions1 none
          [PartDefNode.elem
             { boundSpec := some (BoundSpecNode.listSpec { partValues := [[7]] }) },
           PartDefNode.elem
             { boundSpec := some (BoundSpecNode.listSpec { partValues := [[3]] }) },
           PartDefNode.elem { isDefault := true },
           PartDefNode.elem
             { boundSpec := some (BoundSpecNode.listSpec { partValues := [[5]] }) }]
          { tablename := none, level := 1, partnum := 0 } = some (Except.ok parts) ∧
        stmts = parts.flatten :=
  ⟨_, rfl, rfl,
    generatePartitions_list_concatenates intEnv intCatalogEnv 10 listParent
      { partDefElems :=
          [PartDefNode.elem
             { boundSpec := some (BoundSpecNode.listSpec { partValues := [[7]] }) },
           PartDefNode.elem
             { boundSpec := some (BoundSpecNode.listSpec { partValues := [[3]] }) },
           PartDefNode.elem { isDefault := true },
           PartDefNode.elem
             { boundSpec := some (BoundSpecNode.listSpec { partValues := [[5]] }) }] }
      none [] none _ (by decide) rfl⟩

/-! ### A second run on the specification left by the first -/

theorem extract_tablename_of_none (options : List DefElem)
    (h : options.any isTablenameOption = false) :
    extract_tablename_from_options options = Except.ok (none, options) := by
  induction options with
  | nil => simp [extract_tablename_from_options]
  | cons pDef tail ih =>
    simp only [List.any_cons, Bool.or_eq_false_iff] at h
    have hname : pDef.defname ≠ "tablename" := by
      simpa [isTablenameOption] using h.1
    unfold extract_tablename_from_options
    simp [hname, ih h.2]

theorem elemWithInherited_idem {E : Type} (elem : GpPartDefElem E) (options1 : List DefElem)
    (parentoptions : List DefElem) (parentaccessmethod : Option String) :
    elemWithInherited (elemWithInherited elem options1 parentoptions parentaccessmethod)
      (elemWithInherited elem options1 parentoptions parentaccessmethod).options
      parentoptions parentaccessmethod
      = elemWithInherited elem options1 parentoptions parentaccessmethod := by
  unfold elemWithInherited
  cases ha : elem.accessMethod <;> cases parentaccessmethod <;>
    by_cases ho : options1.isEmpty = true <;> by_cases hp : parentoptions.isEmpty = true <;>
    simp [ho, hp]

/-- The body of the loop of generatePartitions, run once more on the element it
left, returns the same when no option named tablename is involved. -/
theorem generatePartitionsElem_again {E D : Type} (env : BoundEnv E D)
    (cenv : CatalogEnv E D) (fuel : Nat) (parentrel : Relation D)
    (subPartSpec : Option PartitionSpec) (isSubTemplate : Bool) (parentoptions : List DefElem)
    (parentaccessmethod : Option String) (elem : GpPartDefElem E) (partcomp : partname_comp)
    (new_parts : List (CreateStmt D)) (partcomp2 : partname_comp) (elem1 : GpPartDefElem E)
    (hpar : parentoptions.any isTablenameOption = false)
    (helem : elem.options.any isTablenameOption = false)
    (h : generatePartitionsElem env cenv fuel parentrel subPartSpec isSubTemplate parentoptions
      parentaccessmethod elem partcomp = some (Except.ok (new_parts, partcomp2, elem1))) :
    generatePartitionsElem env cenv fuel parentrel subPartSpec isSubTemplate parentoptions
      parentaccessmethod elem1 partcomp = some (Except.ok (new_parts, partcomp2, elem1)) := by
  obtain ⟨t, o1, hext, he1, -⟩ := generatePartitionsElem_builtFor _ _ _ _ _ _ _ _ _ _ _ _ _ h
  rw [extract_tablename_of_none _ helem] at hext
  simp only [Except.ok.injEq, Prod.mk.injEq] at hext
  obtain ⟨ht, ho⟩ := hext
  subst ht ho
  have hopt1 : elem1.options.any isTablenameOption = false := by
    rw [he1]
    unfold elemWithInherited
    dsimp only
    split_ifs
    · exact hpar
    · exact helem
  have hsub : elemSubPartSpec subPartSpec isSubTemplate elem1
      = elemSubPartSpec subPartSpec isSubTemplate elem := by
    rw [he1]
    rfl
  have hagain : elemWithInherited elem1 elem1.options parentoptions parentaccessmethod
      = elem1 := by
    rw [he1]
    exact elemWithInherited_idem _ _ _ _
  unfold generatePartitionsElem at h ⊢
  rw [hsub, extract_tablename_of_none _ hopt1]
  rw [extract_tablename_of_none _ helem] at h
  dsimp only at h ⊢
  rw [hagain]
  rw [← he1] at h
  exact h

theorem generatePartitionsLoop_again {E D : Type} (env : BoundEnv E D)
    (cenv : CatalogEnv E D) (fuel : Nat) (parentrel : Relation D)
    (subPartSpec : Option PartitionSpec) (isSubTemplate : Bool) (parentoptions : List DefElem)
    (parentaccessmethod : Option String)
    (hpar : parentoptions.any isTablenameOption = false) (nodes : List (PartDefNode E)) :
    ∀ (partcomp : partname_comp) (result : List (CreateStmt D)) (partcomp2 : partname_comp)
      (nodes1 : List (PartDefNode E)),
      (∀ elem, PartDefNode.elem elem ∈ nodes → elem.options.any isTablenameOption = false) →
      generatePartitionsLoop env cenv fuel parentrel subPartSpec isSubTemplate parentoptions
        parentaccessmethod nodes partcomp = some (Except.ok (result, partcomp2, nodes1)) →
      generatePartitionsLoop env cenv fuel parentrel subPartSpec isSubTemplate parentoptions
        parentaccessmethod nodes1 partcomp = some (Except.ok (result, partcomp2, nodes1)) := by
  induction nodes with
  | nil =>
    intro pc result pc2 nodes1 _ h
    simp only [generatePartitionsLoop, Option.some.injEq, Except.ok.injEq, Prod.mk.injEq] at h
    obtain ⟨h1, h2, h3⟩ := h
    subst h1 h2 h3
    simp [generatePartitionsLoop]
  | cons node rest ih =>
    intro pc result pc2 nodes1 hno h
    have hrest : ∀ elem, PartDefNode.elem elem ∈ rest →
        elem.options.any isTablenameOption = false :=
      fun elem hm => hno elem (List.mem_cons_of_mem _ hm)
    cases node with
    | elem elem =>
      unfold generatePartitionsLoop at h
      split at h
      · simp at h
      · simp at h
      · rename_i new_parts pc1 elem1 hel
        split at h
        · simp at h
        · simp at h
        · rename_i res pc3 rest1 hrec
          simp only [Option.some.injEq, Except.ok.injEq, Prod.mk.injEq] at h
          obtain ⟨h1, h2, h3⟩ := h
          subst h1 h2 h3
          have hel2 := generatePartitionsElem_again env cenv fuel parentrel subPartSpec
            isSubTemplate parentoptions parentaccessmethod elem pc new_parts pc1 elem1 hpar
            (hno elem (List.mem_cons_self _ _)) hel
          have hrec2 := ih _ _ _ _ hrest hrec
          unfold generatePartitionsLoop
          simp only [hel2, hrec2]
    | columnReferenceStorageDirective =>
      simp [generatePartitionsLoop] at h
    | other =>
      unfold generatePartitionsLoop at h
      split at h
      · simp at h
      · simp at h
      · rename_i res pc3 rest1 hrec
        simp only [Option.some.injEq, Except.ok.injEq, Prod.mk.injEq] at h
        obtain ⟨h1, h2, h3⟩ := h
        subst h1 h2 h3
        have hrec2 := ih _ _ _ _ hrest hrec
        unfold generatePartitionsLoop
        simp only [hrec2]

/-- C25 (counterexample): the element START(1) END(10) EVERY(3)
WITH (tablename = legacy).  The first run uses the table name, ignores EVERY and
returns one descriptor named legacy; it removes the option from the element, so
that the second run, on the specification the first one left, honours EVERY and
returns three descriptors with generated names. -/
theorem generatePartitions_second_run_differs :
    ∃ stmts spec1 stmts2,
      generatePartitions intEnv intCatalogEnv 10 rangeParent
        { partDefElems :=
            [PartDefNode.elem
               { boundSpec := some (BoundSpecNode.rangeSpec
                   { partStart := [1], partEnd := [10], partEvery := [3] })
                 options := [{ defname := "tablename", arg := DefArg.str "legacy" }] }] }
        none [] none = some (Except.ok stmts) ∧
      specAfterGeneratePartitions intEnv intCatalogEnv 10 rangeParent
        { partDefElems :=
            [PartDefNode.elem
               { boundSpec := some (BoundSpecNode.rangeSpec
                   { partStart := [1], partEnd := [10], partEvery := [3] })
                 options := [{ defname := "tablename", arg := DefArg.str "legacy" }] }] }
        none [] none = some spec1 ∧
      generatePartitions intEnv intCatalogEnv 10 rangeParent spec1 none [] none
        = some (Except.ok stmts2) ∧
      stmts.map (fun stmt => stmt.relname) = ["legacy"] ∧
      stmts2.map (fun stmt => stmt.relname) = ["t_1_prt_1", "t_1_prt_2", "t_1_prt_3"] ∧
      stmts.length = 1 ∧ stmts2.length = 3 :=
  ⟨_, _, _, rfl, rfl, rfl, rfl, rfl, rfl, rfl⟩

/-- C25 (amended): when no element of the specification carries an option named
tablename, and the options handed in for the parent hold at most one, a
successful run of generatePartitions leaves a specification on which a second
run, with the same parent, options, access method and collaborators, succeeds
with the same list of descriptors. -/
theorem generatePartitions_second_run_same {E D : Type} (env : BoundEnv E D)
    (cenv : CatalogEnv E D) (fuel : Nat) (parentrel : Relation D)
    (gpPartSpec : GpPartitionDefinition E) (subPartSpec : Option PartitionSpec)
    (parentoptions : List DefElem) (parentaccessmethod : Option String)
    (stmts : List (CreateStmt D))
    (hpar : (parentoptions.eraseP isTablenameOption).any isTablenameOption = false)
    (helems : ∀ elem, PartDefNode.elem elem ∈ gpPartSpec.partDefElems →
      elem.options.any isTablenameOption = false)
    (hrun : generatePartitions env cenv fuel parentrel gpPartSpec subPartSpec parentoptions
      parentaccessmethod = some (Except.ok stmts)) :
    ∃ spec1,
      specAfterGeneratePartitions env cenv fuel parentrel gpPartSpec subPartSpec parentoptions
        parentaccessmethod = some spec1 ∧
      generatePartitions env cenv fuel parentrel spec1 subPartSpec parentoptions
        parentaccessmethod = some (Except.ok stmts) := by
  unfold generatePartitions at hrun
  cases hext : extract_tablename_from_options parentoptions with
  | error e => simp [hext] at hrun
  | ok r =>
    obtain ⟨pt, po1⟩ := r
    have hpo := extract_tablename_eraseP _ _ _ hext
    rw [← hpo] at hpar
    simp only [hext] at hrun
    split at hrun
    · simp at hrun
    · simp at hrun
    · rename_i result pc2 nodes1 hloop
      have hloop2 := generatePartitionsLoop_again env cenv fuel parentrel subPartSpec _ po1
        parentaccessmethod hpar gpPartSpec.partDefElems _ _ _ _ helems hloop
      refine ⟨{ gpPartSpec with partDefElems := nodes1 }, ?_, ?_⟩
      · unfold specAfterGeneratePartitions
        simp only [hext]
        have hl : generatePartitionsLoop env cenv fuel parentrel subPartSpec
            (isSubTemplateOf subPartSpec) po1 parentaccessmethod gpPartSpec.partDefElems
            { tablename := none
              level := (cenv.get_partition_ancestors parentrel.relid).length + 1
              partnum := 0 } = some (Except.ok (result, pc2, nodes1)) := hloop
        simp only [hl]
      · unfold generatePartitions
        simp only [hext, hloop2]
        exact hrun

/-- C25 (amended) at the element START(1) END(10) EVERY(3) and the parent options
(tablename = old, fillfactor = 70): both runs return the same three
descriptors. -/
theorem generatePartitions_second_run_same_witness :
    ∃ stmts,
      generatePartitions intEnv intCatalogEnv 10 rangeParent
        { partDefElems :=
            [PartDefNode.elem
               { boundSpec := some (BoundSpecNode.rangeSpec
                   { partStart := [1], partEnd := [10], partEvery := [3] }) }] }
        none [{ defname := "tablename", arg := DefArg.str "old" },
              { defname := "fillfactor", arg := DefArg.str "70" }] none
        = some (Except.ok stmts) ∧
      stmts.map (fun stmt => stmt.relname) = ["t_1_prt_1", "t_1_prt_2", "t_1_prt_3"] ∧
      ∃ spec1,
        specAfterGeneratePartitions intEnv intCatalogEnv 10 rangeParent
          { partDefElems :=
              [PartDefNode.elem
                 { boundSpec := some (BoundSpecNode.rangeSpec
                     { partStart := [1], partEnd := [10], partEvery := [3] }) }] }
          none [{ defname := "tablename", arg := DefArg.str "old" },
                { defname := "fillfactor", arg := DefArg.str "70" }] none = some spec1 ∧
        generatePartitions intEnv intCatalogEnv 10 rangeParent spec1 none
          [{ defname := "tablename", arg := DefArg.str "old" },
           { defname := "fillfactor", arg := DefArg.str "70" }] none
          = some (Except.ok stmts) :=
  ⟨_, rfl, rfl,
    generatePartitions_second_run_same intEnv intCatalogEnv 10 rangeParent
      { partDefElems :=
          [PartDefNode.elem
             { boundSpec := some (BoundSpecNode.rangeSpec
                 { partStart := [1], partEnd := [10], partEvery := [3] }) }] }
      none [{ defname := "tablename", arg := DefArg.str "old" },
            { defname := "fillfactor", arg := DefArg.str "70" }] none _ rfl
      (fun elem hmem => by
        simp only [List.mem_singleton, PartDefNode.elem.injEq] at hmem
        subst hmem
        rfl)
      rfl⟩

/-! ### What the fill pass leaves alone -/

theorem deduceLoop_cons_only_bounds {D : Type} (prevstmt : Option (CreateStmt D))
    (stmt : CreateStmt D) (rest : List (CreateStmt D)) :
    ∃ stmt2 : CreateStmt D,
      deduceLoop prevstmt (stmt :: rest) = stmt2 :: deduceLoop (some stmt2) rest ∧
      stmt2 = { stmt with
        partbound := { stmt.partbound with
          lowerdatums := stmt2.partbound.lowerdatums
          upperdatums := stmt2.partbound.upperdatums } } ∧
      (stmt.partbound.lowerdatums ≠ [] →
        stmt2.partbound.lowerdatums = stmt.partbound.lowerdatums) ∧
      (stmt.partbound.upperdatums ≠ [] →
        stmt2.partbound.upperdatums = stmt.partbound.upperdatums) := by
  refine ⟨_, rfl, ?_, ?_, ?_⟩ <;>
    cases prevstmt <;> cases rest <;>
    cases hl : stmt.partbound.lowerdatums.isEmpty <;>
    cases hu : stmt.partbound.upperdatums.isEmpty <;>
    simp_all

/-- The fill pass, entered with any value of prevstmt, keeps every position of
the list and changes nothing but absent bounds. -/
theorem deduceLoop_only_bounds_from {D : Type} (stmts : List (CreateStmt D)) :
    ∀ (prevstmt : Option (CreateStmt D)) (i : Nat) (s : CreateStmt D),
      stmts[i]? = some s →
      ∃ out, (deduceLoop prevstmt stmts)[i]? = some out ∧
        out = { s with
          partbound := { s.partbound with
            lowerdatums := out.partbound.lowerdatums
            upperdatums := out.partbound.upperdatums } } ∧
        (s.partbound.lowerdatums ≠ [] → out.partbound.lowerdatums = s.partbound.lowerdatums) ∧
        (s.partbound.upperdatums ≠ [] →
          out.partbound.upperdatums = s.partbound.upperdatums) := by
  induction stmts with
  | nil => intro p i s h; simp at h
  | cons s0 rest ih =>
    intro p i s h
    obtain ⟨s2, hcons, hframe, hl, hu⟩ := deduceLoop_cons_only_bounds p s0 rest
    rw [hcons]
    cases i with
    | zero =>
      simp only [List.getElem?_cons_zero, Option.some.injEq] at h
      subst h
      exact ⟨s2, by simp, hframe, hl, hu⟩
    | succ j =>
      simp only [List.getElem?_cons_succ] at h ⊢
      exact ih (some s2) j s h

/-- C31: when deduceImplicitRangeBounds returns a list, that list is the fill
pass applied to the sorted list; it has the length of the sorted list and holds
at every position the descriptor of the sorted list at that position, changed
in nothing but its lower and upper bound: name, default flag, strategy and all
other fields are the same, and a lower or upper bound that was present before
the pass is the same after it. -/
theorem deduceImplicitRangeBounds_changes_only_absent {D : Type}
    (origstmts : List (CreateStmt D)) (key : PartitionKeyData D) (out : List (CreateStmt D))
    (hrun : deduceImplicitRangeBounds origstmts key = some out) :
    ∃ sorted, list_qsort (qsort_stmt_cmp key) origstmts = some sorted ∧
      out = deduceLoop none sorted ∧
      out.length = sorted.length ∧
      ∀ (i : Nat) (s : CreateStmt D), sorted[i]? = some s →
        ∃ o, out[i]? = some o ∧
          o.relname = s.relname ∧
          o.partbound.is_default = s.partbound.is_default ∧
          o.partbound.strategy = s.partbound.strategy ∧
          o = { s with
            partbound := { s.partbound with
              lowerdatums := o.partbound.lowerdatums
              upperdatums := o.partbound.upperdatums } } ∧
          (s.partbound.lowerdatums ≠ [] →
            o.partbound.lowerdatums = s.partbound.lowerdatums) ∧
          (s.partbound.upperdatums ≠ [] →
            o.partbound.upperdatums = s.partbound.upperdatums) := by
  unfold deduceImplicitRangeBounds at hrun
  cases hq : list_qsort (qsort_stmt_cmp key) origstmts with
  | none => simp [hq] at hrun
  | some sorted =>
    simp only [hq, Option.some.injEq] at hrun
    subst hrun
    refine ⟨sorted, rfl, rfl, deduceLoop_length sorted none, ?_⟩
    intro i s hs
    obtain ⟨o, ho, hframe, hl, hu⟩ := deduceLoop_only_bounds_from sorted none i s hs
    refine ⟨o, ho, ?_, ?_, ?_, hframe, hl, hu⟩
    · rw [hframe]
    · rw [hframe]
    · rw [hframe]

/-- C31 at the batch [END(20), START(1), START(5) END(10)] over an int4 key: the
sorted list is [START(1), START(5) END(10), END(20)], and the pass fills the
upper bound of the first and the lower bound of the last descriptor only. -/
theorem deduceImplicitRangeBounds_changes_only_absent_witness :
    ∃ out,
      deduceImplicitRangeBounds [rangeStmt [] [20], rangeStmt [1] [], rangeStmt [5] [10]]
        int4Key = some out ∧
      out = [rangeStmt [1] [5], rangeStmt [5] [10], rangeStmt [10] [20]] ∧
      ∃ sorted,
        list_qsort (qsort_stmt_cmp int4Key)
          [rangeStmt [] [20], rangeStmt [1] [], rangeStmt [5] [10]] = some sorted ∧
        out = deduceLoop none sorted ∧
        out.length = sorted.length ∧
        ∀ (i : Nat) (s : CreateStmt Int), sorted[i]? = some s →
          ∃ o, out[i]? = some o ∧
            o.relname = s.relname ∧
            o.partbound.is_default = s.partbound.is_default ∧
            o.partbound.strategy = s.partbound.strategy ∧
            o = { s with
              partbound := { s.partbound with
                lowerdatums := o.partbound.lowerdatums
                upperdatums := o.partbound.upperdatums } } ∧
            (s.partbound.lowerdatums ≠ [] →
              o.partbound.lowerdatums = s.partbound.lowerdatums) ∧
            (s.partbound.upperdatums ≠ [] →
              o.partbound.upperdatums = s.partbound.upperdatums) :=
  ⟨_, rfl, rfl,
    deduceImplicitRangeBounds_changes_only_absent
      [rangeStmt [] [20], rangeStmt [1] [], rangeStmt [5] [10]] int4Key _ rfl⟩

/-! ### A range element with a table name -/

theorem snprintf_prt_snprintf (size : Nat) (s : String) :
    snprintf size ("prt_" ++ snprintf size s) = snprintf size ("prt_" ++ s) := by
  unfold snprintf
  congr 1
  show List.take (size - 1) ("prt_".data ++ List.take (size - 1) s.data)
    = List.take (size - 1) ("prt_".data ++ s.data)
  rw [List.take_append_eq_append_take, List.take_append_eq_append_take, List.take_take]
  congr 2
  omega

/-- A partition name that went through snprintf with NAMEDATALEN gives the same
statement as the name itself: ChoosePartitionName cuts "prt_" and the name to
NAMEDATALEN - 1 characters in any case. -/
theorem makePartitionCreateStmt_snprintf_name {E D : Type} (cenv : CatalogEnv E D)
    (parentrel : Relation D) (name : String) (boundspec : PartitionBoundSpec D)
    (subPart : Option PartitionSpec) (elem : GpPartDefElem E) (partnamecomp : partname_comp) :
    makePartitionCreateStmt cenv parentrel (some (snprintf cenv.NAMEDATALEN name)) boundspec
      subPart elem partnamecomp
    = makePartitionCreateStmt cenv parentrel (some name) boundspec subPart elem partnamecomp := by
  unfold makePartitionCreateStmt ChoosePartitionName
  simp only [snprintf_prt_snprintf]

theorem everyPartName_shift {E D : Type} (cenv : CatalogEnv E D) (elem : GpPartDefElem E)
    (every : Option E) (i k : Nat) :
    (everyPartName cenv elem every ((everyPartName cenv elem every i).2 + k)).1
      = (everyPartName cenv elem every (i + (k + 1))).1 := by
  cases every <;> cases hn : elem.partName <;> simp [everyPartName, hn]
  congr 3
  omega

/-- The statements built by the loop of generateRangePartitions, without a
table name in the naming context: the statement at position `k` is built by
makePartitionCreateStmt with the name chosen for the running number `i + k` and
the counter of the naming context advanced by `k`. -/
theorem rangePartLoop_built_with {E D : Type} (cenv : CatalogEnv E D) (parentrel : Relation D)
    (elem : GpPartDefElem E) (subPart : Option PartitionSpec) (start endNode every : Option E) :
    ∀ (fuel : Nat) (iter : PartEveryIterator D) (i : Nat) (partnamecomp : partname_comp)
      (result : List (CreateStmt D)) (partnamecomp2 : partname_comp),
      partnamecomp.tablename = none →
      rangePartLoop cenv parentrel elem subPart start endNode every fuel iter i partnamecomp
        = some (Except.ok (result, partnamecomp2)) →
      ∀ (k : Nat) (stmt : CreateStmt D), result[k]? = some stmt →
        ∃ boundspec : PartitionBoundSpec D,
          stmt = (makePartitionCreateStmt cenv parentrel
            (everyPartName cenv elem every (i + k)).1 boundspec subPart elem
            { partnamecomp with partnum := partnamecomp.partnum + k }).1 := by
  intro fuel
  induction fuel with
  | zero => intro iter i pc result pc2 _ h; simp [rangePartLoop] at h
  | succ fuel ih =>
    intro iter i pc result pc2 hpc h
    unfold rangePartLoop at h
    cases hn : nextPartBound iter with
    | error e => simp [hn] at h
    | ok r =>
      obtain ⟨flag, iter1⟩ := r
      cases flag with
      | false =>
        simp [hn] at h
        obtain ⟨h1, -⟩ := h
        subst h1
        intro k stmt hk
        simp at hk
      | true =>
        simp only [hn] at h
        split at h
        · simp at h
        · simp at h
        · rename_i res pc3 hrec
          simp only [Option.some.injEq, Except.ok.injEq, Prod.mk.injEq] at h
          obtain ⟨h1, -⟩ := h
          subst h1
          intro k stmt hk
          cases k with
          | zero =>
            simp only [List.getElem?_cons_zero, Option.some.injEq] at hk
            exact ⟨_, hk.symm⟩
          | succ j =>
            simp only [List.getElem?_cons_succ] at hk
            obtain ⟨ml, mt, mp⟩ := makePartitionCreateStmt_partname_comp cenv parentrel
              (everyPartName cenv elem every i).1
              { strategy := PartitionStrategy.range
                is_default := false
                lowerdatums := if start.isSome then [Node.Const iter1.currStart] else []
                upperdatums := if endNode.isSome then [Node.Const iter1.currEnd] else [] }
              subPart elem pc
            obtain ⟨b, hb⟩ := ih _ _ _ _ _ (by rw [mt, hpc]) hrec j stmt hk
            refine ⟨b, ?_⟩
            rw [hb, everyPartName_shift]
            congr 2
            rw [mp, hpc]
            simp only [Option.isSome_none, Bool.false_eq_true, if_false]
            generalize makePartitionCreateStmt cenv parentrel _ _ subPart elem pc = made at ml mt
            obtain ⟨ms, mpc⟩ := made
            cases mpc
            cases pc
            simp only at ml mt hpc ⊢
            subst ml mt
            simp only [partname_comp.mk.injEq, true_and]
            exact ⟨hpc, by omega⟩

/-- A successful call of generateRangePartitions without a table name in the
naming context is the loop over an iterator set up with the EVERY clause of the
element. -/
theorem generateRangePartitions_is_loop {E D : Type} (env : BoundEnv E D)
    (cenv : CatalogEnv E D) (fuel : Nat) (parentrel : Relation D) (elem : GpPartDefElem E)
    (subPart : Option PartitionSpec) (partnamecomp : partname_comp)
    (boundspec : GpPartitionRangeSpec E) (result : List (CreateStmt D))
    (partnamecomp2 : partname_comp)
    (hspec : elem.boundSpec = some (BoundSpecNode.rangeSpec boundspec))
    (hpc : partnamecomp.tablename = none)
    (hrun : generateRangePartitions env cenv fuel parentrel elem subPart partnamecomp
      = some (Except.ok (result, partnamecomp2))) :
    ∃ boundIter,
      initPartEveryIterator env parentrel.partkey boundspec.partStart.head?
        boundspec.partEnd.head?
        (!boundspec.partEnd.isEmpty && boundspec.partEndEdge == PartEdge.inclusive)
        boundspec.partEvery.head? = Except.ok boundIter ∧
      rangePartLoop cenv parentrel elem subPart boundspec.partStart.head?
        boundspec.partEnd.head? boundspec.partEvery.head? fuel boundIter 0 partnamecomp
        = some (Except.ok (result, partnamecomp2)) := by
  unfold generateRangePartitions at hrun
  simp only [hspec, hpc] at hrun
  have hev : (if (Option.isNone (none : Option String) && !boundspec.partEvery.isEmpty) = true
      then boundspec.partEvery.head? else none) = boundspec.partEvery.head? := by
    cases boundspec.partEvery <;> simp
  rw [hev] at hrun
  split_ifs at hrun <;> try (exact absurd hrun (by simp))
  all_goals
    split at hrun
    · simp at hrun
    · rename_i boundIter hinit
      exact ⟨boundIter, hinit, hrun⟩

/-- C33 (counterexample): the element PARTITION <63 letters> START(1) END(10)
EVERY(3) with NAMEDATALEN = 64.  The name chosen for the first and for the
second round of the loop is the name of the element itself, without "_1" or
"_2": snprintf cuts the text to 63 characters.  The three descriptors get one
and the same relation name. -/
theorem generateRangePartitions_every_name_cut :
    (everyPartName intCatalogEnv
        ({ partName := some "aaaaaaaaaaaaaaaaaaaaaaaaaaaaaaaaaaaaaaaaaaaaaaaaaaaaaaaaaaaaaaa" } : GpPartDefElem Int) (some 3) 0).1
      = some "aaaaaaaaaaaaaaaaaaaaaaaaaaaaaaaaaaaaaaaaaaaaaaaaaaaaaaaaaaaaaaa" ∧
    (everyPartName intCatalogEnv
        ({ partName := some "aaaaaaaaaaaaaaaaaaaaaaaaaaaaaaaaaaaaaaaaaaaaaaaaaaaaaaaaaaaaaaa" } : GpPartDefElem Int) (some 3) 1).1
      = some "aaaaaaaaaaaaaaaaaaaaaaaaaaaaaaaaaaaaaaaaaaaaaaaaaaaaaaaaaaaaaaa" ∧
    "aaaaaaaaaaaaaaaaaaaaaaaaaaaaaaaaaaaaaaaaaaaaaaaaaaaaaaaaaaaaaaa" ≠ "aaaaaaaaaaaaaaaaaaaaaaaaaaaaaaaaaaaaaaaaaaaaaaaaaaaaaaaaaaaaaaa" ++ "_" ++ Nat.repr 1 ∧
    ∃ result partnamecomp2,
      generateRangePartitions intEnv intCatalogEnv 10 rangeParent
        { partName := some "aaaaaaaaaaaaaaaaaaaaaaaaaaaaaaaaaaaaaaaaaaaaaaaaaaaaaaaaaaaaaaa"
          boundSpec := some (BoundSpecNode.rangeSpec
            { partStart := [1], partEnd := [10], partEvery := [3] }) }
        none { level := 1 } = some (Except.ok (result, partnamecomp2)) ∧
      result.map (fun stmt => (stmt.relname, stmt.partbound.lowerdatums))
        = [("t_1_prt_aaaaaaaaaaaaaaaaaaaaaaaaaaaaaaaaaaaaaaaaaaaaaaaaaaaaaaaaaaa", [Node.Const 1]), ("t_1_prt_aaaaaaaaaaaaaaaaaaaaaaaaaaaaaaaaaaaaaaaaaaaaaaaaaaaaaaaaaaa", [Node.Const 4]),
           ("t_1_prt_aaaaaaaaaaaaaaaaaaaaaaaaaaaaaaaaaaaaaaaaaaaaaaaaaaaaaaaaaaa", [Node.Const 7])] :=
  ⟨by decide, by decide, by decide, _, _, rfl, by decide⟩

/-- C33 (amended): a successful call of generateRangePartitions for a range
element, without a table name in the naming context.  For a named element with
EVERY, the descriptor at position k (k = 0, 1, ...) is built by
makePartitionCreateStmt with the partition name that the loop chooses in its
round k: the name of the element, an underscore and the decimal value of k + 1,
cut to NAMEDATALEN - 1 characters by snprintf, and whole when that text is
shorter than NAMEDATALEN; its relation name is makeObjectName applied to "prt_"
followed by that name, cut again.  Without EVERY there is a single descriptor,
built with the name of the element as it is (no name for an unnamed element);
for an unnamed element every descriptor is built with no partition name, and
its relation name comes from the counter of the naming context. -/
theorem generateRangePartitions_every_names {E D : Type} (env : BoundEnv E D)
    (cenv : CatalogEnv E D) (fuel : Nat) (parentrel : Relation D) (elem : GpPartDefElem E)
    (subPart : Option PartitionSpec) (partnamecomp : partname_comp)
    (boundspec : GpPartitionRangeSpec E) (result : List (CreateStmt D))
    (partnamecomp2 : partname_comp)
    (hspec : elem.boundSpec = some (BoundSpecNode.rangeSpec boundspec))
    (hpc : partnamecomp.tablename = none)
    (hrun : generateRangePartitions env cenv fuel parentrel elem subPart partnamecomp
      = some (Except.ok (result, partnamecomp2))) :
    (∀ ev name, boundspec.partEvery.head? = some ev → elem.partName = some name →
      ∀ (k : Nat) (stmt : CreateStmt D), result[k]? = some stmt →
        ∃ (partname : String) (bound : PartitionBoundSpec D),
          (everyPartName cenv elem boundspec.partEvery.head? k).1 = some partname ∧
          partname = snprintf cenv.NAMEDATALEN (name ++ "_" ++ Nat.repr (k + 1)) ∧
          partname.length ≤ cenv.NAMEDATALEN - 1 ∧
          ((name ++ "_" ++ Nat.repr (k + 1)).length < cenv.NAMEDATALEN →
            partname = name ++ "_" ++ Nat.repr (k + 1)) ∧
          stmt = (makePartitionCreateStmt cenv parentrel (some partname) bound subPart elem
            { partnamecomp with partnum := partnamecomp.partnum + k }).1 ∧
          stmt.relname = cenv.makeObjectName parentrel.relname
            (snprintf cenv.NAMEDATALEN (Nat.repr partnamecomp.level))
            (snprintf cenv.NAMEDATALEN ("prt_" ++ partname))) ∧
    (boundspec.partEvery.head? = none →
      ∃ bound : PartitionBoundSpec D,
        result = [(makePartitionCreateStmt cenv parentrel elem.partName bound subPart elem
          partnamecomp).1]) ∧
    (elem.partName = none →
      ∀ (k : Nat) (stmt : CreateStmt D), result[k]? = some stmt →
        (∃ bound : PartitionBoundSpec D,
          stmt = (makePartitionCreateStmt cenv parentrel none bound subPart elem
            { partnamecomp with partnum := partnamecomp.partnum + k }).1) ∧
        stmt.relname = cenv.ChooseRelationName parentrel.relname
          (snprintf cenv.NAMEDATALEN (Nat.repr partnamecomp.level))
          (snprintf cenv.NAMEDATALEN ("prt_" ++ Nat.repr (partnamecomp.partnum + k + 1)))
          parentrel.relnamespace false) := by
  obtain ⟨boundIter, hinit, hloop⟩ := generateRangePartitions_is_loop env cenv fuel parentrel
    elem subPart partnamecomp boundspec result partnamecomp2 hspec hpc hrun
  have hbuilt := rangePartLoop_built_with cenv parentrel elem subPart _ _ _ fuel boundIter 0
    partnamecomp result partnamecomp2 hpc hloop
  refine ⟨?_, ?_, ?_⟩
  · intro ev name hev hname k stmt hk
    obtain ⟨b, hb⟩ := hbuilt k stmt hk
    have hchosen : (everyPartName cenv elem boundspec.partEvery.head? k).1
        = some (snprintf cenv.NAMEDATALEN (name ++ "_" ++ Nat.repr (k + 1))) := by
      simp [everyPartName, hev, hname]
    rw [Nat.zero_add, hchosen] at hb
    refine ⟨_, b, hchosen, rfl, snprintf_length_le _ _, snprintf_of_length_lt _ _, hb, ?_⟩
    rw [hb]
    simp [makePartitionCreateStmt, ChoosePartitionName, hpc]
  · intro hev
    have hok := initPartEveryIterator_ok env _ _ _ _ _ _ hinit
    have hlen := rangePartLoop_single _ _ _ _ _ _ _ _ _ _ _ _ _
      (hok.2.2.2.2.2.2.2.2.1 hev) hok.2.1 hloop
    cases result with
    | nil => simp at hlen
    | cons stmt rest =>
      cases rest with
      | cons s2 r2 => simp at hlen
      | nil =>
        obtain ⟨b, hb⟩ := hbuilt 0 stmt (by simp)
        refine ⟨b, ?_⟩
        rw [hb]
        simp [everyPartName, hev]
  · intro hname k stmt hk
    obtain ⟨b, hb⟩ := hbuilt k stmt hk
    have hnone : (everyPartName cenv elem boundspec.partEvery.head? (0 + k)).1 = none := by
      cases boundspec.partEvery.head? <;> simp [everyPartName, hname]
    rw [hnone] at hb
    refine ⟨⟨b, hb⟩, ?_⟩
    rw [hb]
    simp [makePartitionCreateStmt, ChoosePartitionName, hpc]

/-- C33 (amended) at the element PARTITION jan START(1) END(7) EVERY(3) of an
int4 key: two descriptors, built with the partition names jan_1 and jan_2. -/
theorem generateRangePartitions_every_names_witness :
    ∃ result partnamecomp2,
      generateRangePartitions intEnv intCatalogEnv 10 rangeParent
        { partName := some "jan"
          boundSpec := some (BoundSpecNode.rangeSpec
            { partStart := [1], partEnd := [7], partEvery := [3] }) }
        none { level := 1 } = some (Except.ok (result, partnamecomp2)) ∧
      result.map (fun stmt => stmt.relname) = ["t_1_prt_jan_1", "t_1_prt_jan_2"] ∧
      ∀ (k : Nat) (stmt : CreateStmt Int), result[k]? = some stmt →
        ∃ (partname : String) (bound : PartitionBoundSpec Int),
          (everyPartName intCatalogEnv
            ({ partName := some "jan"
               boundSpec := some (BoundSpecNode.rangeSpec
                 { partStart := [1], partEnd := [7], partEvery := [3] }) } : GpPartDefElem Int)
            ([3] : List Int).head? k).1 = some partname ∧
          partname = snprintf intCatalogEnv.NAMEDATALEN ("jan" ++ "_" ++ Nat.repr (k + 1)) ∧
          partname.length ≤ intCatalogEnv.NAMEDATALEN - 1 ∧
          (("jan" ++ "_" ++ Nat.repr (k + 1)).length < intCatalogEnv.NAMEDATALEN →
            partname = "jan" ++ "_" ++ Nat.repr (k + 1)) ∧
          stmt = (makePartitionCreateStmt intCatalogEnv rangeParent (some partname) bound none
            ({ partName := some "jan"
               boundSpec := some (BoundSpecNode.rangeSpec
                 { partStart := [1], partEnd := [7], partEvery := [3] }) } : GpPartDefElem Int)
            { tablename := none, level := 1, partnum := 0 + k }).1 ∧
          stmt.relname = intCatalogEnv.makeObjectName rangeParent.relname
            (snprintf intCatalogEnv.NAMEDATALEN (Nat.repr 1))
            (snprintf intCatalogEnv.NAMEDATALEN ("prt_" ++ partname)) :=
  ⟨_, _, rfl, rfl,
    (generateRangePartitions_every_names intEnv intCatalogEnv 10 rangeParent
      { partName := some "jan"
        boundSpec := some (BoundSpecNode.rangeSpec
          { partStart := [1], partEnd := [7], partEvery := [3] }) }
      none { level := 1 }
      { partStart := [1], partEnd := [7], partEvery := [3] } _ _ rfl rfl rfl).1 3 "jan" rfl rfl⟩

/-! ### The option named tablename -/

/-- C34: extract_tablename_from_options on a list whose first option named
tablename stands after the options `pre` and before the options `post` returns
the value of a String argument together with `pre ++ post`, and fails with
"invalid tablename specification" when the argument is not a String; on a list
with no option named tablename it returns no name and the list itself. -/
theorem extract_tablename_from_options_first (options : List DefElem) :
    (∀ (pre : List DefElem) (pDef : DefElem) (post : List DefElem),
      options = pre ++ pDef :: post →
      (∀ o ∈ pre, o.defname ≠ "tablename") → pDef.defname = "tablename" →
      (∀ sval, pDef.arg = DefArg.str sval →
        extract_tablename_from_options options = Except.ok (some sval, pre ++ post)) ∧
      ((∀ sval, pDef.arg ≠ DefArg.str sval) →
        extract_tablename_from_options options = Except.error PartError.invalidTablename)) ∧
    ((∀ o ∈ options, o.defname ≠ "tablename") →
      extract_tablename_from_options options = Except.ok (none, options)) := by
  constructor
  · intro pre
    induction pre generalizing options with
    | nil =>
      intro pDef post hopt _ hname
      subst hopt
      constructor
      · intro sval harg
        simp [extract_tablename_from_options, hname, harg]
      · intro harg
        cases h : pDef.arg with
        | str sval => exact absurd h (harg sval)
        | other => simp [extract_tablename_from_options, hname, h]
    | cons o pre ih =>
      intro pDef post hopt hpre hname
      subst hopt
      have ho : o.defname ≠ "tablename" := hpre o (List.mem_cons_self _ _)
      have hrest := ih (pre ++ pDef :: post) pDef post rfl
        (fun x hx => hpre x (List.mem_cons_of_mem _ hx)) hname
      constructor
      · intro sval harg
        have h1 := hrest.1 sval harg
        simp only [List.cons_append]
        unfold extract_tablename_from_options
        simp [ho, h1]
      · intro harg
        have h1 := hrest.2 harg
        simp only [List.cons_append]
        unfold extract_tablename_from_options
        simp [ho, h1]
  · intro hnone
    apply extract_tablename_of_none
    rw [List.any_eq_false]
    intro o ho
    simpa [isTablenameOption] using hnone o ho

/-- C34 at the options (fillfactor = 70, tablename = legacy, appendonly = true,
tablename = other): the name is legacy and only the second entry is removed. -/
theorem extract_tablename_from_options_first_witness :
    extract_tablename_from_options
      [{ defname := "fillfactor", arg := DefArg.str "70" },
       { defname := "tablename", arg := DefArg.str "legacy" },
       { defname := "appendonly", arg := DefArg.str "true" },
       { defname := "tablename", arg := DefArg.str "other" }]
      = Except.ok (some "legacy",
          [{ defname := "fillfactor", arg := DefArg.str "70" }] ++
          [{ defname := "appendonly", arg := DefArg.str "true" },
           { defname := "tablename", arg := DefArg.str "other" }]) ∧
    extract_tablename_from_options
      [{ defname := "fillfactor", arg := DefArg.str "70" },
       { defname := "tablename", arg := DefArg.other }]
      = Except.error PartError.invalidTablename ∧
    extract_tablename_from_options [{ defname := "fillfactor", arg := DefArg.str "70" }]
      = Except.ok (none, [{ defname := "fillfactor", arg := DefArg.str "70" }]) :=
  ⟨((extract_tablename_from_options_first _).1
      [{ defname := "fillfactor", arg := DefArg.str "70" }]
      { defname := "tablename", arg := DefArg.str "legacy" }
      [{ defname := "appendonly", arg := DefArg.str "true" },
       { defname := "tablename", arg := DefArg.str "other" }]
      rfl (by decide) rfl).1 "legacy" rfl,
   ((extract_tablename_from_options_first _).1
      [{ defname := "fillfactor", arg := DefArg.str "70" }]
      { defname := "tablename", arg := DefArg.other } [] rfl (by decide) rfl).2
      (fun _ h => DefArg.noConfusion h),
   (extract_tablename_from_options_first
      [{ defname := "fillfactor", arg := DefArg.str "70" }]).2 (by decide)⟩

/-! ### The descriptors of each element -/

/-- The lists generated per element stand in the order of the elements of the
specification, and the statements of each list were built for its element. -/
theorem generatedPerElement_builtFor {E D : Type} (env : BoundEnv E D)
    (cenv : CatalogEnv E D) (fuel : Nat) (parentrel : Relation D)
    (subPartSpec : Option PartitionSpec) (isSubTemplate : Bool) (parentoptions : List DefElem)
    (parentaccessmethod : Option String) (nodes : List (PartDefNode E)) :
    ∀ (partcomp : partname_comp) (parts : List (List (CreateStmt D))),
      generatedPerElement env cenv fuel parentrel subPartSpec isSubTemplate parentoptions
        parentaccessmethod nodes partcomp = some (Except.ok parts) →
      List.Forall₂
        (fun elem part => ∃ tablename options1,
          extract_tablename_from_options elem.options = Except.ok (tablename, options1) ∧
          ∀ stmt ∈ part,
            BuiltFor (elemWithInherited elem options1 parentoptions parentaccessmethod)
              (elemSubPartSpec subPartSpec isSubTemplate elem) stmt)
        (specElems nodes) parts := by
  induction nodes with
  | nil =>
    intro pc parts h
    simp only [generatedPerElement, Option.some.injEq, Except.ok.injEq] at h
    subst h
    exact List.Forall₂.nil
  | cons node rest ih =>
    intro pc parts h
    cases node with
    | elem elem =>
      unfold generatedPerElement at h
      split at h
      · simp at h
      · simp at h
      · rename_i new_parts pc1 elem1 hel
        split at h
        · simp at h
        · simp at h
        · rename_i ps hrec
          simp only [Option.some.injEq, Except.ok.injEq] at h
          subst h
          obtain ⟨t, o1, hext, he1, hall⟩ :=
            generatePartitionsElem_builtFor _ _ _ _ _ _ _ _ _ _ _ _ _ hel
          subst he1
          exact List.Forall₂.cons ⟨t, o1, hext, hall⟩ (ih _ _ hrec)
    | columnReferenceStorageDirective =>
      simp [generatedPerElement] at h
    | other =>
      unfold generatedPerElement at h
      exact ih _ _ h

/-- The list returned by generatePartitions against the lists generated per
element: it is a reordering of their concatenation (the concatenation itself
when the key is not a RANGE key) in which at most the lower and upper bounds
were filled in. -/
theorem generatePartitions_provenance {E D : Type} (env : BoundEnv E D)
    (cenv : CatalogEnv E D) (fuel : Nat) (parentrel : Relation D)
    (gpPartSpec : GpPartitionDefinition E) (subPartSpec : Option PartitionSpec)
    (parentoptions : List DefElem) (parentaccessmethod : Option String)
    (stmts : List (CreateStmt D))
    (hrun : generatePartitions env cenv fuel parentrel gpPartSpec subPartSpec parentoptions
      parentaccessmethod = some (Except.ok stmts)) :
    ∃ parts sorted,
      generatedPerElement env cenv fuel parentrel subPartSpec (isSubTemplateOf subPartSpec)
        (parentoptions.eraseP isTablenameOption) parentaccessmethod gpPartSpec.partDefElems
        { tablename := none
          level := (cenv.get_partition_ancestors parentrel.relid).length + 1
          partnum := 0 } = some (Except.ok parts) ∧
      sorted.Perm parts.flatten ∧
      (parentrel.partkey.strategy ≠ PartitionStrategy.range → sorted = parts.flatten) ∧
      stmts.length = sorted.length ∧
      ∀ (i : Nat) (s : CreateStmt D), sorted[i]? = some s →
        ∃ o, stmts[i]? = some o ∧
          o = { s with
            partbound := { s.partbound with
              lowerdatums := o.partbound.lowerdatums
              upperdatums := o.partbound.upperdatums } } := by
  unfold generatePartitions at hrun
  cases hext : extract_tablename_from_options parentoptions with
  | error e => simp [hext] at hrun
  | ok r =>
    obtain ⟨pt, po1⟩ := r
    have hpo := extract_tablename_eraseP _ _ _ hext
    subst hpo
    simp only [hext] at hrun
    split at hrun
    · simp at hrun
    · simp at hrun
    · rename_i result pc2 nodes1 hloop
      obtain ⟨parts, hp, hres⟩ := generatePartitionsLoop_flatten _ _ _ _ _ _ _ _ _ _ _ _ _ hloop
      subst hres
      refine ⟨parts, ?_⟩
      split_ifs at hrun with hstrat
      · cases hd : deduceImplicitRangeBounds parts.flatten parentrel.partkey with
        | none => simp [hd] at hrun
        | some out =>
          simp only [hd, Option.some.injEq, Except.ok.injEq] at hrun
          subst hrun
          unfold deduceImplicitRangeBounds at hd
          cases hq : list_qsort (qsort_stmt_cmp parentrel.partkey) parts.flatten with
          | none => simp [hq] at hd
          | some sorted =>
            simp only [hq, Option.some.injEq] at hd
            subst hd
            refine ⟨sorted, hp, list_qsort_perm _ _ _ hq, fun hne => absurd hstrat hne,
              deduceLoop_length sorted none, ?_⟩
            intro i s hs
            obtain ⟨o, ho, hframe, -, -⟩ := deduceLoop_only_bounds_from sorted none i s hs
            exact ⟨o, ho, hframe⟩
      · simp only [Option.some.injEq, Except.ok.injEq] at hrun
        subst hrun
        refine ⟨parts.flatten, hp, List.Perm.refl _, fun _ => rfl, rfl, ?_⟩
        intro i s hs
        exact ⟨s, hs, rfl⟩

/-- C21 (amended): after a successful run of generatePartitions, take the lists
of descriptors generated per element, which stand in the order of the elements
of the specification.  Every descriptor of the list of an element carries as
storage options the options of that element with the first option named
tablename erased, when that list is not empty, and otherwise the options handed
in for the parent with the first option named tablename erased; its access
method is the one of that element when the element names one, and otherwise the
access method handed in for the parent.  The list returned holds exactly these
descriptors: it is a reordering of the concatenation of the lists (the
concatenation itself when the key is not a RANGE key), and the descriptor at
each position has the relation name, the options and the access method it was
generated with. -/
theorem generatePartitions_inherits_options {E D : Type} (env : BoundEnv E D)
    (cenv : CatalogEnv E D) (fuel : Nat) (parentrel : Relation D)
    (gpPartSpec : GpPartitionDefinition E) (subPartSpec : Option PartitionSpec)
    (parentoptions : List DefElem) (parentaccessmethod : Option String)
    (stmts : List (CreateStmt D))
    (hrun : generatePartitions env cenv fuel parentrel gpPartSpec subPartSpec parentoptions
      parentaccessmethod = some (Except.ok stmts)) :
    ∃ parts sorted,
      generatedPerElement env cenv fuel parentrel subPartSpec (isSubTemplateOf subPartSpec)
        (parentoptions.eraseP isTablenameOption) parentaccessmethod gpPartSpec.partDefElems
        { tablename := none
          level := (cenv.get_partition_ancestors parentrel.relid).length + 1
          partnum := 0 } = some (Except.ok parts) ∧
      List.Forall₂
        (fun elem part => ∀ stmt ∈ part,
          stmt.options =
            (if (elem.options.eraseP isTablenameOption).isEmpty
              then parentoptions.eraseP isTablenameOption
              else elem.options.eraseP isTablenameOption) ∧
          stmt.accessMethod =
            (match elem.accessMethod with
              | some am => some am
              | none => parentaccessmethod))
        (specElems gpPartSpec.partDefElems) parts ∧
      sorted.Perm parts.flatten ∧
      (parentrel.partkey.strategy ≠ PartitionStrategy.range → sorted = parts.flatten) ∧
      stmts.length = sorted.length ∧
      ∀ (i : Nat) (s : CreateStmt D), sorted[i]? = some s →
        ∃ o, stmts[i]? = some o ∧ o.relname = s.relname ∧ o.options = s.options ∧
          o.accessMethod = s.accessMethod := by
  obtain ⟨parts, sorted, hparts, hperm, hlist, hlen, hpos⟩ :=
    generatePartitions_provenance env cenv fuel parentrel gpPartSpec subPartSpec parentoptions
      parentaccessmethod stmts hrun
  refine ⟨parts, sorted, hparts, ?_, hperm, hlist, hlen, ?_⟩
  · refine List.Forall₂.imp ?_ (generatedPerElement_builtFor _ _ _ _ _ _ _ _ _ _ _ hparts)
    intro elem part hb stmt hs
    obtain ⟨t, o1, hext, hall⟩ := hb
    obtain ⟨ho, ha, -, -⟩ := hall stmt hs
    rw [ho, ha, ← extract_tablename_eraseP _ _ _ hext]
    exact ⟨rfl, rfl⟩
  · intro i s hs
    obtain ⟨o, ho, hframe⟩ := hpos i s hs
    refine ⟨o, ho, ?_, ?_, ?_⟩ <;> rw [hframe]

/-- C21 (amended) at a range parent with options (fillfactor = 70) and access
method heap.  The element START(5) END(9), first in the specification, has no
options and gets fillfactor and heap; the element START(1) END(5)
WITH (tablename = legacy, appendonly = true) USING ao_row keeps its own option
appendonly and its own access method; the sort puts its descriptor first. -/
theorem generatePartitions_inherits_options_witness :
    ∃ stmts,
      generatePartitions intEnv intCatalogEnv 10 rangeParent
        { partDefElems :=
            [PartDefNode.elem
               { boundSpec := some (BoundSpecNode.rangeSpec { partStart := [5], partEnd := [9] }) },
             PartDefNode.elem
               { boundSpec := some (BoundSpecNode.rangeSpec { partStart := [1], partEnd := [5] })
                 options := [{ defname := "tablename", arg := DefArg.str "legacy" },
                             { defname := "appendonly", arg := DefArg.str "true" }]
                 accessMethod := some "ao_row" }] }
        none [{ defname := "fillfactor", arg := DefArg.str "70" }] (some "heap")
        = some (Except.ok stmts) ∧
      stmts.map (fun stmt => (stmt.relname, stmt.options, stmt.accessMethod))
        = [("legacy", [{ defname := "appendonly", arg := DefArg.str "true" }], some "ao_row"),
           ("t_1_prt_1", [{ defname := "fillfactor", arg := DefArg.str "70" }], some "heap")] ∧
      ∃ parts sorted,
        generatedPerElement intEnv intCatalogEnv 10 rangeParent none (isSubTemplateOf none)
          ([({ defname := "fillfactor", arg := DefArg.str "70" } : DefElem)].eraseP
            isTablenameOption)
          (some "heap")
          [PartDefNode.elem
             { boundSpec := some (BoundSpecNode.rangeSpec { partStart := [5], partEnd := [9] }) },
           PartDefNode.elem
             { boundSpec := some (BoundSpecNode.rangeSpec { partStart := [1], partEnd := [5] })
               options := [{ defname := "tablename", arg := DefArg.str "legacy" },
                           { defname := "appendonly", arg := DefArg.str "true" }]
               accessMethod := some "ao_row" }]
          { tablename := none
            level := (intCatalogEnv.get_partition_ancestors rangeParent.relid).length + 1
            partnum := 0 } = some (Except.ok parts) ∧
        List.Forall₂
          (fun (elem : GpPartDefElem Int) (part : List (CreateStmt Int)) => ∀ stmt ∈ part,
            stmt.options =
              (if (elem.options.eraseP isTablenameOption).isEmpty
                then [({ defname := "fillfactor", arg := DefArg.str "70" } : DefElem)].eraseP
                  isTablenameOption
                else elem.options.eraseP isTablenameOption) ∧
            stmt.accessMethod =
              (match elem.accessMethod with
                | some am => some am
                | none => some "heap"))
          (specElems
            [PartDefNode.elem
               { boundSpec := some (BoundSpecNode.rangeSpec { partStart := [5], partEnd := [9] }) },
             PartDefNode.elem
               { boundSpec := some (BoundSpecNode.rangeSpec { partStart := [1], partEnd := [5] })
                 options := [{ defname := "tablename", arg := DefArg.str "legacy" },
                             { defname := "appendonly", arg := DefArg.str "true" }]
                 accessMethod := some "ao_row" }])
          parts ∧
        sorted.Perm parts.flatten ∧
        (rangeParent.partkey.strategy ≠ PartitionStrategy.range → sorted = parts.flatten) ∧
        stmts.length = sorted.length ∧
        ∀ (i : Nat) (s : CreateStmt Int), sorted[i]? = some s →
          ∃ o, stmts[i]? = some o ∧ o.relname = s.relname ∧ o.options = s.options ∧
            o.accessMethod = s.accessMethod :=
  ⟨_, rfl, rfl,
    generatePartitions_inherits_options intEnv intCatalogEnv 10 rangeParent
      { partDefElems :=
          [PartDefNode.elem
             { boundSpec := some (BoundSpecNode.rangeSpec { partStart := [5], partEnd := [9] }) },
           PartDefNode.elem
             { boundSpec := some (BoundSpecNode.rangeSpec { partStart := [1], partEnd := [5] })
               options := [{ defname := "tablename", arg := DefArg.str "legacy" },
                           { defname := "appendonly", arg := DefArg.str "true" }]
               accessMethod := some "ao_row" }] }
      none [{ defname := "fillfactor", arg := DefArg.str "70" }] (some "heap") _ rfl⟩

/-- C22 (amended): after a successful run of generatePartitions, every
descriptor of the list generated for an element carries the tablespace name of
that element, and none when that element names none; the list returned holds
exactly these descriptors, reordered by the sort for a RANGE key, each with the
relation name and the tablespace name it was generated with.  When no element
names a tablespace, no descriptor carries one. -/
theorem generatePartitions_tablespace_of_element {E D : Type} (env : BoundEnv E D)
    (cenv : CatalogEnv E D) (fuel : Nat) (parentrel : Relation D)
    (gpPartSpec : GpPartitionDefinition E) (subPartSpec : Option PartitionSpec)
    (parentoptions : List DefElem) (parentaccessmethod : Option String)
    (stmts : List (CreateStmt D))
    (hrun : generatePartitions env cenv fuel parentrel gpPartSpec subPartSpec parentoptions
      parentaccessmethod = some (Except.ok stmts)) :
    (∃ parts sorted,
      generatedPerElement env cenv fuel parentrel subPartSpec (isSubTemplateOf subPartSpec)
        (parentoptions.eraseP isTablenameOption) parentaccessmethod gpPartSpec.partDefElems
        { tablename := none
          level := (cenv.get_partition_ancestors parentrel.relid).length + 1
          partnum := 0 } = some (Except.ok parts) ∧
      List.Forall₂
        (fun elem part => ∀ stmt ∈ part, stmt.tablespacename = elem.tablespacename)
        (specElems gpPartSpec.partDefElems) parts ∧
      sorted.Perm parts.flatten ∧
      (parentrel.partkey.strategy ≠ PartitionStrategy.range → sorted = parts.flatten) ∧
      stmts.length = sorted.length ∧
      ∀ (i : Nat) (s : CreateStmt D), sorted[i]? = some s →
        ∃ o, stmts[i]? = some o ∧ o.relname = s.relname ∧
          o.tablespacename = s.tablespacename) ∧
    ((∀ elem, PartDefNode.elem elem ∈ gpPartSpec.partDefElems → elem.tablespacename = none) →
      ∀ stmt ∈ stmts, stmt.tablespacename = none) := by
  constructor
  · obtain ⟨parts, sorted, hparts, hperm, hlist, hlen, hpos⟩ :=
      generatePartitions_provenance env cenv fuel parentrel gpPartSpec subPartSpec parentoptions
        parentaccessmethod stmts hrun
    refine ⟨parts, sorted, hparts, ?_, hperm, hlist, hlen, ?_⟩
    · refine List.Forall₂.imp ?_ (generatedPerElement_builtFor _ _ _ _ _ _ _ _ _ _ _ hparts)
      intro elem part hb stmt hs
      obtain ⟨t, o1, -, hall⟩ := hb
      obtain ⟨-, -, ht, -⟩ := hall stmt hs
      rw [ht]
      rfl
    · intro i s hs
      obtain ⟨o, ho, hframe⟩ := hpos i s hs
      refine ⟨o, ho, ?_, ?_⟩ <;> rw [hframe]
  · obtain ⟨pt, po1, -, hall⟩ := generatePartitions_builtFor env cenv fuel parentrel gpPartSpec
      subPartSpec parentoptions parentaccessmethod stmts hrun
    intro hnone stmt hs
    obtain ⟨elem, t, o1, hmem, -, -, -, ht, -⟩ := hall stmt hs
    rw [ht]
    exact hnone elem hmem

/-- C22 (amended) at the elements START(5) END(9), without a tablespace, and
START(1) END(5) TABLESPACE ts1, in this order: the descriptor of the second
element carries ts1 and comes first after the sort, the descriptor of the first
element carries none. -/
theorem generatePartitions_tablespace_of_element_witness :
    ∃ stmts,
      generatePartitions intEnv intCatalogEnv 10 rangeParent
        { partDefElems :=
            [PartDefNode.elem
               { boundSpec := some (BoundSpecNode.rangeSpec { partStart := [5], partEnd := [9] }) },
             PartDefNode.elem
               { boundSpec := some (BoundSpecNode.rangeSpec { partStart := [1], partEnd := [5] })
                 tablespacename := some "ts1" }] }
        none [] none = some (Except.ok stmts) ∧
      stmts.map (fun stmt => (stmt.relname, stmt.tablespacename))
        = [("t_1_prt_2", some "ts1"), ("t_1_prt_1", none)] ∧
      ∃ parts sorted,
        generatedPerElement intEnv intCatalogEnv 10 rangeParent none (isSubTemplateOf none)
          (([] : List DefElem).eraseP isTablenameOption) none
          [PartDefNode.elem
             { boundSpec := some (BoundSpecNode.rangeSpec { partStart := [5], partEnd := [9] }) },
           PartDefNode.elem
             { boundSpec := some (BoundSpecNode.rangeSpec { partStart := [1], partEnd := [5] })
               tablespacename := some "ts1" }]
          { tablename := none
            level := (intCatalogEnv.get_partition_ancestors rangeParent.relid).length + 1
            partnum := 0 } = some (Except.ok parts) ∧
        List.Forall₂
          (fun (elem : GpPartDefElem Int) (part : List (CreateStmt Int)) => ∀ stmt ∈ part,
            stmt.tablespacename = elem.tablespacename)
          (specElems
            [PartDefNode.elem
               { boundSpec := some (BoundSpecNode.rangeSpec { partStart := [5], partEnd := [9] }) },
             PartDefNode.elem
               { boundSpec := some (BoundSpecNode.rangeSpec { partStart := [1], partEnd := [5] })
                 tablespacename := some "ts1" }])
          parts ∧
        sorted.Perm parts.flatten ∧
        (rangeParent.partkey.strategy ≠ PartitionStrategy.range → sorted = parts.flatten) ∧
        stmts.length = sorted.length ∧
        ∀ (i : Nat) (s : CreateStmt Int), sorted[i]? = some s →
          ∃ o, stmts[i]? = some o ∧ o.relname = s.relname ∧
            o.tablespacename = s.tablespacename :=
  ⟨_, rfl, rfl,
    (generatePartitions_tablespace_of_element intEnv intCatalogEnv 10 rangeParent
      { partDefElems :=
          [PartDefNode.elem
             { boundSpec := some (BoundSpecNode.rangeSpec { partStart := [5], partEnd := [9] }) },
           PartDefNode.elem
             { boundSpec := some (BoundSpecNode.rangeSpec { partStart := [1], partEnd := [5] })
               tablespacename := some "ts1" }] }
      none [] none _ rfl).1⟩

end PartitionGp

namespace XsltProc

/-! ## The array of parse_params -/

theorem findSep_lt (sep : Char) (l : List Char) :
    ∀ offset, findSep sep l = some offset → offset < l.length := by
  induction l with
  | nil => intro offset h; simp [findSep] at h
  | cons c cs ih =>
    intro offset h
    unfold findSep at h
    split_ifs at h
    · simp only [Option.some.injEq] at h
      subst h
      simp
    · cases hr : findSep sep cs with
      | none => simp [hr] at h
      | some o =>
        simp [hr] at h
        have := ih o hr
        simp
        omega

theorem strstr_bounds (buf : List Char) (pos : Nat) (sep : Char) (found : Nat)
    (h : strstr buf pos sep = some found) : pos ≤ found ∧ found < buf.length := by
  unfold strstr at h
  cases hf : findSep sep (buf.drop pos) with
  | none => simp [hf] at h
  | some offset =>
    simp [hf] at h
    have := findSep_lt sep _ offset hf
    simp at this
    omega

theorem store_of_lt (params : List Cell) (index : Nat) (cell : Cell)
    (h : index < params.length) : store params index cell = Except.ok (params.set index cell) := by
  simp [store, h]

theorem repalloc_length (params : List Cell) (size : Nat) :
    (repalloc params size).length = size := by
  simp [repalloc]
  omega

theorem repalloc_getElem_of_lt (params : List Cell) (size i : Nat) (h1 : i < params.length)
    (h2 : i < size) : (repalloc params size)[i]? = params[i]? := by
  unfold repalloc
  rw [List.getElem?_take_of_lt h2, List.getElem?_append_left h1]

theorem pos_lt_of_getD (buf : List Char) (pos : Nat) (h : ¬ buf.getD pos '\x00' = '\x00') :
    pos < buf.length := by
  by_contra hge
  apply h
  simp [List.getD, List.getElem?_eq_none (Nat.le_of_not_lt hge)]

/-- After the growth check there is room for a name and a value: nparams + 1
is below max_params. -/
theorem growIfFull_room (len pos : Nat) (arr : ParamsArray) (hinv : ArrayInv len arr)
    (hn : arr.nparams ≤ pos) (hpos : pos < len) :
    (growIfFull arr).nparams = arr.nparams ∧
    (growIfFull arr).nparams + 1 < (growIfFull arr).max_params ∧
    (growIfFull arr).max_params % 2 = 0 ∧
    (growIfFull arr).params.length = (growIfFull arr).max_params + 1 ∧
    (∀ i, i < arr.nparams → ∃ offset, (growIfFull arr).params[i]? = some (Cell.ptr offset)) ∧
    (growIfFull arr).max_params ≤ max 20 (2 * len) := by
  obtain ⟨he, hme, hpos0, hle, hlen, hfill, hmax⟩ := hinv
  unfold growIfFull
  split_ifs with hfull
  · refine ⟨rfl, ?_, ?_, ?_, ?_, ?_⟩
    · show arr.nparams + 1 < arr.max_params * 2
      omega
    · show arr.max_params * 2 % 2 = 0
      omega
    · show (repalloc arr.params (arr.max_params * 2 + 1)).length = arr.max_params * 2 + 1
      exact repalloc_length _ _
    · intro i hi
      obtain ⟨offset, ho⟩ := hfill i hi
      refine ⟨offset, ?_⟩
      show (repalloc arr.params (arr.max_params * 2 + 1))[i]? = _
      rw [repalloc_getElem_of_lt _ _ _ (by omega) (by omega), ho]
    · show arr.max_params * 2 ≤ max 20 (2 * len)
      have : arr.max_params * 2 ≤ 2 * len := by omega
      exact le_trans this (le_max_right _ _)
  · refine ⟨rfl, ?_, hme, hlen, hfill, hmax⟩
    omega

/-- The loop of parse_params from a state that satisfies the invariant: it ends
within the iterations given, no store falls outside the array, and the state it
leaves satisfies the invariant. -/
theorem parseLoop_inv (len : Nat) :
    ∀ (fuel : Nat) (buf : List Char) (pos : Nat) (arr : ParamsArray),
      buf.length = len → pos ≤ len → len - pos < fuel → arr.nparams ≤ pos →
      ArrayInv len arr →
      ∃ buf1 arr1, parseLoop fuel buf pos arr = Except.ok (buf1, arr1) ∧
        buf1.length = len ∧ ArrayInv len arr1 := by
  intro fuel
  induction fuel with
  | zero => intro buf pos arr _ _ hf; omega
  | succ fuel ih =>
    intro buf pos arr hbuf hpos hfuel hn hinv
    unfold parseLoop
    by_cases hz : buf.getD pos '\x00' = '\x00'
    · rw [if_pos hz]
      exact ⟨buf, arr, rfl, hbuf, hinv⟩
    rw [if_neg hz]
    have hlt : pos < len := hbuf ▸ pos_lt_of_getD buf pos hz
    obtain ⟨g1, g2, g3, g4, g5, g6⟩ := growIfFull_room len pos arr hinv hn hlt
    generalize growIfFull arr = arr1 at g1 g2 g3 g4 g5 g6
    obtain ⟨he, -, -, -, -, -, -⟩ := hinv
    dsimp only
    rw [store_of_lt arr1.params arr1.nparams (Cell.ptr pos) (by omega)]
    dsimp only
    cases heq : strstr buf pos '=' with
    | none =>
      dsimp only
      refine ⟨_, _, rfl, hbuf, ?_⟩
      refine ⟨?_, g3, (show 0 < arr1.max_params by omega), ?_, ?_, ?_, g6⟩
      · show (arr1.nparams + 1 - 1) % 2 = 0
        omega
      · show arr1.nparams + 1 - 1 ≤ arr1.max_params
        omega
      · show (arr1.params.set arr1.nparams (Cell.ptr pos)).length = arr1.max_params + 1
        rw [List.length_set, g4]
      · intro i hi
        have hi2 : i < arr.nparams := by
          have : i < arr1.nparams + 1 - 1 := hi
          omega
        obtain ⟨offset, ho⟩ := g5 i hi2
        refine ⟨offset, ?_⟩
        show (arr1.params.set arr1.nparams (Cell.ptr pos))[i]? = _
        have hne : arr1.nparams ≠ i := by omega
        rw [List.getElem?_set_ne hne, ho]
    | some eq =>
      obtain ⟨heq1, heq2⟩ := strstr_bounds buf pos '=' eq heq
      dsimp only
      rw [store_of_lt (arr1.params.set arr1.nparams (Cell.ptr pos)) (arr1.nparams + 1)
        (Cell.ptr (eq + 1)) (by rw [List.length_set]; omega)]
      dsimp only
      have hbuf1 : (buf.set eq '\x00').length = len := by rw [List.length_set, hbuf]
      have hinv2 : ArrayInv len
          { arr1 with
            params := (arr1.params.set arr1.nparams (Cell.ptr pos)).set (arr1.nparams + 1)
              (Cell.ptr (eq + 1))
            nparams := arr1.nparams + 1 + 1 } := by
        refine ⟨?_, g3, (show 0 < arr1.max_params by omega), ?_, ?_, ?_, g6⟩
        · show (arr1.nparams + 1 + 1) % 2 = 0
          omega
        · show arr1.nparams + 1 + 1 ≤ arr1.max_params
          omega
        · show ((arr1.params.set arr1.nparams (Cell.ptr pos)).set (arr1.nparams + 1)
            (Cell.ptr (eq + 1))).length = arr1.max_params + 1
          rw [List.length_set, List.length_set, g4]
        · intro i hi
          have hi2 : i < arr1.nparams + 1 + 1 := hi
          by_cases h1 : i = arr1.nparams + 1
          · refine ⟨eq + 1, ?_⟩
            show ((arr1.params.set arr1.nparams (Cell.ptr pos)).set (arr1.nparams + 1)
              (Cell.ptr (eq + 1)))[i]? = _
            rw [h1, List.getElem?_set_self (by rw [List.length_set]; omega)]
          · by_cases h0 : i = arr1.nparams
            · refine ⟨pos, ?_⟩
              show ((arr1.params.set arr1.nparams (Cell.ptr pos)).set (arr1.nparams + 1)
                (Cell.ptr (eq + 1)))[i]? = _
              rw [List.getElem?_set_ne (Ne.symm h1), h0, List.getElem?_set_self (by omega)]
            · obtain ⟨offset, ho⟩ := g5 i (by omega)
              refine ⟨offset, ?_⟩
              show ((arr1.params.set arr1.nparams (Cell.ptr pos)).set (arr1.nparams + 1)
                (Cell.ptr (eq + 1)))[i]? = _
              rw [List.getElem?_set_ne (Ne.symm h1), List.getElem?_set_ne (Ne.symm h0), ho]
      cases hcomma : strstr (buf.set eq '\x00') (eq + 1) ',' with
      | none =>
        dsimp only
        exact ⟨_, _, rfl, hbuf1, hinv2⟩
      | some comma =>
        obtain ⟨hc1, hc2⟩ := strstr_bounds _ _ _ _ hcomma
        dsimp only
        rw [hbuf1] at hc2
        exact ih _ _ _ (by rw [List.length_set, hbuf1]) (by omega) (by omega)
          (by show arr1.nparams + 1 + 1 ≤ comma + 1; omega) hinv2

/-- C35: for every C string parse_params returns without a store outside the
array: the result is never a fault.  The array it returns has max_params + 1
cells, nparams is even and at most max_params, the first nparams cells hold
pointers and the cell at index nparams holds NULL; max_params is even and at
most the larger of 20 and twice the length of the string.  In the loop, from
every state with nparams and max_params even and nparams at most max_params,
the growth check leaves nparams + 1 below max_params, so that the name and the
value are stored below max_params. -/
theorem parse_params_in_bounds (pstr : List Char) :
    (∃ buf arr, parse_params pstr = Except.ok (buf, arr) ∧
      arr.nparams % 2 = 0 ∧ arr.max_params % 2 = 0 ∧ arr.nparams ≤ arr.max_params ∧
      arr.params.length = arr.max_params + 1 ∧
      (∀ i, i < arr.nparams → ∃ offset, arr.params[i]? = some (Cell.ptr offset)) ∧
      arr.params[arr.nparams]? = some Cell.null ∧
      arr.max_params ≤ max 20 (2 * pstr.length)) ∧
    (∀ (pos : Nat) (arr : ParamsArray), ArrayInv pstr.length arr → arr.nparams ≤ pos →
      pos < pstr.length →
      (growIfFull arr).nparams = arr.nparams ∧
      (growIfFull arr).nparams + 1 < (growIfFull arr).max_params ∧
      (growIfFull arr).params.length = (growIfFull arr).max_params + 1) := by
  constructor
  · have hinit : ArrayInv pstr.length
        { params := palloc (20 + 1), max_params := 20, nparams := 0 } := by
      refine ⟨rfl, rfl, by decide, Nat.zero_le _, by simp [palloc], ?_, le_max_left _ _⟩
      intro i hi
      exact absurd hi (Nat.not_lt_zero _)
    obtain ⟨buf, arr, hloop, -, he, hme, -, hle, hlen, hfill, hmax⟩ :=
      parseLoop_inv pstr.length (pstr.length + 1) pstr 0 _ rfl (Nat.zero_le _) (by omega)
        (Nat.le_refl _) hinit
    unfold parse_params
    rw [hloop]
    dsimp only
    rw [store_of_lt arr.params arr.nparams Cell.null (by omega)]
    refine ⟨buf, _, rfl, he, hme, hle, ?_, ?_, ?_, hmax⟩
    · show (arr.params.set arr.nparams Cell.null).length = arr.max_params + 1
      rw [List.length_set, hlen]
    · intro i hi
      have hi2 : i < arr.nparams := hi
      obtain ⟨offset, ho⟩ := hfill i hi2
      refine ⟨offset, ?_⟩
      show (arr.params.set arr.nparams Cell.null)[i]? = _
      have hne : arr.nparams ≠ i := by omega
      rw [List.getElem?_set_ne hne, ho]
    · show (arr.params.set arr.nparams Cell.null)[arr.nparams]? = _
      rw [List.getElem?_set_self (by omega)]
  · intro pos arr hinv hn hpos
    obtain ⟨g1, g2, -, g4, -, -⟩ := growIfFull_room pstr.length pos arr hinv hn hpos
    exact ⟨g1, g2, g4⟩

/-- C35 at a string of eleven pairs, for which the array is reallocated once:
22 entries, max_params 40 and 41 cells, the cell at index 22 holding NULL. -/
theorem parse_params_in_bounds_witness :
    (∃ buf arr,
      parse_params "1=a,2=b,3=c,4=d,5=e,6=f,7=g,8=h,9=i,a=j,b=k".data = Except.ok (buf, arr) ∧
      arr.nparams = 22 ∧ arr.max_params = 40 ∧ arr.params.length = 41 ∧
      arr.params.drop 20 = [Cell.ptr 40, Cell.ptr 42, Cell.null] ++ List.replicate 18 Cell.uninit) ∧
    (∃ buf arr,
      parse_params "1=a,2=b,3=c,4=d,5=e,6=f,7=g,8=h,9=i,a=j,b=k".data = Except.ok (buf, arr) ∧
      arr.nparams % 2 = 0 ∧ arr.max_params % 2 = 0 ∧ arr.nparams ≤ arr.max_params ∧
      arr.params.length = arr.max_params + 1 ∧
      (∀ i, i < arr.nparams → ∃ offset, arr.params[i]? = some (Cell.ptr offset)) ∧
      arr.params[arr.nparams]? = some Cell.null ∧
      arr.max_params ≤ max 20 (2 * "1=a,2=b,3=c,4=d,5=e,6=f,7=g,8=h,9=i,a=j,b=k".data.length)) :=
  ⟨⟨_, _, rfl, rfl, rfl, rfl, rfl⟩,
    (parse_params_in_bounds "1=a,2=b,3=c,4=d,5=e,6=f,7=g,8=h,9=i,a=j,b=k".data).1⟩

end XsltProc
